import Mathlib

/-!
# kpi-drive-go: event-to-fact synchronisation

A shallow embedding of `main.go` and of the parts of the Go standard library it
calls (`time`, `strconv`, `encoding/json`, `net/url`), followed by the theorems
that settle the claims made about the program.

Conventions of the embedding:

* a Go `string` is a Lean `String` (a sequence of Unicode scalar values, that is,
  a valid UTF-8 byte string); every string of an `Event` comes out of
  `encoding/json`, which only yields valid UTF-8, and the template constants are
  valid UTF-8 literals. The byte view of a string is `String.toUTF8`;
* a Go `int`, `int64` or `uint64` is an `Int`, wrapped with `int64` / `uint64`
  where the Go code converts or may overflow;
* the standard library is embedded after the Go 1.18 - 1.21 sources (the program
  uses generics); later releases write the same dates, and write `\b` and
  `\f` for two control characters of a JSON string that are `\u0008` and
  `\u000c` here, which a decoder reads alike;
* the HTTP transport is an environment: what the login call, the event query
  and the write endpoint answer is a parameter of `main`, and so is whether
  `http.NewRequest` returns an error, in which case nothing is sent.
-/

namespace KpiDrive

/-! ## Machine integers -/

/-- Conversion to `uint64`: the value modulo `2^64`. -/
def uint64 (x : Int) : Int := x % 18446744073709551616

/-- Conversion to `int64`: the representative of `x` modulo `2^64` in `[-2^63, 2^63)`. -/
def int64 (x : Int) : Int :=
  (x + 9223372036854775808) % 18446744073709551616 - 9223372036854775808

/-- The values a Go `int` (64 bits) can hold. -/
def isInt (x : Int) : Prop := -9223372036854775808 ≤ x ∧ x ≤ 9223372036854775807

instance (x : Int) : Decidable (isInt x) := by unfold isInt; infer_instance

/-- The byte `'0' + d`. -/
def digitChar (d : Nat) : Char := Char.ofNat (48 + d)

/-- The value of a decimal digit byte, `c - '0'`. -/
def digitVal (c : Char) : Nat := c.toNat - 48

/-- The decimal loop shared by `strconv.formatBits` and `time.appendInt`:
`for u >= 10 { q := u / 10; buf[i] = '0' + u - q*10; u = q }; buf[i] = '0' + u`.
The first argument is the room left in the buffer. -/
def fmtDec : Nat → Nat → List Char → List Char
  | 0, u, acc => digitChar (u % 10) :: acc
  | room + 1, u, acc =>
    if u ≥ 10 then fmtDec room (u / 10) (digitChar (u % 10) :: acc)
    else digitChar u :: acc

namespace strconv

/-- Go `strconv.formatBits(nil, u, 10, neg, false)`: when `neg`, `u` is negated
as a `uint64`, the decimal digits are written from the right and the sign is put
in front. -/
def formatBits (u : Int) (neg : Bool) : List Char :=
  let u := if neg then uint64 (-u) else u
  let ds := fmtDec 64 u.toNat []
  if neg then '-' :: ds else ds

/-- Go `strconv.FormatInt(i, 10)`. -/
def FormatInt (i : Int) : List Char := formatBits (uint64 i) (decide (i < 0))

/-- Go `strconv.Itoa(i) = FormatInt(int64(i), 10)`. -/
def Itoa (i : Int) : String := String.mk (FormatInt (int64 i))

end strconv

/-! ## Package `time` -/

namespace time

def secondsPerMinute : Int := 60
def secondsPerHour : Int := 3600
def secondsPerDay : Int := 86400
def daysPer400Years : Int := 146097
def daysPer100Years : Int := 36524
def daysPer4Years : Int := 1461
def absoluteZeroYear : Int := -292277022399
def absoluteToInternal : Int := -9223371966579724800
def internalToAbsolute : Int := 9223371966579724800
def unixToInternal : Int := 62135596800
def internalToUnix : Int := -62135596800

/-- Go `time.Time` without a monotonic clock reading and in UTC: `wall` holds
the nanoseconds, `ext` the seconds since January 1 of year 1. -/
structure Time where
  wall : Int
  ext : Int
deriving DecidableEq, Repr

/-- Go `time.daysBefore`. -/
def daysBefore : List Int := [0, 31, 59, 90, 120, 151, 181, 212, 243, 273, 304, 334, 365]

/-- Indexing of `daysBefore`. -/
def daysBeforeAt (i : Int) : Int := daysBefore.getD i.toNat 0

/-- Go `time.isLeap`. -/
def isLeap (year : Int) : Bool :=
  year % 4 == 0 && (year % 100 != 0 || year % 400 == 0)

/-- Go `time.daysIn`. -/
def daysIn (m : Int) (year : Int) : Int :=
  if m == 2 && isLeap year then 29
  else daysBeforeAt m - daysBeforeAt (m - 1)

/-- Go `time.norm`: `hi, lo` such that `hi * base + lo` is unchanged and
`0 <= lo < base`. The dividends are non-negative where the divisions are taken. -/
def norm (hi lo base : Int) : Int × Int :=
  let (hi, lo) :=
    if lo < 0 then
      let n := (-lo - 1) / base + 1
      (hi - n, lo + n * base)
    else (hi, lo)
  if lo ≥ base then
    let n := lo / base
    (hi + n, lo - n * base)
  else (hi, lo)

/-- Go `time.daysSinceEpoch`. -/
def daysSinceEpoch (year : Int) : Int :=
  let y := uint64 (int64 year - absoluteZeroYear)
  let n := y / 400
  let y := y - 400 * n
  let d := daysPer400Years * n
  let n := y / 100
  let y := y - 100 * n
  let d := d + daysPer100Years * n
  let n := y / 4
  let y := y - 4 * n
  let d := d + daysPer4Years * n
  let n := y
  uint64 (d + 365 * n)

/-- Go `time.unixTime`. -/
def unixTime (sec : Int) (nsec : Int) : Time :=
  { wall := nsec, ext := int64 (sec + unixToInternal) }

/-- Go `time.Date(year, month, day, hour, min, sec, nsec, time.UTC)`. -/
def Date (year month day hour min sec nsec : Int) : Time :=
  let m := month - 1
  let (year, m) := norm year m 12
  let month := m + 1
  let (sec, nsec) := norm sec nsec 1000000000
  let (min, sec) := norm min sec 60
  let (hour, min) := norm hour min 60
  let (day, hour) := norm day hour 24
  let d := daysSinceEpoch year
  let d := d + daysBeforeAt (month - 1)
  let d := if isLeap year && month ≥ 3 then d + 1 else d
  let d := uint64 (d + uint64 (day - 1))
  let abs := uint64 (d * secondsPerDay)
  let abs := uint64 (abs + uint64 (hour * secondsPerHour + min * secondsPerMinute + sec))
  let unix := int64 (int64 abs + (absoluteToInternal + internalToUnix))
  unixTime unix nsec

/-- Go `Time.abs` for a time in UTC. -/
def Time.abs (t : Time) : Int :=
  let sec := int64 (t.ext + internalToUnix)
  uint64 (sec + (unixToInternal + internalToAbsolute))

/-- Go `time.absDate(abs, true)`: year, month and day of an absolute time. -/
def absDate (abs : Int) : Int × Int × Int :=
  let d := abs / secondsPerDay
  let n := d / daysPer400Years
  let y := 400 * n
  let d := d - daysPer400Years * n
  let n := d / daysPer100Years
  let n := n - n / 4
  let y := y + 100 * n
  let d := d - daysPer100Years * n
  let n := d / daysPer4Years
  let y := y + 4 * n
  let d := d - daysPer4Years * n
  let n := d / 365
  let n := n - n / 4
  let y := y + n
  let d := d - 365 * n
  let year := int64 (int64 y + absoluteZeroYear)
  let day := d
  if isLeap year && day == 31 + 29 - 1 then (year, 2, 29)
  else
    let day := if isLeap year && day > 31 + 29 - 1 then day - 1 else day
    let month := day / 31
    let e := daysBeforeAt (month + 1)
    let (month, begin) := if day ≥ e then (month + 1, e) else (month, daysBeforeAt month)
    (year, month + 1, day - begin + 1)

/-- Go `time.appendInt(b, x, width)`: the decimal of `x`, zero-padded to `width`. -/
def appendInt (b : List Char) (x : Int) (width : Nat) : List Char :=
  let b := if x < 0 then b ++ ['-'] else b
  let u := if x < 0 then uint64 (-x) else uint64 x
  let ds := fmtDec 19 u.toNat []
  b ++ List.replicate (width - ds.length) '0' ++ ds

/-- Go `Time.Format("2006-01-02")`: the layout splits into the chunks
`stdLongYear`, `"-"`, `stdZeroMonth`, `"-"`, `stdZeroDay`. -/
def Time.Format (t : Time) : String :=
  let (year, month, day) := absDate t.abs
  let b := appendInt [] year 4
  let b := b ++ ['-']
  let b := appendInt b month 2
  let b := b ++ ['-']
  let b := appendInt b day 2
  String.mk b

/-- Go `time.isDigit(s, i)`. -/
def isDigit (s : List Char) (i : Nat) : Bool :=
  match s.get? i with
  | some c => decide ('0' ≤ c ∧ c ≤ '9')
  | none => false

/-- Go `time.getnum`: one or two decimal digits, exactly two when `fixed`. -/
def getnum (s : List Char) (fixed : Bool) : Option (Int × List Char) :=
  if !isDigit s 0 then none
  else if !isDigit s 1 then
    if fixed then none
    else some ((digitVal (s.getD 0 '0') : Int), s.drop 1)
  else some ((digitVal (s.getD 0 '0') * 10 + digitVal (s.getD 1 '0') : Int), s.drop 2)

/-- Go `time.leadingInt`: the leading decimal digits of `s` as a `uint64`, with
its overflow checks, and the rest of `s`. -/
def leadingInt : List Char → Nat → Option (Nat × List Char)
  | [], x => some (x, [])
  | c :: cs, x =>
    if c < '0' ∨ c > '9' then some (x, c :: cs)
    else if x > 9223372036854775808 / 10 then none
    else
      let x := x * 10 + digitVal c
      if x > 9223372036854775808 then none else leadingInt cs x

/-- Go `time.atoi`: an optional sign and decimal digits up to the end of `s`. -/
def atoi (s : List Char) : Option Int :=
  let neg := decide (s.head? = some '-')
  let s := if s.head? = some '-' ∨ s.head? = some '+' then s.drop 1 else s
  match leadingInt s 0 with
  | some (q, []) => some (if neg then -(int64 q) else int64 q)
  | _ => none

/-- Go `time.cutspace`. -/
def cutspace : List Char → List Char
  | ' ' :: s => cutspace s
  | s => s

/-- Go `time.skip(value, prefix)`: `value` without the literal `pre`, a run of
blanks of `pre` matching any run of blanks; the first argument bounds the
number of iterations by the length of `pre`. -/
def skipLoop : Nat → List Char → List Char → Option (List Char)
  | _, value, [] => some value
  | 0, _, _ :: _ => none
  | n + 1, value, p :: pre =>
    if p = ' ' then
      if value.head?.isSome ∧ value.head? ≠ some ' ' then none
      else skipLoop n (cutspace value) (cutspace (p :: pre))
    else if value.head? ≠ some p then none
    else skipLoop n (value.drop 1) pre

/-- Go `time.skip`. -/
def skip (value pre : List Char) : Option (List Char) := skipLoop pre.length value pre

/-- Go `time.commaOrPeriod`. -/
def commaOrPeriod (c : Char) : Bool := c == '.' || c == ','

/-- Go `time.parseNanoseconds(value, nbytes)`. -/
def parseNanoseconds (value : List Char) (nbytes : Nat) : Option Int :=
  if !commaOrPeriod (value.getD 0 ' ') then none
  else
    let value := if nbytes > 10 then value.take 10 else value
    let nbytes := if nbytes > 10 then 10 else nbytes
    match atoi ((value.take nbytes).drop 1) with
    | none => none
    | some ns =>
      if ns < 0 then none
      else some (ns * 10 ^ (10 - nbytes))

/-- The chunk `stdLongYear` of `time.Parse`: exactly four bytes, read by `atoi`. -/
def parseLongYear (value : List Char) : Option (Int × List Char) :=
  if value.length < 4 ∨ !isDigit value 0 then none
  else
    match atoi (value.take 4) with
    | some year => some (year, value.drop 4)
    | none => none

/-- The number of digits that follow the separator in the chunk `stdFracSecond9`:
`for i+1 < len(value) && '0' <= value[i+1] && value[i+1] <= '9' { i++ }`. -/
def fracDigits : List Char → Nat
  | [] => 0
  | c :: cs => if '0' ≤ c ∧ c ≤ '9' then fracDigits cs + 1 else 0

/-- The chunk `stdFracSecond9` of `time.Parse`: an optional separator and any
number of digits. -/
def parseFracSecond9 (value : List Char) : Option (Int × List Char) :=
  if value.length < 2 ∨ !commaOrPeriod (value.getD 0 ' ') ∨ value.getD 1 ' ' < '0'
      ∨ '9' < value.getD 1 ' ' then
    some (0, value)
  else
    let i := fracDigits (value.drop 1)
    match parseNanoseconds value (1 + i) with
    | none => none
    | some nsec => some (nsec, value.drop (1 + i))

/-- The chunks `stdLongYear`, `"-"`, `stdZeroMonth`, `"-"`, `stdZeroDay` of
`time.Parse`: year, month and day, and the rest of the value. The month is
checked against `1..12` at once, the day after the loop. -/
def parseDateChunks (value : List Char) : Option ((Int × Int × Int) × List Char) :=
  (parseLongYear value).bind fun yv =>
  (skip yv.2 ['-']).bind fun value =>
  (getnum value true).bind fun mv =>
  if mv.1 ≤ 0 ∨ 12 < mv.1 then none else
  (skip mv.2 ['-']).bind fun value =>
  (getnum value true).bind fun dv =>
  some ((yv.1, mv.1, dv.1), dv.2)

/-- The chunks `"T"`, `stdHour`, `":"`, `stdZeroMinute` of `time.Parse`. -/
def parseHourMinuteChunks (value : List Char) : Option ((Int × Int) × List Char) :=
  (skip value ['T']).bind fun value =>
  (getnum value false).bind fun hv =>
  if hv.1 < 0 ∨ 24 ≤ hv.1 then none else
  (skip hv.2 [':']).bind fun value =>
  (getnum value true).bind fun nv =>
  if nv.1 < 0 ∨ 60 ≤ nv.1 then none else
  some ((hv.1, nv.1), nv.2)

/-- The chunks `":"`, `stdZeroSecond`, `stdFracSecond9` of `time.Parse`; the
layout has a fractional second after the seconds, so the seconds chunk leaves
the fraction to it. -/
def parseSecondChunks (value : List Char) : Option ((Int × Int) × List Char) :=
  (skip value [':']).bind fun value =>
  (getnum value true).bind fun sv =>
  if sv.1 < 0 ∨ 60 ≤ sv.1 then none else
  (parseFracSecond9 sv.2).bind fun fv =>
  some ((sv.1, fv.1), fv.2)

/-- Go `time.Parse("2006-01-02T15:04:05.999999999Z", value)`. `nextStdChunk`
splits the layout into `stdLongYear`, `"-"`, `stdZeroMonth`, `"-"`, `stdZeroDay`,
`"T"`, `stdHour`, `":"`, `stdZeroMinute`, `":"`, `stdZeroSecond`,
`stdFracSecond9` and the literal `"Z"`, after which no text may be left; the
day is checked against the month after the loop, and the result is in UTC. -/
def Parse (value : List Char) : Option Time :=
  (parseDateChunks value).bind fun d =>
  (parseHourMinuteChunks d.2).bind fun h =>
  (parseSecondChunks h.2).bind fun s =>
  (skip s.2 ['Z']).bind fun value =>
  if value.length ≠ 0 then none else
  if d.1.2.2 < 1 ∨ d.1.2.2 > daysIn d.1.2.1 d.1.1 then none else
  some (Date d.1.1 d.1.2.1 d.1.2.2 h.1.1 h.1.2 s.1.1 s.1.2)

/-! ### The two halves of `absDate` and the day count of `Date`

These restate parts of the functions above, for the proofs; `absDate_eq` and
`abs_Date` tie them to `absDate` and `Date`. -/

/-- The year and the day within the year that `absDate` computes. -/
def absYearDay (abs : Int) : Int × Int :=
  let d := abs / secondsPerDay
  let n := d / daysPer400Years
  let y := 400 * n
  let d := d - daysPer400Years * n
  let n := d / daysPer100Years
  let n := n - n / 4
  let y := y + 100 * n
  let d := d - daysPer100Years * n
  let n := d / daysPer4Years
  let y := y + 4 * n
  let d := d - daysPer4Years * n
  let n := d / 365
  let n := n - n / 4
  let y := y + n
  let d := d - 365 * n
  (int64 (int64 y + absoluteZeroYear), d)

/-- The month and day that `absDate` derives from a year and a day of the year. -/
def monthDay (year day : Int) : Int × Int × Int :=
  if isLeap year && day == 31 + 29 - 1 then (year, 2, 29)
  else
    let day := if isLeap year && day > 31 + 29 - 1 then day - 1 else day
    let month := day / 31
    let e := daysBeforeAt (month + 1)
    let (month, begin) := if day ≥ e then (month + 1, e) else (month, daysBeforeAt month)
    (year, month + 1, day - begin + 1)

/-- The day of the year of a calendar date, as `Date` adds it up. -/
def yearDay (year month day : Int) : Int :=
  let d := daysBeforeAt (month - 1)
  let d := if isLeap year && month ≥ 3 then d + 1 else d
  d + (day - 1)

end time

/-! ## Package `encoding/json`: marshalling -/

namespace json

/-- Go `json.hex`. -/
def hex : List Char := "0123456789abcdef".toList

/-- Go `json.htmlSafeSet`: the ASCII bytes written as they are, that is all from
the blank on, but for the double quote, the backslash, `<`, `>` and `&`. -/
def htmlSafeSet (c : Char) : Bool :=
  decide (32 ≤ c.toNat) && c != '"' && c != '\\' && c != '<' && c != '>' && c != '&'

/-- What `encodeState.string` (with `escapeHTML`) writes for one character of
the string: an ASCII byte as it is or escaped, the separators U+2028 and U+2029
escaped, every other character as its UTF-8 bytes. -/
def encodeChar (c : Char) : List Char :=
  if c.toNat < 128 then
    if htmlSafeSet c then [c]
    else if c = '\\' ∨ c = '"' then ['\\', c]
    else if c = '\n' then ['\\', 'n']
    else if c = '\r' then ['\\', 'r']
    else if c = '\t' then ['\\', 't']
    else ['\\', 'u', '0', '0', hex.getD (c.toNat / 16) '0', hex.getD (c.toNat % 16) '0']
  else if c = Char.ofNat 8232 ∨ c = Char.ofNat 8233 then
    ['\\', 'u', '2', '0', '2', hex.getD (c.toNat % 16) '0']
  else [c]

/-- Go `encodeState.string(s, true)`. -/
def encodeString (s : String) : List Char :=
  '"' :: (s.data.flatMap encodeChar ++ ['"'])

/-- The encoder of an `int` field: `strconv.AppendInt(b, v, 10)`. -/
def encodeInt (i : Int) : List Char := strconv.FormatInt i

end json

/-! ## Package `net/url` -/

namespace url

/-- The bytes of a string (in Go, the string itself). -/
def bytes (s : String) : List UInt8 := s.data.flatMap String.utf8EncodeChar

/-- The byte of an ASCII character. -/
def byte (c : Char) : UInt8 := c.toNat.toUInt8

/-- Go `url.upperhex`. -/
def upperhex : List UInt8 := bytes "0123456789ABCDEF"

/-- Go `url.shouldEscape(c, encodeQueryComponent)`: everything but the
unreserved bytes, which are the letters, the digits, `-`, `_`, `.` and `~`. -/
def shouldEscape (c : UInt8) : Bool :=
  if (byte 'a' ≤ c ∧ c ≤ byte 'z') ∨ (byte 'A' ≤ c ∧ c ≤ byte 'Z') ∨
      (byte '0' ≤ c ∧ c ≤ byte '9') then false
  else if c = byte '-' ∨ c = byte '_' ∨ c = byte '.' ∨ c = byte '~' then false
  else true

/-- Go `url.QueryEscape`. -/
def QueryEscape (s : List UInt8) : List UInt8 :=
  s.flatMap fun c =>
    if c = byte ' ' then [byte '+']
    else if shouldEscape c then
      [byte '%', upperhex.getD (c.toNat / 16) 0, upperhex.getD (c.toNat % 16) 0]
    else [c]

/-- Go `url.Values`, a `map[string][]string`: the keys are distinct, in the
order in which they were added. -/
abbrev Values := List (List UInt8 × List (List UInt8))

/-- Go `Values.Add`: `v[key] = append(v[key], value)`. -/
def Values.Add : Values → List UInt8 → List UInt8 → Values
  | [], key, value => [(key, [value])]
  | (k, vs) :: rest, key, value =>
    if k = key then (k, vs ++ [value]) :: rest
    else (k, vs) :: Values.Add rest key value

/-- Go `v[key]`. -/
def Values.get (v : Values) (key : List UInt8) : List (List UInt8) :=
  match v.find? fun kv => kv.1 = key with
  | some kv => kv.2
  | none => []

/-- The order of Go strings: byte by byte. -/
def less : List UInt8 → List UInt8 → Bool
  | [], [] => false
  | [], _ :: _ => true
  | _ :: _, [] => false
  | a :: as, b :: bs => if a < b then true else if b < a then false else less as bs

/-- Insertion of a key into a sorted list of keys. -/
def insertKey (k : List UInt8) : List (List UInt8) → List (List UInt8)
  | [] => [k]
  | x :: xs => if less x k then x :: insertKey k xs else k :: x :: xs

/-- The effect of `slices.Sort(keys)`. -/
def sortKeys (keys : List (List UInt8)) : List (List UInt8) :=
  keys.foldr insertKey []

/-- The loop of `Values.Encode` over the sorted keys: `key=value` pairs, each
but the first after a `&`. -/
def encodePairs (v : Values) : List (List UInt8) → List UInt8 → List UInt8
  | [], buf => buf
  | k :: keys, buf =>
    let keyEscaped := QueryEscape k
    let buf := (v.get k).foldl
      (fun buf value =>
        let buf := if buf.length > 0 then buf ++ [byte '&'] else buf
        buf ++ keyEscaped ++ [byte '='] ++ QueryEscape value)
      buf
    encodePairs v keys buf

/-- Go `Values.Encode`. -/
def Values.Encode (v : Values) : List UInt8 :=
  encodePairs v (sortKeys (v.map Prod.fst)) []

end url

/-! ## The program: `main.go` -/

/-- The JSON value handed to `UnmarshalJSON`, as far as `json.Unmarshal` into a
`string` tells values apart: a string (here already unquoted), `null`, or a
value of another kind. -/
inductive JSONValue where
  | str (s : String)
  | null
  | other
deriving DecidableEq, Repr

/-- Go `json.Unmarshal(data, &raw)` for `var raw string`: a string is stored,
`null` leaves `raw` empty, anything else is an error. -/
def unmarshalString (data : JSONValue) : Except String String :=
  match data with
  | .str s => .ok s
  | .null => .ok ""
  | .other => .error "json: cannot unmarshal value into Go value of type string"

structure EventTime where
  Time : time.Time
deriving DecidableEq, Repr

def EventTime.UnmarshalJSON (data : JSONValue) : Except String EventTime :=
  match unmarshalString data with
  | .error err => .error err
  | .ok raw =>
    match time.Parse raw.data with
    | none => .error "parsing time: cannot parse"
    | some t => .ok { Time := t }

structure ResponseMessages where
  Error : List String
  Warning : List String
  Info : List String
deriving DecidableEq, Repr

structure Response (T : Type) where
  Messages : ResponseMessages
  Data : T
  Status : String
deriving Repr

structure ResponseData (T : Type) where
  Page : Int
  PagesCount : Int
  RowsCount : Int
  Rows : List T
deriving Repr

structure EventAuthor where
  MoId : Int
  UserId : Int
  UserName : String
deriving DecidableEq, Repr

structure EventParamsPeriod where
  End : String
  Start : String
  TypeId : Int
  TypeKey : String
deriving DecidableEq, Repr

structure EventParams where
  IndicatorToMoId : Int
  Platform : String
  Period : EventParamsPeriod
deriving DecidableEq, Repr

structure Event where
  Author : EventAuthor
  Time : EventTime
  Params : EventParams
deriving DecidableEq, Repr

structure FactSaved where
  IndicatorToMoFactId : Int
deriving DecidableEq, Repr

structure Fact where
  PeriodStart : String
  PeriodEnd : String
  PeriodKey : String
  IndToMoId : String
  IndToMoFactId : String
  Value : String
  FactTime : String
  IsPlan : String
  SuperTags : String
  AuthUserId : String
  Comment : String
deriving DecidableEq, Repr

structure Tag where
  ID : Int
  Name : String
  Key : String
  ValuesSource : Int
deriving DecidableEq, Repr

structure Data where
  Tag : Tag
  Value : String
deriving DecidableEq, Repr

namespace json

/-- The encoder of a `Tag`, with the keys of its `json` struct tags. -/
def encodeTag (t : Tag) : List Char :=
  "\x7b\"id\":".toList ++ encodeInt t.ID ++ ",\"name\":".toList ++ encodeString t.Name ++
    ",\"key\":".toList ++ encodeString t.Key ++ ",\"values_source\":".toList ++
    encodeInt t.ValuesSource ++ ['}']

/-- The encoder of a `Data`. -/
def encodeData (d : Data) : List Char :=
  "\x7b\"tag\":".toList ++ encodeTag d.Tag ++ ",\"value\":".toList ++ encodeString d.Value ++ ['}']

/-- The elements of an array, separated by commas. -/
def encodeElems : List Data → List Char
  | [] => []
  | [d] => encodeData d
  | d :: ds => encodeData d ++ ',' :: encodeElems ds

/-- Go `json.Marshal(v)` for a non-nil `v []Data`; it has no error for this type. -/
def Marshal (v : List Data) : List Char := '[' :: (encodeElems v ++ [']'])

end json

def populateFact (event : Event) (fact : Fact) : Fact :=
  let tagsData : Data :=
    { Tag := { ID := event.Author.UserId, Name := "Клиент", Key := "client", ValuesSource := 0 },
      Value := event.Author.UserName }
  let tags := json.Marshal [tagsData]
  let fact := { fact with PeriodStart := event.Params.Period.Start }
  let fact := { fact with PeriodEnd := event.Params.Period.End }
  let fact := { fact with FactTime := event.Time.Time.Format }
  let fact := { fact with IndToMoFactId := strconv.Itoa event.Params.IndicatorToMoId }
  { fact with SuperTags := String.mk tags }


/-! ### The transport

The HTTP client, the network and the server are the environment of the
program. A `Transport` answers one request at a time and may keep state (the
cookie jar, the server's data). Its answer says first whether `http.NewRequest`
returns an error, so that the request never leaves the program, then whether
`client.Do` or `io.ReadAll` does. What `json.Unmarshal` makes of a response body
is part of the answer, but for the `time` fields of the events, which go through
`EventTime.UnmarshalJSON`. -/

/-- A request, as `http.NewRequest` and the header calls build it. -/
structure Request where
  method : String
  url : String
  header : List (String × String)
  body : List UInt8
deriving DecidableEq, Repr

/-- An event of a response body before the custom decoding of its time: `Time`
is the JSON value of the key `time`, if the key is there. -/
structure RawEvent where
  Author : EventAuthor
  Time : Option JSONValue
  Params : EventParams
deriving DecidableEq, Repr

/-- A response body that `io.ReadAll` has read: its text, and what
`json.Unmarshal` decodes it to as the envelope of an event query and as the
envelope of a write (an error when the body is not JSON of that shape). -/
structure Body where
  text : String
  events : Except String (Response (ResponseData RawEvent))
  saved : Except String (Response FactSaved)

/-- What comes of one request that the program asks for: `http.NewRequest`
returns an error for the method and the URL, so that nothing is sent
(`invalid`); the request is sent and `client.Do` or `io.ReadAll` returns an
error (`failed`); or a body is read (`ok`). -/
inductive Answer where
  | invalid (err : String)
  | failed (err : String)
  | ok (body : Body)

/-- The environment: what comes of `http.NewRequest`, `client.Do(req)` and
`io.ReadAll` for a request, and the next state of the environment. Whether
`http.NewRequest` accepts a URL is the library's matter and left to the
environment; when it does not, nothing goes out and the state stays. -/
abbrev Transport (σ : Type) := σ → Request → σ × Answer

structure KpiDriveClient where
  baseUrl : String
deriving DecidableEq, Repr

def NewKpiDriveClient (baseUrl : String) : KpiDriveClient := { baseUrl := baseUrl }

/-- What the program does that can be seen from outside, in order. -/
inductive Step where
  | request (r : Request)
  | println (line : String)
deriving DecidableEq, Repr

/-- How a run ends: `main` returns, or a run-time panic stops the program. -/
inductive Outcome where
  | returned
  | panicked (msg : String)
deriving DecidableEq, Repr

/-- The request of `KpiDriveClient.Auth`. -/
def authRequest (c : KpiDriveClient) (login password : String) : Request :=
  { method := "POST", url := c.baseUrl ++ "/_api/auth/login",
    header := [("Content-Type", "application/x-www-form-urlencoded")],
    body := url.bytes ("login=" ++ login ++ "&password=" ++ password) }

/-- Go `KpiDriveClient.Auth`: the steps taken, the next state and the error.
The error of `http.NewRequest` is printed and returned before anything is sent. -/
def KpiDriveClient.Auth {σ : Type} (c : KpiDriveClient) (w : Transport σ) (s : σ)
    (login password : String) : List Step × σ × Except String Unit :=
  let req := authRequest c login password
  match w s req with
  | (_, .invalid err) => ([.println err], s, .error err)
  | (s, .failed err) => ([.request req], s, .error err)
  | (s, .ok authBody) =>
    ([.request req, .println ("auth result: " ++ authBody.text)], s, .ok ())

/-- The filter that `GetEvents` sends. -/
def eventsFilter : String :=
  "\x7b\n\t\t\"filter\": \x7b\n\t\t\t\"field\": \x7b\n\t\t\t\t\"key\": \"type\",\n\t\t\t\t\"sign\": \"LIKE\",\n\t\t\t\t\"values\": [\n\t\t\t\t\t\"MATRIX_REQUEST\"\n\t\t\t\t]\n\t\t\t\x7d\n\t\t\x7d,\n\t\t\"sort\": \x7b\n\t\t\t\"fields\": [\n\t\t\t\t\"time\"\n\t\t\t],\n\t\t\t\"direction\": \"DESC\"\n\t\t\x7d,\n\t\t\"limit\": 10\n\t\x7d"

/-- The request of `KpiDriveClient.GetEvents`. -/
def eventsRequest (c : KpiDriveClient) : Request :=
  { method := "GET", url := c.baseUrl ++ "/_api/events",
    header := [("Content-Type", "application/json")],
    body := url.bytes eventsFilter }

/-- The zero value of `EventTime`. -/
def EventTime.zero : EventTime := { Time := { wall := 0, ext := 0 } }

/-- The decoding of one row: the time goes through `EventTime.UnmarshalJSON`
when the row has the key `time`, and stays the zero value otherwise. -/
def decodeEvent (r : RawEvent) : Except String Event :=
  match r.Time with
  | none => .ok { Author := r.Author, Time := EventTime.zero, Params := r.Params }
  | some v =>
    match EventTime.UnmarshalJSON v with
    | .error err => .error err
    | .ok t => .ok { Author := r.Author, Time := t, Params := r.Params }

/-- The decoding of the rows in order: the error of an `UnmarshalJSON` ends the
decoding of the whole body with that error. -/
def decodeRows : List RawEvent → Except String (List Event)
  | [] => .ok []
  | r :: rs =>
    match decodeEvent r with
    | .error err => .error err
    | .ok e =>
      match decodeRows rs with
      | .error err => .error err
      | .ok es => .ok (e :: es)

/-- What `json.Unmarshal(body, out)` of `GetEvents` returns. -/
def unmarshalEvents (body : Body) : Except String (Response (ResponseData Event)) :=
  match body.events with
  | .error err => .error err
  | .ok r =>
    match decodeRows r.Data.Rows with
    | .error err => .error err
    | .ok rows =>
      .ok { Messages := r.Messages, Status := r.Status,
            Data := { Page := r.Data.Page, PagesCount := r.Data.PagesCount,
                      RowsCount := r.Data.RowsCount, Rows := rows } }

/-- Go `KpiDriveClient.GetEvents`. The error of `http.NewRequest` is returned
before anything is sent. -/
def KpiDriveClient.GetEvents {σ : Type} (c : KpiDriveClient) (w : Transport σ) (s : σ) :
    List Step × σ × Except String (Response (ResponseData Event)) :=
  let req := eventsRequest c
  match w s req with
  | (_, .invalid err) => ([], s, .error err)
  | (s, .failed err) => ([.request req], s, .error err)
  | (s, .ok body) => ([.request req], s, unmarshalEvents body)

/-- The form of `KpiDriveClient.SaveFact`: `url.Values{}` after the eleven `Add`. -/
def saveFactData (fact : Fact) : url.Values :=
  let data : url.Values := []
  let data := data.Add (url.bytes "period_start") (url.bytes fact.PeriodStart)
  let data := data.Add (url.bytes "period_end") (url.bytes fact.PeriodEnd)
  let data := data.Add (url.bytes "period_key") (url.bytes fact.PeriodKey)
  let data := data.Add (url.bytes "indicator_to_mo_id") (url.bytes fact.IndToMoId)
  let data := data.Add (url.bytes "indicator_to_mo_fact_id") (url.bytes fact.IndToMoFactId)
  let data := data.Add (url.bytes "value") (url.bytes fact.Value)
  let data := data.Add (url.bytes "fact_time") (url.bytes fact.FactTime)
  let data := data.Add (url.bytes "is_plan") (url.bytes fact.IsPlan)
  let data := data.Add (url.bytes "supertags") (url.bytes fact.SuperTags)
  let data := data.Add (url.bytes "auth_user_id") (url.bytes fact.AuthUserId)
  data.Add (url.bytes "comment") (url.bytes fact.Comment)

/-- The request of `KpiDriveClient.SaveFact`. -/
def saveFactRequest (c : KpiDriveClient) (token : String) (fact : Fact) : Request :=
  let encData := (saveFactData fact).Encode
  { method := "POST", url := c.baseUrl ++ "/_api/facts/save_fact",
    header := [("Content-Type", "application/x-www-form-urlencoded"),
               ("Content-Length", strconv.Itoa encData.length),
               ("Authorization", "Bearer " ++ token)],
    body := encData }

/-- Go `KpiDriveClient.SaveFact`. The error of `http.NewRequest` is returned
before anything is sent. -/
def KpiDriveClient.SaveFact {σ : Type} (c : KpiDriveClient) (w : Transport σ) (s : σ)
    (token : String) (fact : Fact) : List Step × σ × Except String (Response FactSaved) :=
  let req := saveFactRequest c token fact
  match w s req with
  | (_, .invalid err) => ([], s, .error err)
  | (s, .failed err) => ([.request req], s, .error err)
  | (s, .ok respBody) => ([.request req], s, respBody.saved)

/-- The `token` of `main`. -/
def token : String := "48ab34464a5573519725deb5865cc74c"

/-- The `Fact` literal of the loop of `main`; the fields it leaves out are empty. -/
def templateFact : Fact :=
  { PeriodStart := "", PeriodEnd := "", PeriodKey := "month", IndToMoId := "315914",
    IndToMoFactId := "0", Value := "1", FactTime := "", IsPlan := "", SuperTags := "",
    AuthUserId := "40", Comment := "ArangoDB" }

/-- The loop of `main` over `events.Data.Rows`. Indexing `Messages.Error[0]` of
an empty slice is a run-time panic. -/
def mainLoop {σ : Type} (client : KpiDriveClient) (w : Transport σ) :
    σ → List Event → List Step × Outcome
  | _, [] => ([], .returned)
  | s, event :: rest =>
    let fact := populateFact event templateFact
    match client.SaveFact w s token fact with
    | (steps, _, .error err) => (steps ++ [.println err], .returned)
    | (steps, s, .ok factSaved) =>
      if factSaved.Status = "OK" then
        let line := "Fact saved, id = " ++ strconv.Itoa factSaved.Data.IndicatorToMoFactId
        let (more, outcome) := mainLoop client w s rest
        (steps ++ [.println line] ++ more, outcome)
      else
        match factSaved.Messages.Error with
        | [] => (steps, .panicked "runtime error: index out of range [0] with length 0")
        | msg :: _ => (steps ++ [.println ("Fact save failure, error = " ++ msg)], .returned)

/-- Go `main`, run against a transport in a given state. -/
def main {σ : Type} (w : Transport σ) (s : σ) : List Step × Outcome :=
  let client := NewKpiDriveClient "https://development.kpi-drive.ru"
  match client.Auth w s "admin" "admin" with
  | (steps, _, .error err) => (steps ++ [.println err], .returned)
  | (steps, s, .ok _) =>
    match client.GetEvents w s with
    | (steps2, _, .error err) => (steps ++ steps2 ++ [.println err], .returned)
    | (steps2, s, .ok events) =>
      let (steps3, outcome) := mainLoop client w s events.Data.Rows
      (steps ++ steps2 ++ steps3, outcome)


/-! ### Observations on a run -/

/-- The requests among the steps of a run, in order. -/
def requests : List Step → List Request
  | [] => []
  | .request r :: steps => r :: requests steps
  | .println _ :: steps => requests steps

/-- The lines printed in a run, in order. -/
def printed : List Step → List String
  | [] => []
  | .request _ :: steps => printed steps
  | .println line :: steps => line :: printed steps

/-- Whether a write failed for the loop of `main`: `SaveFact` returned an error,
or an envelope whose status is not `"OK"`. -/
def writeFailed (r : Except String (Response FactSaved)) : Bool :=
  match r with
  | .error _ => true
  | .ok resp => decide (resp.Status ≠ "OK")

/-- What `SaveFact` returns for each fact of a list when the facts are written
one after the other, from the state `s` of the environment on. -/
def writeResults {σ : Type} (client : KpiDriveClient) (w : Transport σ) :
    σ → List Fact → List (Except String (Response FactSaved))
  | _, [] => []
  | s, fact :: facts =>
    let r := client.SaveFact w s token fact
    r.2.2 :: writeResults client w r.2.1 facts

/-- Whether the request of `SaveFact` goes out for each fact of a list when the
facts are written one after the other, from the state `s` of the environment
on: it does not when `http.NewRequest` returns an error. -/
def writesSent {σ : Type} (client : KpiDriveClient) (w : Transport σ) :
    σ → List Fact → List Bool
  | _, [] => []
  | s, fact :: facts =>
    let r := client.SaveFact w s token fact
    (!(requests r.1).isEmpty) :: writesSent client w r.2.1 facts


/-- The event of the scenario of the specification: `time` is
`2024-02-01T08:15:00.123456Z`. -/
def scenarioEvent : Event :=
  { Author := { MoId := 0, UserId := 7, UserName := "Ivan" },
    Time := { Time := { wall := 123456000, ext := 63842372100 } },
    Params := { IndicatorToMoId := 42, Platform := "",
                Period := { End := "2024-01-31T23:59:59Z", Start := "2024-01-01T00:00:00Z",
                            TypeId := 0, TypeKey := "" } } }

/-- A row of an event query with the time of the scenario of the specification. -/
def scenarioRow : RawEvent :=
  { Author := scenarioEvent.Author, Time := some (.str "2024-02-01T08:15:00.123456Z"),
    Params := scenarioEvent.Params }

/-- A row whose time lacks the final `Z`. -/
def malformedRow : RawEvent :=
  { Author := scenarioEvent.Author, Time := some (.str "2024-02-01T08:15:00"),
    Params := scenarioEvent.Params }

/-- A row whose time has an hour of one digit. -/
def shortHourRow : RawEvent :=
  { Author := scenarioEvent.Author, Time := some (.str "2024-02-01T8:15:00Z"),
    Params := scenarioEvent.Params }

/-- A transport that answers every request with a body which decodes, as the
envelope of an event query, to the given rows and, as the envelope of a write,
to the given status and error messages. -/
def constTransport (rows : List RawEvent) (status : String) (errors : List String) :
    Transport Unit := fun _ _ =>
  ((), .ok
    { text := "\x7b\x7d",
      events := .ok { Messages := { Error := [], Warning := [], Info := [] }, Status := "OK",
                      Data := { Page := 1, PagesCount := 1, RowsCount := rows.length,
                                Rows := rows } },
      saved := .ok { Messages := { Error := errors, Warning := [], Info := [] },
                     Data := { IndicatorToMoFactId := 0 }, Status := status } })

/-- The body of a write that is answered with a status, error messages and the
id of the fact. -/
def savedBody (status : String) (errors : List String) (id : Int) : Body :=
  { text := "\x7b\x7d", events := .error "json: cannot unmarshal",
    saved := .ok { Messages := { Error := errors, Warning := [], Info := [] },
                   Data := { IndicatorToMoFactId := id }, Status := status } }

/-- A transport that counts the requests: the first two, the login and the
query, are answered with a body that decodes to the given rows, and the writes
after them with the given answers in order. -/
def scriptTransport (rows : List RawEvent) (writes : List Answer) : Transport Nat :=
  fun n _ =>
    (n + 1,
      if n < 2 then
        .ok { text := "\x7b\x7d",
              events := .ok { Messages := { Error := [], Warning := [], Info := [] },
                              Status := "OK",
                              Data := { Page := 1, PagesCount := 1, RowsCount := rows.length,
                                        Rows := rows } },
              saved := .error "json: cannot unmarshal" }
      else writes.getD (n - 2) (.failed "EOF"))

/-! ### Time strings

Two readings of a time string that fits the layout
`2006-01-02T15:04:05.999999999Z`: the strict one of the specification, field
for field as the layout is written, and the wider one that describes what
`time.Parse` takes. -/

/-- A decimal digit. -/
def isDecimal (c : Char) : Bool := decide ('0' ≤ c ∧ c ≤ '9')

/-- The number that two digits write. -/
def twoDigits (a b : Char) : Int := (digitVal a * 10 + digitVal b : Nat)

/-- The number that four digits write. -/
def fourDigits (a b c d : Char) : Int :=
  (digitVal a * 1000 + digitVal b * 100 + digitVal c * 10 + digitVal d : Nat)

/-- A month from 1 to 12 and a day of that month in that year. -/
def dateInRange (year month day : Int) : Bool :=
  decide (1 ≤ month ∧ month ≤ 12 ∧ 1 ≤ day ∧ day ≤ time.daysIn month year)

/-- The strict reading of a fractional second: none, or `.` and one to nine
digits. -/
def fractionExact : List Char → Bool
  | [] => true
  | sep :: ds => sep == '.' && !ds.isEmpty && decide (ds.length ≤ 9) && ds.all isDecimal

/-- The strict reading of the specification, a string that matches the layout
exactly: `YYYY-MM-DDTHH:MM:SS`, every field with the number of digits of the
layout and in range, then no fraction or `.` and one to nine digits, then `Z`. -/
def layoutExact : List Char → Bool
  | y1 :: y2 :: y3 :: y4 :: c1 :: m1 :: m2 :: c2 :: d1 :: d2 :: c3 :: h1 :: h2 :: c4 ::
      n1 :: n2 :: c5 :: s1 :: s2 :: tail =>
    isDecimal y1 && isDecimal y2 && isDecimal y3 && isDecimal y4 && c1 == '-' &&
    isDecimal m1 && isDecimal m2 && c2 == '-' && isDecimal d1 && isDecimal d2 && c3 == 'T' &&
    dateInRange (fourDigits y1 y2 y3 y4) (twoDigits m1 m2) (twoDigits d1 d2) &&
    isDecimal h1 && isDecimal h2 && decide (twoDigits h1 h2 < 24) && c4 == ':' &&
    isDecimal n1 && isDecimal n2 && decide (twoDigits n1 n2 < 60) && c5 == ':' &&
    isDecimal s1 && isDecimal s2 && decide (twoDigits s1 s2 < 60) &&
    tail.getLast? == some 'Z' && fractionExact tail.dropLast
  | _ => false

/-- A fractional second that `time.Parse` takes: none, or `.` or `,` and one or
more digits. -/
def fractionAccepted : List Char → Bool
  | [] => true
  | sep :: ds => (sep == '.' || sep == ',') && !ds.isEmpty && ds.all isDecimal

/-- What follows the hour in a time string that `time.Parse` takes: `:MM:SS`
with minute and second below 60, a fractional second, and `Z` at the end. -/
def clockAccepted : List Char → Bool
  | c1 :: n1 :: n2 :: c2 :: s1 :: s2 :: tail =>
    c1 == ':' && isDecimal n1 && isDecimal n2 && decide (twoDigits n1 n2 < 60) && c2 == ':' &&
    isDecimal s1 && isDecimal s2 && decide (twoDigits s1 s2 < 60) &&
    tail.getLast? == some 'Z' && fractionAccepted tail.dropLast
  | _ => false

/-- The time strings that `time.Parse` takes for the layout, written as a
grammar: `YYYY-MM-DD` with the month from 1 to 12 and the day in the month,
`T`, an hour below 24 of one or of two digits, and the rest as `clockAccepted`
says. -/
def timeAccepted : List Char → Bool
  | y1 :: y2 :: y3 :: y4 :: c1 :: m1 :: m2 :: c2 :: d1 :: d2 :: c3 :: h1 :: rest =>
    isDecimal y1 && isDecimal y2 && isDecimal y3 && isDecimal y4 && c1 == '-' &&
    isDecimal m1 && isDecimal m2 && c2 == '-' && isDecimal d1 && isDecimal d2 && c3 == 'T' &&
    dateInRange (fourDigits y1 y2 y3 y4) (twoDigits m1 m2) (twoDigits d1 d2) &&
    isDecimal h1 &&
    (clockAccepted rest ||
      match rest with
      | h2 :: rest => isDecimal h2 && decide (twoDigits h1 h2 < 24) && clockAccepted rest
      | [] => false)
  | _ => false

/-! ### Decoding a form body: `url.ParseQuery` -/

namespace url

/-- Go `url.ishex`. -/
def ishex (c : UInt8) : Bool :=
  decide (('0'.toNat ≤ c.toNat ∧ c.toNat ≤ '9'.toNat) ∨ ('a'.toNat ≤ c.toNat ∧ c.toNat ≤ 'f'.toNat)
    ∨ ('A'.toNat ≤ c.toNat ∧ c.toNat ≤ 'F'.toNat))

/-- Go `url.unhex`, as a number. -/
def unhex (c : UInt8) : Nat :=
  if '0'.toNat ≤ c.toNat ∧ c.toNat ≤ '9'.toNat then c.toNat - '0'.toNat
  else if 'a'.toNat ≤ c.toNat ∧ c.toNat ≤ 'f'.toNat then c.toNat - 'a'.toNat + 10
  else if 'A'.toNat ≤ c.toNat ∧ c.toNat ≤ 'F'.toNat then c.toNat - 'A'.toNat + 10
  else 0

/-- Go `url.QueryUnescape`: `%XY` is the byte `unhex(X)<<4 | unhex(Y)`, `+` is a
blank, a `%` that two hexadecimal digits do not follow is an error. -/
def QueryUnescape : List UInt8 → Option (List UInt8)
  | [] => some []
  | c :: rest =>
    if c = byte '%' then
      match rest with
      | a :: b :: r =>
        if ishex a && ishex b then
          (QueryUnescape r).map fun t => UInt8.ofNat (unhex a * 16 + unhex b) :: t
        else none
      | _ => none
    else if c = byte '+' then (QueryUnescape rest).map fun t => byte ' ' :: t
    else (QueryUnescape rest).map fun t => c :: t

/-- Go `strings.Cut(s, sep)` for a separator of one byte. -/
def cut (sep : UInt8) : List UInt8 → List UInt8 × List UInt8 × Bool
  | [] => ([], [], false)
  | c :: rest =>
    if c = sep then ([], rest, true)
    else ((c :: (cut sep rest).1), (cut sep rest).2.1, (cut sep rest).2.2)

/-- The loop of Go `url.parseQuery`: the map and whether an error was met. The
first argument bounds the number of iterations by the length of the query. -/
def parseQueryLoop : Nat → Values → Bool → List UInt8 → Values × Bool
  | 0, m, err, _ => (m, err)
  | n + 1, m, err, query =>
    if query = [] then (m, err)
    else
      let key := (cut (byte '&') query).1
      let query := (cut (byte '&') query).2.1
      if byte ';' ∈ key then parseQueryLoop n m true query
      else if key = [] then parseQueryLoop n m err query
      else
        let value := (cut (byte '=') key).2.1
        let key := (cut (byte '=') key).1
        match QueryUnescape key with
        | none => parseQueryLoop n m true query
        | some key =>
          match QueryUnescape value with
          | none => parseQueryLoop n m true query
          | some value => parseQueryLoop n (m.Add key value) err query

/-- Go `url.ParseQuery`: the values, and whether an error is returned with them. -/
def ParseQuery (query : List UInt8) : Values × Bool :=
  parseQueryLoop (query.length + 1) [] false query

end url

/-- A form body written pair by pair: `key=value` with both escaped, the pairs
joined by `&` (what `Values.Encode` comes to for keys of one value each). -/
def formBody : List (List UInt8 × List UInt8) → List UInt8
  | [] => []
  | [(k, v)] => url.QueryEscape k ++ url.byte '=' :: url.QueryEscape v
  | (k, v) :: rest => url.QueryEscape k ++ url.byte '=' :: url.QueryEscape v ++
      url.byte '&' :: formBody rest

/-! ### Decoding: `json.Unmarshal` into a `[]Data`

The decoder that a reader of `SuperTags` runs, after `encoding/json`: white
space is skipped between the tokens, a string is unquoted with all escapes of
JSON, a number for an `int` field is an integer in range, the keys of an object
may come in any order. A key that the target struct does not have is an error
here (Go skips its value), and so is a value of another kind than the field. -/

namespace json

/-- Go `json.isSpace`. -/
def isSpace (c : Char) : Bool := c == ' ' || c == '\t' || c == '\r' || c == '\n'

/-- The text after the white space it begins with. -/
def skipSpace : List Char → List Char
  | [] => []
  | c :: cs => if isSpace c then skipSpace cs else c :: cs

/-- The value of a hexadecimal digit. -/
def hexVal (c : Char) : Option Nat :=
  if '0' ≤ c ∧ c ≤ '9' then some (c.toNat - '0'.toNat)
  else if 'a' ≤ c ∧ c ≤ 'f' then some (c.toNat - 'a'.toNat + 10)
  else if 'A' ≤ c ∧ c ≤ 'F' then some (c.toNat - 'A'.toNat + 10)
  else none

/-- Go `json.getu4`: the number of the four hexadecimal digits of a `\u` escape. -/
def getu4 (a b c d : Char) : Option Nat :=
  match hexVal a, hexVal b, hexVal c, hexVal d with
  | some x, some y, some z, some w => some (((x * 16 + y) * 16 + z) * 16 + w)
  | _, _, _, _ => none

/-- The character of an escape of one letter. -/
def simpleEscape (e : Char) : Option Char :=
  if e = '"' then some '"'
  else if e = '\\' then some '\\'
  else if e = '/' then some '/'
  else if e = 'b' then some (Char.ofNat 8)
  else if e = 'f' then some (Char.ofNat 12)
  else if e = 'n' then some '\n'
  else if e = 'r' then some '\r'
  else if e = 't' then some '\t'
  else none

/-- The replacement character U+FFFD. -/
def replacementChar : Char := Char.ofNat 65533

/-- The character of a `\u` escape of number `rr`, followed by `rest`: a high
surrogate takes the low surrogate of a second escape with it, a surrogate
without its pair is replaced by U+FFFD. -/
def unicodeEscape (rr : Nat) (rest : List Char) : Char × List Char :=
  if 55296 ≤ rr ∧ rr < 57344 then
    match rest with
    | b :: u :: e :: f :: g :: h :: rest2 =>
      if b = '\\' ∧ u = 'u' then
        match getu4 e f g h with
        | some rr1 =>
          if rr < 56320 ∧ 56320 ≤ rr1 ∧ rr1 < 57344 then
            (Char.ofNat (65536 + (rr - 55296) * 1024 + (rr1 - 56320)), rest2)
          else (replacementChar, rest)
        | none => (replacementChar, rest)
      else (replacementChar, rest)
    | _ => (replacementChar, rest)
  else (Char.ofNat rr, rest)

/-- One escape, after its backslash: the character and the rest of the text. -/
def unescapeOne (s : List Char) : Option (Char × List Char) :=
  match s with
  | [] => none
  | e :: rest =>
    if e = 'u' then
      match rest with
      | a :: b :: c :: d :: rest2 =>
        match getu4 a b c d with
        | some rr => some (unicodeEscape rr rest2)
        | none => none
      | _ => none
    else
      match simpleEscape e with
      | some ch => some (ch, rest)
      | none => none

/-- Go `json.unquote`, after the opening quote: the characters up to the closing
quote, and the text after it. A control character is not allowed in a string.
The first argument bounds the number of iterations by the length of the text. -/
def unquoteLoop : Nat → List Char → List Char → Option (List Char × List Char)
  | 0, _, _ => none
  | _ + 1, [], _ => none
  | n + 1, c :: rest, acc =>
    if c = '"' then some (acc, rest)
    else if c = '\\' then
      match unescapeOne rest with
      | some (ch, rest2) => unquoteLoop n rest2 (acc ++ [ch])
      | none => none
    else if c.toNat < 32 then none
    else unquoteLoop n rest (acc ++ [c])

/-- The decoding of a string value. -/
def decodeString (s : List Char) : Option (String × List Char) :=
  match skipSpace s with
  | [] => none
  | c :: rest =>
    if c = '"' then
      match unquoteLoop (rest.length + 1) rest [] with
      | some (v, rest2) => some (String.mk v, rest2)
      | none => none
    else none

/-- The number of the decimal digits a text begins with, after the digits
already read, and the rest of the text. -/
def readDigits : List Char → Nat → Nat × List Char
  | [], x => (x, [])
  | c :: cs, x => if '0' ≤ c ∧ c ≤ '9' then readDigits cs (x * 10 + digitVal c) else (x, c :: cs)

/-- The digits of a JSON number: a single `0`, or digits that begin with `1` to `9`. -/
def decodeDigits (s : List Char) : Option (Nat × List Char) :=
  match s with
  | [] => none
  | c :: rest =>
    if c = '0' then
      match rest with
      | d :: _ => if '0' ≤ d ∧ d ≤ '9' then none else some (0, rest)
      | [] => some (0, rest)
    else if '1' ≤ c ∧ c ≤ '9' then some (readDigits rest (digitVal c))
    else none

/-- The decoding of a number into an `int` field: an integer without fraction
or exponent, in the range of `int`. -/
def decodeInt (s : List Char) : Option (Int × List Char) :=
  let s := skipSpace s
  let neg := decide (s.head? = some '-')
  let s := if neg then s.drop 1 else s
  match decodeDigits s with
  | none => none
  | some (n, rest) =>
    if rest.head? = some '.' ∨ rest.head? = some 'e' ∨ rest.head? = some 'E' then none
    else
      let v : Int := if neg then -(n : Int) else n
      if isInt v then some (v, rest) else none

/-- The text after a given character, white space before it skipped. -/
def expect (c : Char) (s : List Char) : Option (List Char) :=
  match skipSpace s with
  | [] => none
  | d :: rest => if d = c then some rest else none

/-- The decoding of the value of one key of a `Tag`. -/
def decodeTagField (key : String) (t : Tag) (s : List Char) : Option (Tag × List Char) :=
  if key = "id" then
    (decodeInt s).map fun r => ({ t with ID := r.1 }, r.2)
  else if key = "name" then
    (decodeString s).map fun r => ({ t with Name := r.1 }, r.2)
  else if key = "key" then
    (decodeString s).map fun r => ({ t with Key := r.1 }, r.2)
  else if key = "values_source" then
    (decodeInt s).map fun r => ({ t with ValuesSource := r.1 }, r.2)
  else none

/-- The members of the object of a `Tag`, from a key on, up to the closing brace. -/
def decodeTagMembers : Nat → Tag → List Char → Option (Tag × List Char)
  | 0, _, _ => none
  | n + 1, t, s =>
    match decodeString s with
    | none => none
    | some (key, s) =>
      match expect ':' s with
      | none => none
      | some s =>
        match decodeTagField key t s with
        | none => none
        | some (t, s) =>
          match skipSpace s with
          | [] => none
          | c :: rest =>
            if c = ',' then decodeTagMembers n t rest
            else if c = '}' then some (t, rest)
            else none

/-- The decoding of a `Tag`. -/
def decodeTag (s : List Char) : Option (Tag × List Char) :=
  match expect '{' s with
  | none => none
  | some rest =>
    let zero : Tag := { ID := 0, Name := "", Key := "", ValuesSource := 0 }
    match expect '}' rest with
    | some rest2 => some (zero, rest2)
    | none => decodeTagMembers rest.length zero rest

/-- The decoding of the value of one key of a `Data`. -/
def decodeDataField (key : String) (d : Data) (s : List Char) : Option (Data × List Char) :=
  if key = "tag" then
    (decodeTag s).map fun r => ({ d with Tag := r.1 }, r.2)
  else if key = "value" then
    (decodeString s).map fun r => ({ d with Value := r.1 }, r.2)
  else none

/-- The members of the object of a `Data`, from a key on, up to the closing brace. -/
def decodeDataMembers : Nat → Data → List Char → Option (Data × List Char)
  | 0, _, _ => none
  | n + 1, d, s =>
    match decodeString s with
    | none => none
    | some (key, s) =>
      match expect ':' s with
      | none => none
      | some s =>
        match decodeDataField key d s with
        | none => none
        | some (d, s) =>
          match skipSpace s with
          | [] => none
          | c :: rest =>
            if c = ',' then decodeDataMembers n d rest
            else if c = '}' then some (d, rest)
            else none

/-- The decoding of a `Data`. -/
def decodeData (s : List Char) : Option (Data × List Char) :=
  match expect '{' s with
  | none => none
  | some rest =>
    let zero : Data :=
      { Tag := { ID := 0, Name := "", Key := "", ValuesSource := 0 }, Value := "" }
    match expect '}' rest with
    | some rest2 => some (zero, rest2)
    | none => decodeDataMembers rest.length zero rest

/-- The elements of an array of `Data`, from an element on, up to the closing
bracket. -/
def decodeElems : Nat → List Char → Option (List Data × List Char)
  | 0, _ => none
  | n + 1, s =>
    match decodeData s with
    | none => none
    | some (d, s) =>
      match skipSpace s with
      | [] => none
      | c :: rest =>
        if c = ',' then
          match decodeElems n rest with
          | some (ds, rest2) => some (d :: ds, rest2)
          | none => none
        else if c = ']' then some ([d], rest)
        else none

/-- Go `json.Unmarshal(data, &v)` for `var v []Data` and a JSON array: the
elements, when the text is an array of objects of that shape and nothing but
white space follows it. -/
def Unmarshal (data : List Char) : Option (List Data) :=
  match expect '[' data with
  | none => none
  | some rest =>
    match expect ']' rest with
    | some rest2 => if skipSpace rest2 = [] then some [] else none
    | none =>
      match decodeElems rest.length rest with
      | some (ds, rest2) => if skipSpace rest2 = [] then some ds else none
      | none => none

end json


/-! ## Lemmas: decimal digits -/

theorem digit_bounds (c : Char) (h0 : '0' ≤ c) (h1 : c ≤ '9') : 48 ≤ c.toNat ∧ c.toNat ≤ 57 := by
  have a : ('0' : Char).toNat ≤ c.toNat := h0
  have b : c.toNat ≤ ('9' : Char).toNat := h1
  exact ⟨a, b⟩

theorem digitVal_le (c : Char) (h0 : '0' ≤ c) (h1 : c ≤ '9') : digitVal c ≤ 9 := by
  have := digit_bounds c h0 h1
  unfold digitVal; omega

theorem digitChar_digitVal (c : Char) (h0 : '0' ≤ c) (h1 : c ≤ '9') :
    digitChar (digitVal c) = c := by
  have := digit_bounds c h0 h1
  unfold digitChar digitVal
  have e : 48 + (c.toNat - 48) = c.toNat := by omega
  rw [e]
  exact Char.ofNat_toNat c

theorem fmtDec_small (room u : Nat) (acc : List Char) (h : u < 10) :
    fmtDec (room + 1) u acc = digitChar u :: acc := by
  have : ¬ u ≥ 10 := by omega
  simp [fmtDec, this]

theorem fmtDec_step (room u : Nat) (acc : List Char) (h : 10 ≤ u) :
    fmtDec (room + 1) u acc = fmtDec room (u / 10) (digitChar (u % 10) :: acc) := by
  simp [fmtDec, h]

theorem pad4 (m : Nat) (hm : m < 10000) :
    List.replicate (4 - (fmtDec 19 m []).length) '0' ++ fmtDec 19 m [] =
      [digitChar (m / 1000), digitChar (m / 100 % 10), digitChar (m / 10 % 10),
        digitChar (m % 10)] := by
  have z : digitChar 0 = '0' := rfl
  by_cases h1 : m < 10
  · rw [fmtDec_small _ _ _ h1]
    have a : m / 1000 = 0 := by omega
    have b : m / 100 % 10 = 0 := by omega
    have c : m / 10 % 10 = 0 := by omega
    have d : m % 10 = m := by omega
    simp [a, b, c, d, z, List.replicate]
  · rw [fmtDec_step _ _ _ (by omega)]
    by_cases h2 : m < 100
    · rw [fmtDec_small _ _ _ (by omega)]
      have a : m / 1000 = 0 := by omega
      have b : m / 100 % 10 = 0 := by omega
      have c : m / 10 % 10 = m / 10 := by omega
      simp [a, b, c, z, List.replicate]
    · rw [fmtDec_step _ _ _ (by omega)]
      by_cases h3 : m < 1000
      · rw [fmtDec_small _ _ _ (by omega)]
        have a : m / 1000 = 0 := by omega
        have b : m / 100 % 10 = m / 10 / 10 := by omega
        have c : m / 10 % 10 = m / 10 % 10 := rfl
        simp [a, b, z, List.replicate]
      · rw [fmtDec_step _ _ _ (by omega), fmtDec_small _ _ _ (by omega)]
        have a : m / 1000 = m / 10 / 10 / 10 := by omega
        have b : m / 100 % 10 = m / 10 / 10 % 10 := by omega
        simp [a, b]

theorem pad2 (m : Nat) (hm : m < 100) :
    List.replicate (2 - (fmtDec 19 m []).length) '0' ++ fmtDec 19 m [] =
      [digitChar (m / 10), digitChar (m % 10)] := by
  have z : digitChar 0 = '0' := rfl
  by_cases h1 : m < 10
  · rw [fmtDec_small _ _ _ h1]
    have a : m / 10 = 0 := by omega
    have d : m % 10 = m := by omega
    simp [a, d, z, List.replicate]
  · rw [fmtDec_step _ _ _ (by omega), fmtDec_small _ _ _ (by omega)]
    simp

theorem digitChar_eq_core (d : Nat) (h : d < 10) : digitChar d = Nat.digitChar d := by
  interval_cases d <;> rfl

/-- The decimal loop writes what `Nat.toDigits 10` does. -/
theorem fmtDec_eq_toDigitsCore (room : Nat) : ∀ (fuel n : Nat) (acc : List Char),
    n < 10 ^ (room + 1) → n < fuel → fmtDec room n acc = Nat.toDigitsCore 10 fuel n acc := by
  induction room with
  | zero =>
    intro fuel n acc hn hf
    obtain ⟨f, rfl⟩ : ∃ f, fuel = f + 1 := ⟨fuel - 1, by omega⟩
    have h10 : n < 10 := by simpa using hn
    have e1 : n / 10 = 0 := by omega
    have e2 : n % 10 = n := by omega
    simp [fmtDec, Nat.toDigitsCore, e1, e2, digitChar_eq_core n h10]
  | succ room ih =>
    intro fuel n acc hn hf
    obtain ⟨f, rfl⟩ : ∃ f, fuel = f + 1 := ⟨fuel - 1, by omega⟩
    by_cases h10 : n < 10
    · have e1 : n / 10 = 0 := by omega
      have e2 : n % 10 = n := by omega
      rw [fmtDec_small _ _ _ h10]
      simp [Nat.toDigitsCore, e1, e2, digitChar_eq_core n h10]
    · rw [fmtDec_step _ _ _ (by omega)]
      have e1 : ¬ n / 10 = 0 := by omega
      have hlt : n / 10 < 10 ^ (room + 1) := by
        rw [pow_succ] at hn; omega
      rw [ih f (n / 10) _ hlt (by omega)]
      simp [Nat.toDigitsCore, e1, digitChar_eq_core (n % 10) (by omega)]

theorem fmtDec_eq_toDigits (n : Nat) (h : n < 18446744073709551616) :
    fmtDec 64 n [] = Nat.toDigits 10 n := by
  unfold Nat.toDigits
  apply fmtDec_eq_toDigitsCore
  · calc n < 18446744073709551616 := h
      _ ≤ 10 ^ (64 + 1) := by norm_num
  · omega

theorem Itoa_eq_toString (i : Int) (h : isInt i) : strconv.Itoa i = toString i := by
  obtain ⟨h0, h1⟩ := h
  have hi : int64 i = i := by simp only [int64]; omega
  simp only [strconv.Itoa, strconv.FormatInt, strconv.formatBits, hi]
  cases i with
  | ofNat m =>
    have hn : ¬ ((Int.ofNat m) < 0) := by simp
    have hu : uint64 (Int.ofNat m) = m := by
      simp only [uint64, Int.ofNat_eq_coe] at h1 ⊢; omega
    simp only [hn, decide_False, Bool.false_eq_true, if_false, hu, Int.toNat_ofNat]
    rw [fmtDec_eq_toDigits m (by simp only [Int.ofNat_eq_coe] at h1; omega)]
    rfl
  | negSucc m =>
    have hn : (Int.negSucc m) < 0 := Int.negSucc_lt_zero m
    have hu : (uint64 (-(uint64 (Int.negSucc m)))).toNat = m + 1 := by
      simp only [uint64]
      have : Int.negSucc m = -((m : Int) + 1) := rfl
      rw [this] at h0 ⊢
      omega
    simp only [hn, decide_True, if_true, hu]
    rw [fmtDec_eq_toDigits (m + 1) (by
      have : Int.negSucc m = -((m : Int) + 1) := rfl
      rw [this] at h0; omega)]
    rfl

/-! ### JSON: strings -/

namespace json

theorem hex_spec (n : Nat) (h : n < 16) : hexVal (hex.getD n '0') = some n := by
  interval_cases n <;> rfl

theorem toNat_quote : ('"' : Char).toNat = 34 := rfl
theorem toNat_backslash : ('\\' : Char).toNat = 92 := rfl

theorem char_eq_of_toNat (c d : Char) (h : c.toNat = d.toNat) : c = d := by
  rw [← Char.ofNat_toNat c, ← Char.ofNat_toNat d, h]

/-- An escape `\u00XY` of an ASCII character decodes to the character. -/
theorem unescapeOne_u00 (c : Char) (h : c.toNat < 128) (rest : List Char) :
    unescapeOne ('u' :: '0' :: '0' :: hex.getD (c.toNat / 16) '0' ::
      hex.getD (c.toNat % 16) '0' :: rest) = some (c, rest) := by
  have h1 := hex_spec (c.toNat / 16) (by omega)
  have h2 := hex_spec (c.toNat % 16) (by omega)
  have h0 : hexVal '0' = some 0 := rfl
  have e : ((0 * 16 + 0) * 16 + c.toNat / 16) * 16 + c.toNat % 16 = c.toNat := by omega
  have hs : ¬ (55296 ≤ c.toNat ∧ c.toNat < 57344) := by omega
  simp only [unescapeOne, if_true, getu4, h0, h1, h2, e, unicodeEscape, hs, if_false,
    Char.ofNat_toNat]

/-- The escapes of the separators U+2028 and U+2029 decode to them. -/
theorem unescapeOne_u202 (c : Char) (h : c = Char.ofNat 8232 ∨ c = Char.ofNat 8233)
    (rest : List Char) :
    unescapeOne ('u' :: '2' :: '0' :: '2' :: hex.getD (c.toNat % 16) '0' :: rest) =
      some (c, rest) := by
  rcases h with rfl | rfl <;> rfl

/-- One character of a string, as the encoder writes it, is read back by one
turn of the loop of the decoder. -/
theorem unquoteLoop_encodeChar (c : Char) (n : Nat) (rest acc : List Char) :
    unquoteLoop (n + 1) (encodeChar c ++ rest) acc = unquoteLoop n rest (acc ++ [c]) := by
  have hq : ('"' : Char) ≠ '\\' := by decide
  have hb : ('\\' : Char) ≠ '"' := by decide
  unfold encodeChar
  by_cases h128 : c.toNat < 128
  · simp only [h128, if_true]
    by_cases hsafe : htmlSafeSet c = true
    · simp only [hsafe, if_true, List.singleton_append]
      simp only [htmlSafeSet, Bool.and_eq_true, decide_eq_true_eq, bne_iff_ne, ne_eq] at hsafe
      obtain ⟨⟨⟨⟨⟨h32, h1⟩, h2⟩, _⟩, _⟩, _⟩ := hsafe
      have h3 : ¬ c.toNat < 32 := by omega
      simp only [unquoteLoop, h1, h2, h3, if_false]
    · simp only [hsafe, Bool.false_eq_true, if_false]
      by_cases h1 : c = '\\' ∨ c = '"'
      · simp only [h1, if_true]
        rcases h1 with rfl | rfl <;> rfl
      · simp only [h1, if_false]
        by_cases h2 : c = '\n'
        · subst h2; rfl
        · by_cases h3 : c = '\r'
          · subst h3; rfl
          · by_cases h4 : c = '\t'
            · subst h4; rfl
            · simp only [h2, h3, h4, if_false]
              show unquoteLoop (n + 1) ('\\' :: 'u' :: '0' :: '0' :: hex.getD (c.toNat / 16) '0' ::
                hex.getD (c.toNat % 16) '0' :: rest) acc = _
              simp only [unquoteLoop, hb, if_false, if_true, unescapeOne_u00 c h128]
  · simp only [h128, if_false]
    by_cases hsep : c = Char.ofNat 8232 ∨ c = Char.ofNat 8233
    · simp only [hsep, if_true]
      show unquoteLoop (n + 1) ('\\' :: 'u' :: '2' :: '0' :: '2' ::
        hex.getD (c.toNat % 16) '0' :: rest) acc = _
      simp only [unquoteLoop, hb, if_false, if_true, unescapeOne_u202 c hsep]
    · simp only [hsep, if_false, List.singleton_append]
      have h1 : c ≠ '"' := by
        rintro rfl; exact h128 (by decide)
      have h2 : c ≠ '\\' := by
        rintro rfl; exact h128 (by decide)
      have h3 : ¬ c.toNat < 32 := by omega
      simp only [unquoteLoop, h1, h2, h3, if_false]

/-- The decoder reads back the characters of a string that the encoder wrote. -/
theorem unquoteLoop_encode (s : List Char) : ∀ (n : Nat) (rest acc : List Char),
    s.length < n →
      unquoteLoop n (s.flatMap encodeChar ++ '"' :: rest) acc = some (acc ++ s, rest) := by
  induction s with
  | nil =>
    intro n rest acc hn
    obtain ⟨m, rfl⟩ : ∃ m, n = m + 1 := ⟨n - 1, by simp at hn; omega⟩
    simp [unquoteLoop]
  | cons c cs ih =>
    intro n rest acc hn
    obtain ⟨m, rfl⟩ : ∃ m, n = m + 1 := ⟨n - 1, by simp at hn; omega⟩
    rw [List.flatMap_cons, List.append_assoc, unquoteLoop_encodeChar,
      ih m rest (acc ++ [c]) (by simp at hn; omega)]
    simp

theorem flatMap_encodeChar_length (s : List Char) :
    s.length ≤ (s.flatMap encodeChar).length := by
  induction s with
  | nil => simp
  | cons c cs ih =>
    have hc : 1 ≤ (encodeChar c).length := by
      unfold encodeChar
      split_ifs <;> simp
    rw [List.flatMap_cons, List.length_append, List.length_cons]
    omega

/-- Decoding undoes the encoding of a string. -/
theorem decodeString_encodeString (s : String) (rest : List Char) :
    decodeString (encodeString s ++ rest) = some (s, rest) := by
  have hl := flatMap_encodeChar_length s.data
  have hsp : skipSpace ('"' :: (s.data.flatMap encodeChar ++ '"' :: rest)) =
      '"' :: (s.data.flatMap encodeChar ++ '"' :: rest) := rfl
  have hform : encodeString s ++ rest = '"' :: (s.data.flatMap encodeChar ++ '"' :: rest) := by
    simp [encodeString]
  rw [hform, decodeString, hsp]
  simp only [if_true]
  rw [unquoteLoop_encode s.data _ rest [] (by
    simp only [List.length_append, List.length_cons]; omega)]
  rfl

end json

/-! ### JSON: integers -/

namespace json

theorem digitChar_spec (k : Nat) (h : k ≤ 9) :
    ('0' ≤ digitChar k ∧ digitChar k ≤ '9') ∧ digitVal (digitChar k) = k ∧
      isSpace (digitChar k) = false ∧ digitChar k ≠ '-' ∧ (digitChar k = '0' → k = 0) ∧
      (k ≠ 0 → '1' ≤ digitChar k) := by
  interval_cases k <;> decide

theorem fmtDec_acc (room : Nat) : ∀ (u : Nat) (acc : List Char),
    fmtDec room u acc = fmtDec room u [] ++ acc := by
  induction room with
  | zero => intro u acc; simp [fmtDec]
  | succ room ih =>
    intro u acc
    by_cases h : u < 10
    · rw [fmtDec_small _ _ _ h, fmtDec_small _ _ _ h]; rfl
    · rw [fmtDec_step _ _ _ (by omega), fmtDec_step _ _ _ (by omega), ih, ih _ [digitChar (u % 10)]]
      simp

/-- The digits that the decimal loop writes: the first is not `0` unless the
number is 0, and reading them gives the number back. -/
theorem fmtDec_read (room : Nat) : ∀ (u : Nat) (acc : List Char), u < 10 ^ (room + 1) →
    ∃ d tl, fmtDec room u acc = digitChar d :: tl ∧ d ≤ 9 ∧ (d = 0 → u = 0 ∧ tl = acc) ∧
      readDigits tl d = readDigits acc u := by
  induction room with
  | zero =>
    intro u acc hu
    have h10 : u < 10 := by simpa using hu
    refine ⟨u, acc, ?_, by omega, fun h => ⟨h, rfl⟩, rfl⟩
    have : u % 10 = u := by omega
    simp [fmtDec, this]
  | succ room ih =>
    intro u acc hu
    by_cases h10 : u < 10
    · exact ⟨u, acc, fmtDec_small _ _ _ h10, by omega, fun h => ⟨h, rfl⟩, rfl⟩
    · have hlt : u / 10 < 10 ^ (room + 1) := by
        rw [pow_succ] at hu; omega
      obtain ⟨d, tl, hf, hd, hz, hr⟩ := ih (u / 10) (digitChar (u % 10) :: acc) hlt
      refine ⟨d, tl, ?_, hd, ?_, ?_⟩
      · rw [fmtDec_step _ _ _ (by omega), hf]
      · intro h0
        have := (hz h0).1
        omega
      · rw [hr]
        obtain ⟨hdig, hval, _⟩ := digitChar_spec (u % 10) (by omega)
        have e : u / 10 * 10 + u % 10 = u := by omega
        simp only [readDigits, hdig, and_self, if_true, hval, e]

theorem readDigits_stop (rest : List Char) (x : Nat)
    (hr : rest.head? = some ',' ∨ rest.head? = some '}') : readDigits rest x = (x, rest) := by
  cases rest with
  | nil => rfl
  | cons c cs =>
    have hc : c = ',' ∨ c = '}' := by simpa using hr
    rcases hc with rfl | rfl <;> rfl

/-- The digits of a number below `2^64`, as the encoder writes them, are read back. -/
theorem decodeDigits_fmtDec (u : Nat) (hu : u < 18446744073709551616) (rest : List Char)
    (hr : rest.head? = some ',' ∨ rest.head? = some '}') :
    decodeDigits (fmtDec 64 u [] ++ rest) = some (u, rest) := by
  rw [← fmtDec_acc]
  obtain ⟨d, tl, hf, hd, hz, hread⟩ := fmtDec_read 64 u rest (by
    calc u < 18446744073709551616 := hu
      _ ≤ 10 ^ (64 + 1) := by norm_num)
  obtain ⟨hdig, hval, _, _, hzero, hone⟩ := digitChar_spec d hd
  rw [hf]
  by_cases h0 : d = 0
  · obtain ⟨rfl, rfl⟩ := hz h0
    subst h0
    have hz0 : digitChar 0 = '0' := rfl
    rw [hz0]
    cases tl with
    | nil => rfl
    | cons c cs =>
      have hc : c = ',' ∨ c = '}' := by simpa using hr
      rcases hc with rfl | rfl <;> rfl
  · have hne : digitChar d ≠ '0' := fun h => h0 (hzero h)
    have h1 := hone h0
    simp only [decodeDigits, hne, if_false, h1, hdig.2, and_self, if_true, hval, hread,
      readDigits_stop rest u hr]

theorem fmtDec_head (u : Nat) (hu : u < 18446744073709551616) (rest : List Char) :
    ∃ d tl, fmtDec 64 u [] ++ rest = digitChar d :: tl ∧ d ≤ 9 := by
  rw [← fmtDec_acc]
  obtain ⟨d, tl, hf, hd, _⟩ := fmtDec_read 64 u rest (by
    calc u < 18446744073709551616 := hu
      _ ≤ 10 ^ (64 + 1) := by norm_num)
  exact ⟨d, tl, hf, hd⟩

/-- Decoding undoes the encoding of an `int`, before a comma or a closing brace. -/
theorem decodeInt_encodeInt (i : Int) (hi : isInt i) (rest : List Char)
    (hr : rest.head? = some ',' ∨ rest.head? = some '}') :
    decodeInt (encodeInt i ++ rest) = some (i, rest) := by
  obtain ⟨hlo, hhi⟩ := hi
  have hrest : ¬ (rest.head? = some '.' ∨ rest.head? = some 'e' ∨ rest.head? = some 'E') := by
    rcases hr with h | h <;> rw [h] <;> decide
  by_cases hneg : i < 0
  · have hu : (uint64 (-(uint64 i))).toNat = i.natAbs := by
      simp only [uint64]; omega
    have hlt : i.natAbs < 18446744073709551616 := by omega
    have hform : encodeInt i ++ rest = '-' :: (fmtDec 64 i.natAbs [] ++ rest) := by
      simp [encodeInt, strconv.FormatInt, strconv.formatBits, hneg, hu]
    have hv : -((i.natAbs : Nat) : Int) = i := by omega
    have hint : isInt (-((i.natAbs : Nat) : Int)) := by rw [hv]; exact ⟨hlo, hhi⟩
    rw [hform]
    have hsp : skipSpace ('-' :: (fmtDec 64 i.natAbs [] ++ rest)) =
        '-' :: (fmtDec 64 i.natAbs [] ++ rest) := rfl
    simp only [decodeInt, hsp, List.head?_cons, decide_True, if_true, List.drop_succ_cons,
      List.drop_zero, decodeDigits_fmtDec _ hlt rest hr, hrest, if_false, hint]
    rw [hv]
  · have hu : (uint64 i).toNat = i.toNat := by
      simp only [uint64]; omega
    have hlt : i.toNat < 18446744073709551616 := by omega
    have hform : encodeInt i ++ rest = fmtDec 64 i.toNat [] ++ rest := by
      simp [encodeInt, strconv.FormatInt, strconv.formatBits, hneg, hu]
    have hv : ((i.toNat : Nat) : Int) = i := by omega
    have hint : isInt ((i.toNat : Nat) : Int) := by rw [hv]; exact ⟨hlo, hhi⟩
    obtain ⟨d, tl, hd, hd9⟩ := fmtDec_head i.toNat hlt rest
    obtain ⟨_, _, hspace, hminus, _⟩ := digitChar_spec d hd9
    have hsp : skipSpace (fmtDec 64 i.toNat [] ++ rest) = fmtDec 64 i.toNat [] ++ rest := by
      rw [hd]; simp [skipSpace, hspace]
    have hhead : ¬ ((fmtDec 64 i.toNat [] ++ rest).head? = some '-') := by
      rw [hd]; simpa using hminus
    rw [hform]
    simp only [decodeInt, hsp, hhead, decide_False, Bool.false_eq_true, if_false,
      decodeDigits_fmtDec _ hlt rest hr, hrest, hint, if_true]
    rw [hv]

end json

/-! ### JSON: objects and arrays -/

namespace json

theorem encodeString_length (s : String) : 2 ≤ (encodeString s).length := by
  simp [encodeString]

theorem expect_cons (c : Char) (rest : List Char) (h : isSpace c = false) :
    expect c (c :: rest) = some rest := by
  simp [expect, skipSpace, h]

theorem expect_encodeString_none (c : Char) (s : String) (rest : List Char) (h : '"' ≠ c) :
    expect c (encodeString s ++ rest) = none := by
  have hsp : isSpace '"' = false := rfl
  simp [expect, encodeString, skipSpace, hsp, h]

theorem decodeInt_comma (i : Int) (hi : isInt i) (rest : List Char) :
    decodeInt (encodeInt i ++ ',' :: rest) = some (i, ',' :: rest) :=
  decodeInt_encodeInt i hi (',' :: rest) (Or.inl rfl)

theorem decodeInt_brace (i : Int) (hi : isInt i) (rest : List Char) :
    decodeInt (encodeInt i ++ '}' :: rest) = some (i, '}' :: rest) :=
  decodeInt_encodeInt i hi ('}' :: rest) (Or.inr rfl)

/-- One member of the object of a `Tag`: the key, the colon, the value, and the
separator that follows. -/
theorem decodeTagMembers_member (n : Nat) (t t' : Tag) (key : String) (vs rest : List Char)
    (c : Char) (hc : isSpace c = false)
    (hf : decodeTagField key t vs = some (t', c :: rest)) :
    decodeTagMembers (n + 1) t (encodeString key ++ ':' :: vs) =
      if c = ',' then decodeTagMembers n t' rest
      else if c = '}' then some (t', rest) else none := by
  rw [decodeTagMembers]
  simp only [decodeString_encodeString, expect_cons ':' vs rfl, hf, skipSpace, hc,
    Bool.false_eq_true, if_false]

/-- One member of the object of a `Data`. -/
theorem decodeDataMembers_member (n : Nat) (d d' : Data) (key : String) (vs rest : List Char)
    (c : Char) (hc : isSpace c = false)
    (hf : decodeDataField key d vs = some (d', c :: rest)) :
    decodeDataMembers (n + 1) d (encodeString key ++ ':' :: vs) =
      if c = ',' then decodeDataMembers n d' rest
      else if c = '}' then some (d', rest) else none := by
  rw [decodeDataMembers]
  simp only [decodeString_encodeString, expect_cons ':' vs rfl, hf, skipSpace, hc,
    Bool.false_eq_true, if_false]

/-- The text that the encoder writes for a `Tag`, key by key. -/
theorem encodeTag_eq (t : Tag) (rest : List Char) :
    encodeTag t ++ rest =
      '{' :: (encodeString "id" ++ ':' :: (encodeInt t.ID ++ ',' ::
        (encodeString "name" ++ ':' :: (encodeString t.Name ++ ',' ::
        (encodeString "key" ++ ':' :: (encodeString t.Key ++ ',' ::
        (encodeString "values_source" ++ ':' :: (encodeInt t.ValuesSource ++
          '}' :: rest)))))))) := by
  have h1 : encodeString "id" = ['"', 'i', 'd', '"'] := rfl
  have h2 : encodeString "name" = ['"', 'n', 'a', 'm', 'e', '"'] := rfl
  have h3 : encodeString "key" = ['"', 'k', 'e', 'y', '"'] := rfl
  have h4 : encodeString "values_source" =
      ['"', 'v', 'a', 'l', 'u', 'e', 's', '_', 's', 'o', 'u', 'r', 'c', 'e', '"'] := rfl
  rw [h1, h2, h3, h4]
  simp [encodeTag]

/-- Decoding undoes the encoding of a `Tag`. -/
theorem decodeTag_encodeTag (t : Tag) (hid : isInt t.ID) (hvs : isInt t.ValuesSource)
    (rest : List Char) : decodeTag (encodeTag t ++ rest) = some (t, rest) := by
  rw [encodeTag_eq, decodeTag, expect_cons '{' _ rfl]
  simp only [expect_encodeString_none '}' "id" _ (by decide)]
  have hlen : ∃ n, (encodeString "id" ++ ':' :: (encodeInt t.ID ++ ',' ::
        (encodeString "name" ++ ':' :: (encodeString t.Name ++ ',' ::
        (encodeString "key" ++ ':' :: (encodeString t.Key ++ ',' ::
        (encodeString "values_source" ++ ':' :: (encodeInt t.ValuesSource ++
          '}' :: rest)))))))).length = n + 4 := by
    apply Nat.exists_eq_add_of_le'
    have := encodeString_length "id"
    simp only [List.length_append, List.length_cons]
    omega
  obtain ⟨n, hn⟩ := hlen
  rw [hn]
  rw [decodeTagMembers_member (n + 3) _ { ID := t.ID, Name := "", Key := "", ValuesSource := 0 }
    "id" _ _ ',' rfl (by
      simp only [decodeTagField, if_true]
      rw [decodeInt_comma _ hid]
      rfl)]
  simp only [if_true]
  rw [decodeTagMembers_member (n + 2) _
    { ID := t.ID, Name := t.Name, Key := "", ValuesSource := 0 } "name" _ _ ',' rfl (by
      have h : ¬ ("name" = "id") := by decide
      simp only [decodeTagField, h, if_false, if_true]
      rw [decodeString_encodeString]
      rfl)]
  simp only [if_true]
  rw [decodeTagMembers_member (n + 1) _
    { ID := t.ID, Name := t.Name, Key := t.Key, ValuesSource := 0 } "key" _ _ ',' rfl (by
      have h1 : ¬ ("key" = "id") := by decide
      have h2 : ¬ ("key" = "name") := by decide
      simp only [decodeTagField, h1, h2, if_false, if_true]
      rw [decodeString_encodeString]
      rfl)]
  simp only [if_true]
  rw [decodeTagMembers_member n _ t "values_source" _ _ '}' rfl (by
      have h1 : ¬ ("values_source" = "id") := by decide
      have h2 : ¬ ("values_source" = "name") := by decide
      have h3 : ¬ ("values_source" = "key") := by decide
      simp only [decodeTagField, h1, h2, h3, if_false, if_true]
      rw [decodeInt_brace _ hvs]
      rfl)]
  have hc : ¬ ('}' = ',') := by decide
  simp only [hc, if_false, if_true]

/-- The text that the encoder writes for a `Data`. -/
theorem encodeData_eq (d : Data) (rest : List Char) :
    encodeData d ++ rest =
      '{' :: (encodeString "tag" ++ ':' :: (encodeTag d.Tag ++ ',' ::
        (encodeString "value" ++ ':' :: (encodeString d.Value ++ '}' :: rest)))) := by
  have h1 : encodeString "tag" = ['"', 't', 'a', 'g', '"'] := rfl
  have h2 : encodeString "value" = ['"', 'v', 'a', 'l', 'u', 'e', '"'] := rfl
  rw [h1, h2]
  simp [encodeData]

/-- Decoding undoes the encoding of a `Data`. -/
theorem decodeData_encodeData (d : Data) (hid : isInt d.Tag.ID)
    (hvs : isInt d.Tag.ValuesSource) (rest : List Char) :
    decodeData (encodeData d ++ rest) = some (d, rest) := by
  rw [encodeData_eq, decodeData, expect_cons '{' _ rfl]
  simp only [expect_encodeString_none '}' "tag" _ (by decide)]
  have hlen : ∃ n, (encodeString "tag" ++ ':' :: (encodeTag d.Tag ++ ',' ::
        (encodeString "value" ++ ':' :: (encodeString d.Value ++ '}' :: rest)))).length =
      n + 2 := by
    apply Nat.exists_eq_add_of_le'
    have := encodeString_length "tag"
    simp only [List.length_append, List.length_cons]
    omega
  obtain ⟨n, hn⟩ := hlen
  rw [hn]
  rw [decodeDataMembers_member (n + 1) _ { Tag := d.Tag, Value := "" } "tag" _ _ ',' rfl (by
      simp only [decodeDataField, if_true]
      rw [decodeTag_encodeTag _ hid hvs]
      rfl)]
  simp only [if_true]
  rw [decodeDataMembers_member n _ d "value" _ _ '}' rfl (by
      have h : ¬ ("value" = "tag") := by decide
      simp only [decodeDataField, h, if_false, if_true]
      rw [decodeString_encodeString]
      rfl)]
  have hc : ¬ ('}' = ',') := by decide
  simp only [hc, if_false, if_true]

theorem decodeElems_single (n : Nat) (d : Data) (hid : isInt d.Tag.ID)
    (hvs : isInt d.Tag.ValuesSource) :
    decodeElems (n + 1) (encodeData d ++ [']']) = some ([d], []) := by
  rw [decodeElems]
  simp only [decodeData_encodeData d hid hvs]
  rfl

/-- Decoding undoes the marshalling of an array of one `Data`. -/
theorem Unmarshal_Marshal_single (d : Data) (hid : isInt d.Tag.ID)
    (hvs : isInt d.Tag.ValuesSource) : Unmarshal (Marshal [d]) = some [d] := by
  have hform : Marshal [d] = '[' :: (encodeData d ++ [']']) := rfl
  have hnone : expect ']' (encodeData d ++ [']']) = none := by
    rw [encodeData_eq]; rfl
  have hlen : ∃ n, (encodeData d ++ [']']).length = n + 1 := by
    apply Nat.exists_eq_add_of_le'
    simp only [List.length_append, List.length_cons, List.length_nil]
    omega
  obtain ⟨n, hn⟩ := hlen
  rw [hform, Unmarshal, expect_cons '[' _ rfl]
  simp only [hnone]
  rw [hn, decodeElems_single n d hid hvs]
  rfl

end json

namespace time

/-! ## Lemmas: package `time` -/

theorem appendInt_four (b : List Char) (x : Int) (h0 : 0 ≤ x) (h1 : x ≤ 9999) :
    appendInt b x 4 = b ++ [digitChar (x.toNat / 1000), digitChar (x.toNat / 100 % 10),
      digitChar (x.toNat / 10 % 10), digitChar (x.toNat % 10)] := by
  have hn : ¬ x < 0 := by omega
  have hu : uint64 x = x := by simp only [uint64]; omega
  simp only [appendInt, hn, if_false, hu, List.append_assoc]
  rw [pad4 _ (by omega)]

theorem appendInt_two (b : List Char) (x : Int) (h0 : 0 ≤ x) (h1 : x ≤ 99) :
    appendInt b x 2 = b ++ [digitChar (x.toNat / 10), digitChar (x.toNat % 10)] := by
  have hn : ¬ x < 0 := by omega
  have hu : uint64 x = x := by simp only [uint64]; omega
  simp only [appendInt, hn, if_false, hu, List.append_assoc]
  rw [pad2 _ (by omega)]

theorem norm_of_inRange (hi lo base : Int) (h0 : 0 ≤ lo) (h1 : lo < base) :
    norm hi lo base = (hi, lo) := by
  have h2 : ¬ lo < 0 := by omega
  have h3 : ¬ lo ≥ base := by omega
  simp [norm, h2, h3]

theorem abs_unixTime (a nsec : Int) (h0 : 0 ≤ a) (h1 : a < 18446744073709551616) :
    (unixTime (int64 (int64 a + (absoluteToInternal + internalToUnix))) nsec).abs = a := by
  simp only [unixTime, Time.abs, int64, uint64, absoluteToInternal, internalToUnix,
    unixToInternal, internalToAbsolute]
  omega

/-- The cycle decomposition of `absDate` inverts the one of `daysSinceEpoch`. -/
theorem cycles_inverse (q c f r yd : Int) (hc0 : 0 ≤ c) (hc : c ≤ 3)
    (hf0 : 0 ≤ f) (hf : f ≤ 24) (hr0 : 0 ≤ r) (hr : r ≤ 3) (hyd0 : 0 ≤ yd)
    (hyd : yd < 365 ∨ (yd = 365 ∧ r = 3 ∧ (f ≠ 24 ∨ c = 3))) :
    let d := 146097 * q + 36524 * c + 1461 * f + 365 * r + yd
    let n := d / 146097
    let y := 400 * n
    let d := d - 146097 * n
    let n := d / 36524
    let n := n - n / 4
    let y := y + 100 * n
    let d := d - 36524 * n
    let n := d / 1461
    let y := y + 4 * n
    let d := d - 1461 * n
    let n := d / 365
    let n := n - n / 4
    let y := y + n
    let d := d - 365 * n
    y = 400 * q + 100 * c + 4 * f + r ∧ d = yd := by
  intro d n y d1 n1 n2 y1 d2 n3 y2 d3 n4 n5 y3 d4
  have h1 : n = q := by omega
  have h2 : d1 = 36524 * c + 1461 * f + 365 * r + yd := by omega
  have h3 : n2 = c := by
    have : n1 = c ∨ (n1 = 4 ∧ c = 3) := by
      interval_cases c <;> omega
    omega
  have h4 : d2 = 1461 * f + 365 * r + yd := by omega
  have h5 : n3 = f := by omega
  have h6 : d3 = 365 * r + yd := by omega
  have h7 : n5 = r := by
    have : n4 = r ∨ (n4 = 4 ∧ r = 3) := by
      interval_cases r <;> omega
    omega
  omega

theorem isLeap_iff (year : Int) :
    isLeap year = true ↔ (year % 4 = 0 ∧ (year % 100 ≠ 0 ∨ year % 400 = 0)) := by
  simp [isLeap]

theorem daysSinceEpoch_cycles (year : Int) (hy0 : 0 ≤ year) (hy1 : year ≤ 9999) :
    ∃ q c f r : Int, 0 ≤ c ∧ c ≤ 3 ∧ 0 ≤ f ∧ f ≤ 24 ∧ 0 ≤ r ∧ r ≤ 3 ∧
      730692555 ≤ q ∧ q ≤ 730692581 ∧
      year + 292277022399 = 400 * q + 100 * c + 4 * f + r ∧
      daysSinceEpoch year = 146097 * q + 36524 * c + 1461 * f + 365 * r := by
  have hy : uint64 (int64 year - absoluteZeroYear) = year + 292277022399 := by
    simp only [uint64, int64, absoluteZeroYear]; omega
  obtain ⟨q, c, f, r, hc0, hc, hf0, hf, hr0, hr, hyq⟩ :
      ∃ q c f r : Int, 0 ≤ c ∧ c ≤ 3 ∧ 0 ≤ f ∧ f ≤ 24 ∧ 0 ≤ r ∧ r ≤ 3 ∧
        year + 292277022399 = 400 * q + 100 * c + 4 * f + r := by
    refine ⟨(year + 292277022399) / 400, (year + 292277022399) % 400 / 100,
      (year + 292277022399) % 100 / 4, (year + 292277022399) % 4, ?_, ?_, ?_, ?_, ?_, ?_, ?_⟩ <;>
      omega
  have hq : 730692555 ≤ q ∧ q ≤ 730692581 := by omega
  refine ⟨q, c, f, r, hc0, hc, hf0, hf, hr0, hr, hq.1, hq.2, hyq, ?_⟩
  simp only [daysSinceEpoch, hy, daysPer400Years, daysPer100Years, daysPer4Years]
  simp only [uint64]
  rw [hyq]
  have e1 : (400 * q + 100 * c + 4 * f + r) / 400 = q := by omega
  rw [e1]
  have e2 : (400 * q + 100 * c + 4 * f + r - 400 * q) / 100 = c := by omega
  rw [e2]
  have e3 : (400 * q + 100 * c + 4 * f + r - 400 * q - 100 * c) / 4 = f := by omega
  rw [e3]
  omega

theorem daysSinceEpoch_bounds (year : Int) (hy0 : 0 ≤ year) (hy1 : year ≤ 9999) :
    0 ≤ daysSinceEpoch year ∧ daysSinceEpoch year ≤ 200000000000000 := by
  obtain ⟨q, c, f, r, hc0, hc, hf0, hf, hr0, hr, hq0, hq1, _, hd⟩ :=
    daysSinceEpoch_cycles year hy0 hy1
  omega

theorem absYearDay_eq (year yd s : Int) (hy0 : 0 ≤ year) (hy1 : year ≤ 9999)
    (hyd0 : 0 ≤ yd) (hyd : yd < 365 ∨ (yd = 365 ∧ isLeap year = true))
    (hs0 : 0 ≤ s) (hs1 : s < 86400) :
    absYearDay ((daysSinceEpoch year + yd) * 86400 + s) = (year, yd) := by
  obtain ⟨q, c, f, r, hc0, hc, hf0, hf, hr0, hr, hq0, hq1, hyq, hdse⟩ :=
    daysSinceEpoch_cycles year hy0 hy1
  have hleap : yd < 365 ∨ (yd = 365 ∧ r = 3 ∧ (f ≠ 24 ∨ c = 3)) := by
    rcases hyd with h | ⟨h, hl⟩
    · exact Or.inl h
    · right
      rw [isLeap_iff] at hl
      omega
  have key := cycles_inverse q c f r yd hc0 hc hf0 hf hr0 hr hyd0 hleap
  simp only at key
  have hdiv : ((daysSinceEpoch year + yd) * 86400 + s) / 86400 =
      146097 * q + 36524 * c + 1461 * f + 365 * r + yd := by
    rw [hdse]; omega
  simp only [absYearDay, secondsPerDay, daysPer400Years, daysPer100Years, daysPer4Years, hdiv]
  obtain ⟨k1, k2⟩ := key
  rw [k1, k2, ← hyq]
  simp only [int64, absoluteZeroYear]
  refine Prod.ext ?_ rfl
  simp only
  omega

theorem absDate_eq (abs : Int) :
    absDate abs = monthDay (absYearDay abs).1 (absYearDay abs).2 := rfl

theorem daysBeforeAt_vals : daysBeforeAt 0 = 0 ∧ daysBeforeAt 1 = 31 ∧ daysBeforeAt 2 = 59 ∧
    daysBeforeAt 3 = 90 ∧ daysBeforeAt 4 = 120 ∧ daysBeforeAt 5 = 151 ∧ daysBeforeAt 6 = 181 ∧
    daysBeforeAt 7 = 212 ∧ daysBeforeAt 8 = 243 ∧ daysBeforeAt 9 = 273 ∧ daysBeforeAt 10 = 304 ∧
    daysBeforeAt 11 = 334 ∧ daysBeforeAt 12 = 365 := by
  refine ⟨rfl, rfl, rfl, rfl, rfl, rfl, rfl, rfl, rfl, rfl, rfl, rfl, rfl⟩

/-- The month estimate of `absDate` on the day `x` of the year (February 29
taken out), in the month that is the `k`-th after January and spans the days
`B` to `E - 1`. -/
theorem month_estimate (year k B E x : Int) (hk0 : 0 ≤ k) (hk1 : k ≤ 11)
    (hB : daysBeforeAt k = B) (hE : daysBeforeAt (k + 1) = E)
    (hx0 : B ≤ x) (hx1 : x < E) :
    (let month := x / 31
     let e := daysBeforeAt (month + 1)
     let (month, begin) := if x ≥ e then (month + 1, e) else (month, daysBeforeAt month)
     (year, month + 1, x - begin + 1)) = (year, k + 1, x - B + 1) := by
  obtain ⟨v0, v1, v2, v3, v4, v5, v6, v7, v8, v9, v10, v11, v12⟩ := daysBeforeAt_vals
  have hq : x / 31 = k ∨ x / 31 = k - 1 := by
    interval_cases k <;> simp only [v0, v1, v2, v3, v4, v5, v6, v7, v8, v9, v10, v11, v12,
      zero_add, Int.reduceAdd] at hB hE <;> omega
  rcases hq with hq | hq
  · simp only [hq, hE]
    have : ¬ x ≥ E := by omega
    simp [this, hB]
  · simp only [hq]
    have e1 : k - 1 + 1 = k := by omega
    rw [e1, hB]
    have : x ≥ B := hx0
    simp [this]

theorem monthDay_of_estimate (year yd k x : Int) (hk0 : 0 ≤ k) (hk1 : k ≤ 11)
    (hc : (isLeap year && yd == 31 + 29 - 1) = false)
    (hx : (if (isLeap year && decide (yd > 31 + 29 - 1)) = true then yd - 1 else yd) = x)
    (hx0 : daysBeforeAt k ≤ x) (hx1 : x < daysBeforeAt (k + 1)) :
    monthDay year yd = (year, k + 1, x - daysBeforeAt k + 1) := by
  unfold monthDay
  rw [hc, if_neg Bool.false_ne_true, hx]
  exact month_estimate year k _ _ x hk0 hk1 rfl rfl hx0 hx1

theorem monthDay_yearDay (year month day : Int) (hm0 : 1 ≤ month) (hm1 : month ≤ 12)
    (hd0 : 1 ≤ day) (hd1 : day ≤ daysIn month year) :
    monthDay year (yearDay year month day) = (year, month, day) := by
  obtain ⟨v0, v1, v2, v3, v4, v5, v6, v7, v8, v9, v10, v11, v12⟩ := daysBeforeAt_vals
  have hB59 : 3 ≤ month → 59 ≤ daysBeforeAt (month - 1) := by
    intro h3
    interval_cases month <;> simp [v2, v3, v4, v5, v6, v7, v8, v9, v10, v11]
  have hk : month - 1 + 1 = month := by omega
  by_cases hl : isLeap year = true
  · by_cases h29 : month = 2 ∧ day = 29
    · obtain ⟨rfl, rfl⟩ := h29
      simp [monthDay, yearDay, hl, v1]
    · by_cases h3 : 3 ≤ month
      · have hm2 : ¬ month = 2 := by omega
        simp only [daysIn, hl, hm2, beq_iff_eq, Bool.and_true, decide_False, Bool.false_eq_true,
          if_false] at hd1
        have hyd : yearDay year month day = daysBeforeAt (month - 1) + 1 + (day - 1) := by
          simp [yearDay, hl, h3]
        have h59 := hB59 h3
        have := monthDay_of_estimate year (yearDay year month day) (month - 1)
          (daysBeforeAt (month - 1) + (day - 1)) (by omega) (by omega)
          (by rw [hyd]; simp; intro _; omega)
          (by
            have hc : (isLeap year && decide (daysBeforeAt (month - 1) + 1 + (day - 1) >
                31 + 29 - 1)) = true := by
              simp only [hl, Bool.true_and, decide_eq_true_eq]; omega
            rw [hyd, if_pos hc]; omega)
          (by omega) (by rw [hk]; omega)
        rw [this, hk]
        refine Prod.ext rfl (Prod.ext rfl ?_)
        simp only; omega
      · have hyd : yearDay year month day = daysBeforeAt (month - 1) + (day - 1) := by
          simp [yearDay, hl, h3]
        have hle : daysBeforeAt (month - 1) + (day - 1) < 59 ∧
            daysBeforeAt (month - 1) + (day - 1) < daysBeforeAt month := by
          have hm : month = 1 ∨ month = 2 := by omega
          rcases hm with rfl | rfl
          · simp only [daysIn, hl, v0, v1] at hd1 ⊢
            simp at hd1 ⊢; omega
          · simp only [daysIn, hl, v1, v2] at hd1 ⊢
            simp at hd1 h29 ⊢; omega
        have := monthDay_of_estimate year (yearDay year month day) (month - 1)
          (daysBeforeAt (month - 1) + (day - 1)) (by omega) (by omega)
          (by rw [hyd]; simp; intro _; omega)
          (by
            have hc : ¬ (isLeap year && decide (daysBeforeAt (month - 1) + (day - 1) >
                31 + 29 - 1)) = true := by
              simp only [hl, Bool.true_and, decide_eq_true_eq]; omega
            rw [hyd, if_neg hc])
          (by omega) (by rw [hk]; omega)
        rw [this, hk]
        refine Prod.ext rfl (Prod.ext rfl ?_)
        simp only; omega
  · have hyd : yearDay year month day = daysBeforeAt (month - 1) + (day - 1) := by
      simp [yearDay, hl]
    simp only [daysIn, hl, Bool.and_false, Bool.false_eq_true, if_false] at hd1
    have := monthDay_of_estimate year (yearDay year month day) (month - 1)
      (daysBeforeAt (month - 1) + (day - 1)) (by omega) (by omega)
      (by simp [hl])
      (by
        have hc : ¬ (isLeap year && decide (daysBeforeAt (month - 1) + (day - 1) >
            31 + 29 - 1)) = true := by
          simp [hl]
        rw [hyd, if_neg hc])
      (by omega) (by rw [hk]; omega)
    rw [this, hk]
    refine Prod.ext rfl (Prod.ext rfl ?_)
    simp only; omega

theorem yearDay_bounds (year month day : Int) (hm0 : 1 ≤ month) (hm1 : month ≤ 12)
    (hd0 : 1 ≤ day) (hd1 : day ≤ daysIn month year) :
    0 ≤ yearDay year month day ∧
      (yearDay year month day < 365 ∨
        (yearDay year month day = 365 ∧ isLeap year = true)) := by
  obtain ⟨v0, v1, v2, v3, v4, v5, v6, v7, v8, v9, v10, v11, v12⟩ := daysBeforeAt_vals
  by_cases hl : isLeap year = true
  · interval_cases month <;>
      simp [daysIn, yearDay, hl, v0, v1, v2, v3, v4, v5, v6, v7, v8, v9, v10, v11, v12]
        at hd1 ⊢ <;> omega
  · interval_cases month <;>
      simp [daysIn, yearDay, hl, v0, v1, v2, v3, v4, v5, v6, v7, v8, v9, v10, v11, v12]
        at hd1 ⊢ <;> omega

theorem abs_Date (year month day hour min sec nsec : Int)
    (hy0 : 0 ≤ year) (hy1 : year ≤ 9999) (hm0 : 1 ≤ month) (hm1 : month ≤ 12)
    (hd0 : 1 ≤ day) (hd1 : day ≤ daysIn month year)
    (hh0 : 0 ≤ hour) (hh1 : hour < 24) (hn0 : 0 ≤ min) (hn1 : min < 60)
    (hs0 : 0 ≤ sec) (hs1 : sec < 60) (hf0 : 0 ≤ nsec) (hf1 : nsec < 1000000000) :
    (Date year month day hour min sec nsec).abs =
      (daysSinceEpoch year + yearDay year month day) * 86400 +
        (hour * 3600 + min * 60 + sec) := by
  have hb := daysSinceEpoch_bounds year hy0 hy1
  have hyb := yearDay_bounds year month day hm0 hm1 hd0 hd1
  have e1 : norm year (month - 1) 12 = (year, month - 1) :=
    norm_of_inRange _ _ _ (by omega) (by omega)
  have e2 : norm sec nsec 1000000000 = (sec, nsec) := norm_of_inRange _ _ _ hf0 hf1
  have e3 : norm min sec 60 = (min, sec) := norm_of_inRange _ _ _ hs0 hs1
  have e4 : norm hour min 60 = (hour, min) := norm_of_inRange _ _ _ hn0 hn1
  have e5 : norm day hour 24 = (day, hour) := norm_of_inRange _ _ _ hh0 hh1
  have hk : month - 1 + 1 = month := by omega
  have hyd : (if (isLeap year && decide (month ≥ 3)) = true
      then daysSinceEpoch year + daysBeforeAt (month - 1) + 1
      else daysSinceEpoch year + daysBeforeAt (month - 1)) + (day - 1) =
      daysSinceEpoch year + yearDay year month day := by
    unfold yearDay
    split_ifs <;> simp only <;> omega
  unfold Date
  simp only [e1, e2, e3, e4, e5, hk]
  rw [abs_unixTime]
  · simp only [uint64, secondsPerDay, secondsPerHour, secondsPerMinute] at hyd ⊢
    omega
  · simp only [uint64]; omega
  · simp only [uint64]; omega

theorem absDate_Date (year month day hour min sec nsec : Int)
    (hy0 : 0 ≤ year) (hy1 : year ≤ 9999) (hm0 : 1 ≤ month) (hm1 : month ≤ 12)
    (hd0 : 1 ≤ day) (hd1 : day ≤ daysIn month year)
    (hh0 : 0 ≤ hour) (hh1 : hour < 24) (hn0 : 0 ≤ min) (hn1 : min < 60)
    (hs0 : 0 ≤ sec) (hs1 : sec < 60) (hf0 : 0 ≤ nsec) (hf1 : nsec < 1000000000) :
    absDate (Date year month day hour min sec nsec).abs = (year, month, day) := by
  have hyb := yearDay_bounds year month day hm0 hm1 hd0 hd1
  rw [abs_Date year month day hour min sec nsec hy0 hy1 hm0 hm1 hd0 hd1 hh0 hh1 hn0 hn1
    hs0 hs1 hf0 hf1, absDate_eq,
    absYearDay_eq year _ _ hy0 hy1 hyb.1 hyb.2 (by omega) (by omega)]
  exact monthDay_yearDay year month day hm0 hm1 hd0 hd1

theorem isDigit_zero_cons (c : Char) (cs : List Char) :
    isDigit (c :: cs) 0 = decide ('0' ≤ c ∧ c ≤ '9') := rfl

theorem isDigit_succ_cons (c : Char) (cs : List Char) (i : Nat) :
    isDigit (c :: cs) (i + 1) = isDigit cs i := rfl

theorem isDigit_nil (i : Nat) : isDigit [] i = false := rfl

/-- A successful `getnum` with `fixed` read two digits. -/
theorem getnum_fixed_some (s rest : List Char) (n : Int) (h : getnum s true = some (n, rest)) :
    ∃ a b : Char, ('0' ≤ a ∧ a ≤ '9') ∧ ('0' ≤ b ∧ b ≤ '9') ∧ s = a :: b :: rest ∧
      n = (digitVal a * 10 + digitVal b : Nat) := by
  match s, h with
  | [], h => simp [getnum, isDigit_nil] at h
  | [a], h =>
    simp only [getnum, isDigit_zero_cons, isDigit_succ_cons, isDigit_nil] at h
    split_ifs at h with h1 h2
    simp at h2
  | a :: b :: r, h =>
    simp only [getnum, isDigit_zero_cons, isDigit_succ_cons] at h
    split_ifs at h with h1 h2
    simp only [Bool.not_eq_true', decide_eq_false_iff_not, not_not] at h1 h2
    simp only [List.getD_cons_zero, List.getD_cons_succ, List.drop_succ_cons, List.drop_zero,
      Option.some.injEq, Prod.mk.injEq] at h
    refine ⟨a, b, h1, h2, ?_, ?_⟩
    · rw [h.2]
    · rw [← h.1]; push_cast; rfl

/-- A successful `getnum` yields a number from 0 to 99. -/
theorem getnum_some_bounds (s rest : List Char) (fixed : Bool) (n : Int)
    (h : getnum s fixed = some (n, rest)) : 0 ≤ n := by
  simp only [getnum] at h
  split_ifs at h <;> simp only [Option.some.injEq, Prod.mk.injEq] at h <;>
    (rw [← h.1]; positivity)

/-- A successful `skip` of a one-byte literal other than a blank removed it. -/
theorem skip_single_some (value rest : List Char) (c : Char) (hc : c ≠ ' ')
    (h : skip value [c] = some rest) : value = c :: rest := by
  match value, h with
  | [], h => simp [skip, skipLoop, hc] at h
  | v :: vs, h =>
    simp only [skip, List.length_singleton, skipLoop, hc, if_false, List.head?_cons,
      Option.some.injEq, ne_eq, List.drop_succ_cons, List.drop_zero] at h
    split_ifs at h with h1
    simp only [not_not] at h1
    simp only [Option.some.injEq] at h
    rw [h1, h]

/-- What `leadingInt` returns: the rest is a suffix and the number stays below
the bound set by the number of digits read. -/
theorem leadingInt_some (l : List Char) : ∀ (x q : Nat) (rest : List Char),
    leadingInt l x = some (q, rest) →
      rest.length ≤ l.length ∧ q + 1 ≤ (x + 1) * 10 ^ (l.length - rest.length) := by
  induction l with
  | nil =>
    intro x q rest h
    simp only [leadingInt, Option.some.injEq, Prod.mk.injEq] at h
    obtain ⟨rfl, rfl⟩ := h
    simp
  | cons c cs ih =>
    intro x q rest h
    simp only [leadingInt] at h
    split_ifs at h with h1 h2 h3
    · simp only [Option.some.injEq, Prod.mk.injEq] at h
      obtain ⟨rfl, rfl⟩ := h
      simp
    · obtain ⟨hl, hq⟩ := ih _ _ _ h
      have hc : digitVal c ≤ 9 := by
        simp only [not_or, not_lt] at h1
        exact digitVal_le c h1.1 h1.2
      refine ⟨by simp only [List.length_cons]; omega, ?_⟩
      have e : (c :: cs).length - rest.length = (cs.length - rest.length) + 1 := by
        simp only [List.length_cons]; omega
      rw [e, pow_succ]
      calc q + 1 ≤ (x * 10 + digitVal c + 1) * 10 ^ (cs.length - rest.length) := hq
        _ ≤ ((x + 1) * 10) * 10 ^ (cs.length - rest.length) :=
            Nat.mul_le_mul_right _ (by omega)
        _ = (x + 1) * (10 ^ (cs.length - rest.length) * 10) := by ring

/-- A number read by `atoi` from at most nine bytes is below `10 ^ 9` in
absolute value, and below `10 ^ k` for `k` bytes. -/
theorem atoi_some_bound (l : List Char) (n : Int) (hl : l.length ≤ 9)
    (h : atoi l = some n) : -(10 ^ l.length : Int) < n ∧ n < 10 ^ l.length := by
  simp only [atoi] at h
  split at h
  · rename_i q hq
    obtain ⟨_, hb⟩ := leadingInt_some _ _ _ _ hq
    simp only [zero_add, one_mul, List.length_nil, Nat.sub_zero] at hb
    have hlen : (if l.head? = some '-' ∨ l.head? = some '+' then List.drop 1 l else l).length
        ≤ l.length := by
      split_ifs <;> simp
    have hpow : 10 ^ (if l.head? = some '-' ∨ l.head? = some '+' then List.drop 1 l
        else l).length ≤ 10 ^ l.length := Nat.pow_le_pow_right (by norm_num) hlen
    have h9 : 10 ^ l.length ≤ 10 ^ 9 := Nat.pow_le_pow_right (by norm_num) hl
    have hq1 : (q : Int) < 10 ^ l.length := by
      have : q < 10 ^ l.length := by omega
      exact_mod_cast this
    have hq9 : (q : Int) < 1000000000 := by
      have : q < 10 ^ 9 := by omega
      have : q < 1000000000 := by simpa using this
      exact_mod_cast this
    have hi : int64 q = q := by
      simp only [int64]; omega
    simp only [Option.some.injEq] at h
    rw [hi] at h
    split_ifs at h <;> omega
  · simp at h

theorem digit_not_sign (a : Char) (h0 : '0' ≤ a) : a ≠ '-' ∧ a ≠ '+' := by
  constructor
  · rintro rfl; exact absurd h0 (by decide)
  · rintro rfl; exact absurd h0 (by decide)

/-- When `leadingInt` leaves nothing over, every byte was a digit and the number
is their decimal value. -/
theorem leadingInt_all (l : List Char) : ∀ (x q : Nat), leadingInt l x = some (q, []) →
    (∀ c ∈ l, '0' ≤ c ∧ c ≤ '9') ∧ q = l.foldl (fun acc c => acc * 10 + digitVal c) x := by
  induction l with
  | nil =>
    intro x q h
    simp only [leadingInt, Option.some.injEq, Prod.mk.injEq, and_true] at h
    simp [h]
  | cons c cs ih =>
    intro x q h
    simp only [leadingInt] at h
    split_ifs at h with h1 h2 h3
    · simp at h
    · obtain ⟨hall, hq⟩ := ih _ _ h
      simp only [not_or, not_lt] at h1
      refine ⟨?_, by simpa using hq⟩
      intro c' hc'
      rcases List.mem_cons.mp hc' with rfl | hm
      · exact h1
      · exact hall c' hm

/-- A successful `stdLongYear` chunk read four digits. -/
theorem parseLongYear_some (value rest : List Char) (y : Int)
    (h : parseLongYear value = some (y, rest)) :
    ∃ a b c d : Char, ('0' ≤ a ∧ a ≤ '9') ∧ ('0' ≤ b ∧ b ≤ '9') ∧ ('0' ≤ c ∧ c ≤ '9') ∧
      ('0' ≤ d ∧ d ≤ '9') ∧ value = a :: b :: c :: d :: rest ∧
      y = (digitVal a * 1000 + digitVal b * 100 + digitVal c * 10 + digitVal d : Nat) := by
  simp only [parseLongYear] at h
  split_ifs at h with h1
  simp only [not_or, not_lt, Bool.not_eq_true, Bool.not_eq_false'] at h1
  obtain ⟨hlen, hd0⟩ := h1
  match value, hlen, hd0, h with
  | a :: b :: c :: d :: r, _, hd0, h =>
    simp only [isDigit_zero_cons, decide_eq_true_eq] at hd0
    have hs := digit_not_sign a hd0.1
    simp only [List.take_succ_cons, List.take_zero, List.drop_succ_cons, List.drop_zero, atoi,
      List.head?_cons, Option.some.injEq, hs.1, hs.2, or_self, if_false, decide_False] at h
    split at h
    · rename_i y' hy'
      simp only [Option.some.injEq, Prod.mk.injEq] at h
      obtain ⟨rfl, rfl⟩ := h
      split at hy'
      · rename_i q hq
        simp only [Option.some.injEq] at hy'
        obtain ⟨hall, hq'⟩ := leadingInt_all _ _ _ hq
        simp only [List.foldl_cons, List.foldl_nil, zero_mul, zero_add] at hq'
        have ha := hall a (by simp)
        have hb := hall b (by simp)
        have hc := hall c (by simp)
        have hd := hall d (by simp)
        have ha' := digitVal_le a ha.1 ha.2
        have hb' := digitVal_le b hb.1 hb.2
        have hc' := digitVal_le c hc.1 hc.2
        have hd' := digitVal_le d hd.1 hd.2
        refine ⟨a, b, c, d, ha, hb, hc, hd, rfl, ?_⟩
        rw [← hy', hq']
        simp only [int64]
        push_cast
        omega
      · simp at hy'
    · simp at h

theorem parseNanoseconds_some (value : List Char) (nbytes : Nat) (ns : Int) (hn : 1 ≤ nbytes)
    (h : parseNanoseconds value nbytes = some ns) : 0 ≤ ns ∧ ns < 1000000000 := by
  simp only [parseNanoseconds] at h
  obtain ⟨k, hk, hk1, hk10⟩ : ∃ k, (if nbytes > 10 then 10 else nbytes) = k ∧ 1 ≤ k ∧ k ≤ 10 := by
    refine ⟨_, rfl, ?_, ?_⟩ <;> split_ifs <;> omega
  rw [hk] at h
  generalize (if nbytes > 10 then List.take 10 value else value) = v at h
  split_ifs at h with h1
  split at h
  · simp at h
  · rename_i n hn'
    split_ifs at h with h2
    simp only [Option.some.injEq] at h
    have hlen : (List.drop 1 (List.take k v)).length ≤ k - 1 := by
      simp only [List.length_drop, List.length_take]
      omega
    have hb := atoi_some_bound _ n (by omega) hn'
    have hpow : (10 : Int) ^ (List.drop 1 (List.take k v)).length ≤ 10 ^ (k - 1) :=
      pow_le_pow_right₀ (by norm_num) hlen
    have hn1 : n < 10 ^ (k - 1) := lt_of_lt_of_le hb.2 hpow
    have hn0 : 0 ≤ n := by omega
    rw [← h]
    clear hb hpow hlen hn' h hk
    interval_cases k <;> norm_num at hn1 ⊢ <;> omega

/-- The nanoseconds of a successful `stdFracSecond9` chunk are below a second. -/
theorem parseFracSecond9_some (value rest : List Char) (ns : Int)
    (h : parseFracSecond9 value = some (ns, rest)) : 0 ≤ ns ∧ ns < 1000000000 := by
  simp only [parseFracSecond9] at h
  split_ifs at h with h1
  · simp only [Option.some.injEq, Prod.mk.injEq] at h
    omega
  · split at h
    · simp at h
    · rename_i n hn
      simp only [Option.some.injEq, Prod.mk.injEq] at h
      rw [← h.1]
      exact parseNanoseconds_some _ _ _ (by omega) hn

/-- A successful date part: ten bytes `YYYY-MM-DD` of digits and hyphens. -/
theorem parseDateChunks_some (value rest : List Char) (y m d : Int)
    (h : parseDateChunks value = some ((y, m, d), rest)) :
    ∃ y1 y2 y3 y4 m1 m2 d1 d2 : Char,
      ('0' ≤ y1 ∧ y1 ≤ '9') ∧ ('0' ≤ y2 ∧ y2 ≤ '9') ∧ ('0' ≤ y3 ∧ y3 ≤ '9') ∧
      ('0' ≤ y4 ∧ y4 ≤ '9') ∧ ('0' ≤ m1 ∧ m1 ≤ '9') ∧ ('0' ≤ m2 ∧ m2 ≤ '9') ∧
      ('0' ≤ d1 ∧ d1 ≤ '9') ∧ ('0' ≤ d2 ∧ d2 ≤ '9') ∧
      value = y1 :: y2 :: y3 :: y4 :: '-' :: m1 :: m2 :: '-' :: d1 :: d2 :: rest ∧
      y = (digitVal y1 * 1000 + digitVal y2 * 100 + digitVal y3 * 10 + digitVal y4 : Nat) ∧
      m = (digitVal m1 * 10 + digitVal m2 : Nat) ∧ 1 ≤ m ∧ m ≤ 12 ∧
      d = (digitVal d1 * 10 + digitVal d2 : Nat) := by
  simp only [parseDateChunks, Option.bind_eq_some] at h
  obtain ⟨⟨y', r1⟩, hy, r2, hs1, ⟨m', r3⟩, hm, h⟩ := h
  split_ifs at h with hrange
  simp only [Option.bind_eq_some] at h
  obtain ⟨r4, hs2, ⟨d', r5⟩, hd, h⟩ := h
  simp only [Option.some.injEq, Prod.mk.injEq] at h
  obtain ⟨⟨rfl, rfl, rfl⟩, rfl⟩ := h
  obtain ⟨y1, y2, y3, y4, g1, g2, g3, g4, rfl, rfl⟩ := parseLongYear_some _ _ _ hy
  have e1 := skip_single_some _ _ '-' (by decide) hs1
  obtain ⟨m1, m2, g5, g6, e2, rfl⟩ := getnum_fixed_some _ _ _ hm
  have e3 := skip_single_some _ _ '-' (by decide) hs2
  obtain ⟨d1, d2, g7, g8, e4, rfl⟩ := getnum_fixed_some _ _ _ hd
  simp only at e1 e2 e3 e4
  refine ⟨y1, y2, y3, y4, m1, m2, d1, d2, g1, g2, g3, g4, g5, g6, g7, g8, ?_, rfl, rfl, ?_, ?_,
    rfl⟩
  · rw [e1, e2, e3, e4]
  · simp only [not_or, not_le, not_lt] at hrange; omega
  · simp only [not_or, not_le, not_lt] at hrange; omega

theorem parseHourMinuteChunks_some (value rest : List Char) (hh mm : Int)
    (h : parseHourMinuteChunks value = some ((hh, mm), rest)) :
    0 ≤ hh ∧ hh < 24 ∧ 0 ≤ mm ∧ mm < 60 := by
  simp only [parseHourMinuteChunks, Option.bind_eq_some] at h
  obtain ⟨r1, _, ⟨h', r2⟩, _, h⟩ := h
  split_ifs at h with hr1
  simp only [Option.bind_eq_some] at h
  obtain ⟨r3, _, ⟨m', r4⟩, _, h⟩ := h
  split_ifs at h with hr2
  simp only [Option.some.injEq, Prod.mk.injEq] at h
  obtain ⟨⟨rfl, rfl⟩, rfl⟩ := h
  simp only [not_or, not_le, not_lt] at hr1 hr2
  omega

theorem parseSecondChunks_some (value rest : List Char) (ss ns : Int)
    (h : parseSecondChunks value = some ((ss, ns), rest)) :
    0 ≤ ss ∧ ss < 60 ∧ 0 ≤ ns ∧ ns < 1000000000 := by
  simp only [parseSecondChunks, Option.bind_eq_some] at h
  obtain ⟨r1, _, ⟨s', r2⟩, _, h⟩ := h
  split_ifs at h with hr1
  simp only [Option.bind_eq_some] at h
  obtain ⟨⟨n', r3⟩, hf, h⟩ := h
  simp only [Option.some.injEq, Prod.mk.injEq] at h
  obtain ⟨⟨rfl, rfl⟩, rfl⟩ := h
  have := parseFracSecond9_some _ _ _ hf
  simp only [not_or, not_le, not_lt] at hr1
  omega

/-- The text that `Format` writes for a time with a given calendar date. -/
theorem Format_of_absDate (t : Time) (y m d : Int) (h : absDate t.abs = (y, m, d))
    (hy0 : 0 ≤ y) (hy1 : y ≤ 9999) (hm0 : 0 ≤ m) (hm1 : m ≤ 99) (hd0 : 0 ≤ d) (hd1 : d ≤ 99) :
    t.Format = String.mk [digitChar (y.toNat / 1000), digitChar (y.toNat / 100 % 10),
      digitChar (y.toNat / 10 % 10), digitChar (y.toNat % 10), '-',
      digitChar (m.toNat / 10), digitChar (m.toNat % 10), '-',
      digitChar (d.toNat / 10), digitChar (d.toNat % 10)] := by
  unfold Time.Format
  rw [h]
  simp only
  rw [appendInt_four _ _ hy0 hy1, appendInt_two _ _ hm0 hm1, appendInt_two _ _ hd0 hd1]
  simp

/-- Formatting a parsed time with the layout `2006-01-02` gives back the first
ten bytes of the parsed text. -/
theorem Format_of_Parse (value : List Char) (t : Time) (h : Parse value = some t) :
    t.Format = String.mk (value.take 10) := by
  simp only [Parse, Option.bind_eq_some] at h
  obtain ⟨⟨⟨y, m, d⟩, r1⟩, hd, ⟨⟨hh, mm⟩, r2⟩, hhm, ⟨⟨ss, ns⟩, r3⟩, hs, r4, _, h⟩ := h
  split_ifs at h with hl hday
  simp only [Option.some.injEq] at h
  simp only [not_or, not_le, not_lt] at hday
  obtain ⟨y1, y2, y3, y4, m1, m2, d1, d2, g1, g2, g3, g4, g5, g6, g7, g8, rfl, hy, hm, hm0, hm1,
    hdd⟩ := parseDateChunks_some _ _ _ _ _ hd
  obtain ⟨a1, a2, a3, a4⟩ := parseHourMinuteChunks_some _ _ _ _ hhm
  obtain ⟨b1, b2, b3, b4⟩ := parseSecondChunks_some _ _ _ _ hs
  clear hd hhm hs
  have v1 := digitVal_le y1 g1.1 g1.2
  have v2 := digitVal_le y2 g2.1 g2.2
  have v3 := digitVal_le y3 g3.1 g3.2
  have v4 := digitVal_le y4 g4.1 g4.2
  have v5 := digitVal_le m1 g5.1 g5.2
  have v6 := digitVal_le m2 g6.1 g6.2
  have v7 := digitVal_le d1 g7.1 g7.2
  have v8 := digitVal_le d2 g8.1 g8.2
  have hy0 : 0 ≤ y ∧ y ≤ 9999 := by omega
  have hd0 : 0 ≤ d ∧ d ≤ 99 := by omega
  have key := absDate_Date y m d hh mm ss ns hy0.1 hy0.2 hm0 hm1 hday.1 hday.2
    a1 a2 a3 a4 b1 b2 b3 b4
  rw [h] at key
  rw [Format_of_absDate t y m d key hy0.1 hy0.2 (by omega) (by omega) hd0.1 hd0.2]
  have t1 : y.toNat / 1000 = digitVal y1 := by omega
  have t2 : y.toNat / 100 % 10 = digitVal y2 := by omega
  have t3 : y.toNat / 10 % 10 = digitVal y3 := by omega
  have t4 : y.toNat % 10 = digitVal y4 := by omega
  have t5 : m.toNat / 10 = digitVal m1 := by omega
  have t6 : m.toNat % 10 = digitVal m2 := by omega
  have t7 : d.toNat / 10 = digitVal d1 := by omega
  have t8 : d.toNat % 10 = digitVal d2 := by omega
  rw [t1, t2, t3, t4, t5, t6, t7, t8, digitChar_digitVal _ g1.1 g1.2,
    digitChar_digitVal _ g2.1 g2.2, digitChar_digitVal _ g3.1 g3.2,
    digitChar_digitVal _ g4.1 g4.2, digitChar_digitVal _ g5.1 g5.2,
    digitChar_digitVal _ g6.1 g6.2, digitChar_digitVal _ g7.1 g7.2,
    digitChar_digitVal _ g8.1 g8.2]
  rfl

end time

/-! ## The claims -/

/-- C1: for every timestamp string `raw` that `EventTime.UnmarshalJSON` accepts, the
`FactTime` that `populateFact` writes for an event with that time is the first ten
characters of `raw`, and these are ten: the calendar date `YYYY-MM-DD`, whatever
the time of day and the fraction are. -/
theorem C1_factTime_is_date_prefix (raw : String) (et : EventTime) (event : Event) (fact : Fact)
    (h : EventTime.UnmarshalJSON (.str raw) = .ok et) (he : event.Time = et) :
    (populateFact event fact).FactTime = String.mk (raw.data.take 10) ∧
      (raw.data.take 10).length = 10 := by
  simp only [EventTime.UnmarshalJSON, unmarshalString] at h
  split at h
  · simp at h
  · rename_i t ht
    simp only [Except.ok.injEq] at h
    subst h
    have hf := time.Format_of_Parse _ _ ht
    refine ⟨?_, ?_⟩
    · simp only [populateFact, he]
      exact hf
    · simp only [time.Parse, Option.bind_eq_some] at ht
      obtain ⟨⟨⟨y, m, d⟩, r1⟩, hd, _⟩ := ht
      obtain ⟨y1, y2, y3, y4, m1, m2, d1, d2, _, _, _, _, _, _, _, _, hv, _⟩ :=
        time.parseDateChunks_some _ _ _ _ _ hd
      rw [hv]
      rfl

theorem C1_witness :
    (populateFact scenarioEvent templateFact).FactTime =
        String.mk ("2024-02-01T08:15:00.123456Z".data.take 10) ∧
      ("2024-02-01T08:15:00.123456Z".data.take 10).length = 10 :=
  C1_factTime_is_date_prefix "2024-02-01T08:15:00.123456Z" scenarioEvent.Time scenarioEvent
    templateFact (by rfl) rfl

/-- C2: JSON-decoding the `SuperTags` that `populateFact` writes gives an array of
exactly one element, whose value is the user name of the author of the event,
whatever characters it holds, and whose tag has the author's user id as `id`,
the name `Клиент`, the key `client` and `values_source` 0. -/
theorem C2_superTags_decodes_to_one_tag (event : Event) (fact : Fact)
    (hid : isInt event.Author.UserId) :
    json.Unmarshal (populateFact event fact).SuperTags.data =
      some [{ Tag := { ID := event.Author.UserId, Name := "Клиент", Key := "client",
                       ValuesSource := 0 },
              Value := event.Author.UserName }] :=
  json.Unmarshal_Marshal_single
    { Tag := { ID := event.Author.UserId, Name := "Клиент", Key := "client", ValuesSource := 0 },
      Value := event.Author.UserName } hid (show isInt (0 : Int) by decide)

theorem C2_witness :
    json.Unmarshal (populateFact scenarioEvent templateFact).SuperTags.data =
      some [{ Tag := { ID := scenarioEvent.Author.UserId, Name := "Клиент", Key := "client",
                       ValuesSource := 0 },
              Value := scenarioEvent.Author.UserName }] :=
  C2_superTags_decodes_to_one_tag scenarioEvent templateFact (by decide)

/-- C3: after `populateFact` the fact has the `PeriodStart` and `PeriodEnd` of the
event's period as they are, and `IndToMoFactId` is the decimal of the event's
`IndicatorToMoId`, with a leading `-` for a negative id, whatever the template
held in that field. -/
theorem C3_period_and_fact_id (event : Event) (fact : Fact)
    (hid : isInt event.Params.IndicatorToMoId) :
    (populateFact event fact).PeriodStart = event.Params.Period.Start ∧
      (populateFact event fact).PeriodEnd = event.Params.Period.End ∧
      (populateFact event fact).IndToMoFactId = toString event.Params.IndicatorToMoId ∧
      (populateFact event fact).IndToMoFactId =
        (if event.Params.IndicatorToMoId < 0 then "-" else "") ++
          Nat.repr event.Params.IndicatorToMoId.natAbs := by
  refine ⟨rfl, rfl, ?_, ?_⟩
  · exact Itoa_eq_toString _ hid
  · show strconv.Itoa event.Params.IndicatorToMoId = _
    rw [Itoa_eq_toString _ hid]
    cases event.Params.IndicatorToMoId with
    | ofNat m => simp [toString]; rfl
    | negSucc m =>
      have : Int.negSucc m < 0 := Int.negSucc_lt_zero m
      simp only [this, if_true]
      rfl

theorem C3_witness :
    (populateFact scenarioEvent templateFact).PeriodStart = "2024-01-01T00:00:00Z" ∧
      (populateFact scenarioEvent templateFact).PeriodEnd = "2024-01-31T23:59:59Z" ∧
      (populateFact scenarioEvent templateFact).IndToMoFactId = toString (42 : Int) ∧
      (populateFact scenarioEvent templateFact).IndToMoFactId =
        (if (42 : Int) < 0 then "-" else "") ++ Nat.repr (42 : Int).natAbs :=
  C3_period_and_fact_id scenarioEvent templateFact (by decide)

/-- C4: `populateFact` leaves `PeriodKey`, `AuthUserId`, `Value`, `IndToMoId`,
`IsPlan` and `Comment` as the caller supplied them, whatever the event is. -/
theorem C4_template_fields_kept (event : Event) (fact : Fact) :
    (populateFact event fact).PeriodKey = fact.PeriodKey ∧
      (populateFact event fact).AuthUserId = fact.AuthUserId ∧
      (populateFact event fact).Value = fact.Value ∧
      (populateFact event fact).IndToMoId = fact.IndToMoId ∧
      (populateFact event fact).IsPlan = fact.IsPlan ∧
      (populateFact event fact).Comment = fact.Comment :=
  ⟨rfl, rfl, rfl, rfl, rfl, rfl⟩

/-! ### Form encoding and decoding -/

namespace url

theorem upperhex_spec (n : Nat) (h : n < 16) :
    ishex (upperhex.getD n 0) = true ∧ unhex (upperhex.getD n 0) = n ∧
      upperhex.getD n 0 ≠ byte '&' ∧ upperhex.getD n 0 ≠ byte '=' ∧
      upperhex.getD n 0 ≠ byte ';' := by
  interval_cases n <;> decide

/-- The three shapes of what `QueryEscape` writes for one byte. -/
theorem escape_byte_cases (c : UInt8) :
    ((if c = byte ' ' then [byte '+']
      else if shouldEscape c then
        [byte '%', upperhex.getD (c.toNat / 16) 0, upperhex.getD (c.toNat % 16) 0]
      else [c]) = [byte '+'] ∧ c = byte ' ') ∨
    ((if c = byte ' ' then [byte '+']
      else if shouldEscape c then
        [byte '%', upperhex.getD (c.toNat / 16) 0, upperhex.getD (c.toNat % 16) 0]
      else [c]) = [byte '%', upperhex.getD (c.toNat / 16) 0, upperhex.getD (c.toNat % 16) 0]) ∨
    ((if c = byte ' ' then [byte '+']
      else if shouldEscape c then
        [byte '%', upperhex.getD (c.toNat / 16) 0, upperhex.getD (c.toNat % 16) 0]
      else [c]) = [c] ∧ shouldEscape c = false) := by
  by_cases h1 : c = byte ' '
  · left; simp [h1]
  · by_cases h2 : shouldEscape c = true
    · right; left; simp [h1, h2]
    · right; right; simp [h1, h2]

theorem unreserved_ne (c : UInt8) (h : shouldEscape c = false) :
    c ≠ byte '%' ∧ c ≠ byte '+' ∧ c ≠ byte '&' ∧ c ≠ byte '=' ∧ c ≠ byte ';' := by
  refine ⟨?_, ?_, ?_, ?_, ?_⟩ <;> (rintro rfl; revert h; decide)

theorem toNat_lt (c : UInt8) : c.toNat < 256 := c.val.isLt

theorem ofNat_toNat (c : UInt8) : UInt8.ofNat c.toNat = c := by
  cases c with
  | mk v =>
    apply UInt8.ext
    simp [UInt8.ofNat, UInt8.toNat, Fin.ofNat]

theorem QueryUnescape_plus (r : List UInt8) :
    QueryUnescape (byte '+' :: r) = (QueryUnescape r).map fun t => byte ' ' :: t := by
  have h1 : byte '+' ≠ byte '%' := by decide
  conv_lhs => unfold QueryUnescape
  simp only [h1, if_false, if_true]

theorem QueryUnescape_percent (a b : UInt8) (r : List UInt8) (ha : ishex a = true)
    (hb : ishex b = true) :
    QueryUnescape (byte '%' :: a :: b :: r) =
      (QueryUnescape r).map fun t => UInt8.ofNat (unhex a * 16 + unhex b) :: t := by
  conv_lhs => unfold QueryUnescape
  simp only [if_true, ha, hb, Bool.and_self]

theorem QueryUnescape_other (c : UInt8) (r : List UInt8) (h1 : c ≠ byte '%')
    (h2 : c ≠ byte '+') :
    QueryUnescape (c :: r) = (QueryUnescape r).map fun t => c :: t := by
  conv_lhs => unfold QueryUnescape
  simp only [h1, h2, if_false]

/-- Unescaping undoes escaping, byte for byte. -/
theorem QueryUnescape_QueryEscape (s : List UInt8) : QueryUnescape (QueryEscape s) = some s := by
  induction s with
  | nil => rfl
  | cons c cs ih =>
    have hcons : QueryEscape (c :: cs) =
        (if c = byte ' ' then [byte '+']
          else if shouldEscape c then
            [byte '%', upperhex.getD (c.toNat / 16) 0, upperhex.getD (c.toNat % 16) 0]
          else [c]) ++ QueryEscape cs := by
      simp [QueryEscape]
    rw [hcons]
    have hlt := toNat_lt c
    rcases escape_byte_cases c with ⟨h, hc⟩ | h | ⟨h, hc⟩
    · rw [h, List.singleton_append, QueryUnescape_plus, ih, hc]
      rfl
    · rw [h]
      obtain ⟨a1, a2, _⟩ := upperhex_spec (c.toNat / 16) (by omega)
      obtain ⟨b1, b2, _⟩ := upperhex_spec (c.toNat % 16) (by omega)
      have e : c.toNat / 16 * 16 + c.toNat % 16 = c.toNat := by omega
      show QueryUnescape (byte '%' :: upperhex.getD (c.toNat / 16) 0 ::
        upperhex.getD (c.toNat % 16) 0 :: QueryEscape cs) = _
      rw [QueryUnescape_percent _ _ _ a1 b1, a2, b2, e, ofNat_toNat, ih]
      rfl
    · rw [h]
      obtain ⟨n1, n2, _⟩ := unreserved_ne c hc
      rw [List.singleton_append, QueryUnescape_other _ _ n1 n2, ih]
      rfl

/-- What `QueryEscape` writes holds no `&`, `=` or `;`. -/
theorem QueryEscape_no_separator (s : List UInt8) :
    ∀ b ∈ QueryEscape s, b ≠ byte '&' ∧ b ≠ byte '=' ∧ b ≠ byte ';' := by
  intro b hb
  simp only [QueryEscape, List.mem_flatMap] at hb
  obtain ⟨c, _, hb⟩ := hb
  have hlt := toNat_lt c
  rcases escape_byte_cases c with ⟨h, _⟩ | h | ⟨h, hc⟩
  · rw [h] at hb
    simp only [List.mem_singleton] at hb
    subst hb; decide
  · rw [h] at hb
    simp only [List.mem_cons, List.mem_singleton, List.not_mem_nil, or_false] at hb
    rcases hb with rfl | rfl | rfl
    · decide
    · obtain ⟨_, _, h⟩ := upperhex_spec (c.toNat / 16) (by omega); exact h
    · obtain ⟨_, _, h⟩ := upperhex_spec (c.toNat % 16) (by omega); exact h
  · rw [h] at hb
    simp only [List.mem_singleton] at hb
    subst hb
    obtain ⟨_, _, h⟩ := unreserved_ne b hc
    exact h

theorem cut_append (sep : UInt8) (l r : List UInt8) (h : ∀ b ∈ l, b ≠ sep) :
    cut sep (l ++ sep :: r) = (l, r, true) := by
  induction l with
  | nil => simp [cut]
  | cons c cs ih =>
    have hc : c ≠ sep := h c (by simp)
    simp [cut, hc, ih (fun b hb => h b (by simp [hb]))]

theorem cut_none (sep : UInt8) (l : List UInt8) (h : ∀ b ∈ l, b ≠ sep) :
    cut sep l = (l, [], false) := by
  induction l with
  | nil => rfl
  | cons c cs ih =>
    have hc : c ≠ sep := h c (by simp)
    simp [cut, hc, ih (fun b hb => h b (by simp [hb]))]

end url

namespace url

theorem parseQueryLoop_nil (n : Nat) (m : Values) (err : Bool) :
    parseQueryLoop n m err [] = (m, err) := by
  cases n <;> simp [parseQueryLoop]

/-- One turn of the loop of `parseQuery` on a segment `key=value` that
`QueryEscape` wrote, cut off at `query`. -/
theorem parseQueryLoop_segment (n : Nat) (m : Values) (err : Bool) (k v query rest : List UInt8)
    (hcut : cut (byte '&') query = (QueryEscape k ++ byte '=' :: QueryEscape v, rest, true) ∨
      (cut (byte '&') query = (QueryEscape k ++ byte '=' :: QueryEscape v, rest, false))) :
    parseQueryLoop (n + 1) m err query = parseQueryLoop n (m.Add k v) err rest := by
  have hne : query ≠ [] := by
    rintro rfl
    rcases hcut with h | h <;> simp [cut] at h
  have hseg : cut (byte '&') query = (QueryEscape k ++ byte '=' :: QueryEscape v, rest,
      (cut (byte '&') query).2.2) := by
    rcases hcut with h | h <;> rw [h]
  have hsemi : byte ';' ∉ QueryEscape k ++ byte '=' :: QueryEscape v := by
    intro hmem
    rcases List.mem_append.mp hmem with h | h
    · exact (QueryEscape_no_separator k _ h).2.2 rfl
    · rcases List.mem_cons.mp h with h | h
      · exact absurd h (by decide)
      · exact (QueryEscape_no_separator v _ h).2.2 rfl
  have hnil : QueryEscape k ++ byte '=' :: QueryEscape v ≠ [] := by simp
  have hcut2 : cut (byte '=') (QueryEscape k ++ byte '=' :: QueryEscape v) =
      (QueryEscape k, QueryEscape v, true) :=
    cut_append _ _ _ fun b hb => (QueryEscape_no_separator k b hb).2.1
  rw [parseQueryLoop]
  simp only [hne, if_false]
  rw [hseg]
  simp only [hsemi, hnil, if_false, hcut2, QueryUnescape_QueryEscape]

/-- Decoding a body of escaped pairs adds the pairs to the map in order. -/
theorem parseQueryLoop_formBody (pairs : List (List UInt8 × List UInt8)) :
    ∀ (n : Nat) (m : Values) (err : Bool), pairs.length < n →
      parseQueryLoop n m err (formBody pairs) =
        (pairs.foldl (fun m kv => m.Add kv.1 kv.2) m, err) := by
  induction pairs with
  | nil =>
    intro n m err _
    exact parseQueryLoop_nil n m err
  | cons p ps ih =>
    intro n m err hn
    obtain ⟨n', rfl⟩ : ∃ n', n = n' + 1 := ⟨n - 1, by simp at hn; omega⟩
    obtain ⟨k, v⟩ := p
    have hamp : ∀ b ∈ QueryEscape k ++ byte '=' :: QueryEscape v, b ≠ byte '&' := by
      intro b hmem
      rcases List.mem_append.mp hmem with h | h
      · exact (QueryEscape_no_separator k _ h).1
      · rcases List.mem_cons.mp h with h | h
        · rw [h]; decide
        · exact (QueryEscape_no_separator v _ h).1
    cases ps with
    | nil =>
      rw [parseQueryLoop_segment n' m err k v _ [] (Or.inr (by
        simp only [formBody]; exact cut_none _ _ hamp)), parseQueryLoop_nil]
      rfl
    | cons p2 ps2 =>
      rw [parseQueryLoop_segment n' m err k v _ (formBody (p2 :: ps2)) (Or.inl (by
        simp only [formBody]; exact cut_append _ _ _ hamp)),
        ih n' _ err (by simp at hn ⊢; omega)]
      rfl

end url

namespace url

theorem formBody_cons (k v : List UInt8) (p : List UInt8 × List UInt8)
    (ps : List (List UInt8 × List UInt8)) :
    formBody ((k, v) :: p :: ps) =
      QueryEscape k ++ byte '=' :: QueryEscape v ++ byte '&' :: formBody (p :: ps) := rfl

/-- The loop of `Values.Encode` over keys that have one value each. -/
theorem encodePairs_formBody (v : Values) (pairs : List (List UInt8 × List UInt8)) :
    ∀ buf : List UInt8, (∀ p ∈ pairs, v.get p.1 = [p.2]) → pairs ≠ [] →
      encodePairs v (pairs.map Prod.fst) buf =
        if buf = [] then formBody pairs else buf ++ byte '&' :: formBody pairs := by
  induction pairs with
  | nil => intro buf _ h; exact absurd rfl h
  | cons p ps ih =>
    intro buf hget _
    obtain ⟨k, val⟩ := p
    have hk : v.get k = [val] := hget (k, val) (by simp)
    have hstep : encodePairs v (((k, val) :: ps).map Prod.fst) buf =
        encodePairs v (ps.map Prod.fst)
          ((if buf.length > 0 then buf ++ [byte '&'] else buf) ++ QueryEscape k ++ [byte '='] ++
            QueryEscape val) := by
      simp [encodePairs, hk]
    rw [hstep]
    cases ps with
    | nil =>
      simp only [List.map_nil, encodePairs, formBody]
      by_cases hb : buf = []
      · simp [hb]
      · have : buf.length > 0 := List.length_pos.mpr hb
        simp [hb, this]
    | cons p2 ps2 =>
      rw [ih _ (fun p hp => hget p (by simp [hp])) (by simp)]
      have hne : (if buf.length > 0 then buf ++ [byte '&'] else buf) ++ QueryEscape k ++
          [byte '='] ++ QueryEscape val ≠ [] := by simp
      rw [if_neg hne, formBody_cons]
      by_cases hb : buf = []
      · simp [hb]
      · have : buf.length > 0 := List.length_pos.mpr hb
        simp [hb, this]

end url

theorem saveFactData_eq (fact : Fact) :
    saveFactData fact =
      [(url.bytes "period_start", [url.bytes fact.PeriodStart]),
       (url.bytes "period_end", [url.bytes fact.PeriodEnd]),
       (url.bytes "period_key", [url.bytes fact.PeriodKey]),
       (url.bytes "indicator_to_mo_id", [url.bytes fact.IndToMoId]),
       (url.bytes "indicator_to_mo_fact_id", [url.bytes fact.IndToMoFactId]),
       (url.bytes "value", [url.bytes fact.Value]),
       (url.bytes "fact_time", [url.bytes fact.FactTime]),
       (url.bytes "is_plan", [url.bytes fact.IsPlan]),
       (url.bytes "supertags", [url.bytes fact.SuperTags]),
       (url.bytes "auth_user_id", [url.bytes fact.AuthUserId]),
       (url.bytes "comment", [url.bytes fact.Comment])] := by
  rfl

theorem sortKeys_saveFact :
    url.sortKeys [url.bytes "period_start", url.bytes "period_end", url.bytes "period_key",
      url.bytes "indicator_to_mo_id", url.bytes "indicator_to_mo_fact_id", url.bytes "value",
      url.bytes "fact_time", url.bytes "is_plan", url.bytes "supertags",
      url.bytes "auth_user_id", url.bytes "comment"] =
    [url.bytes "auth_user_id", url.bytes "comment", url.bytes "fact_time",
      url.bytes "indicator_to_mo_fact_id", url.bytes "indicator_to_mo_id", url.bytes "is_plan",
      url.bytes "period_end", url.bytes "period_key", url.bytes "period_start",
      url.bytes "supertags", url.bytes "value"] := by
  rfl

/-- The body of `SaveFact`: the eleven pairs in the order of their keys. -/
theorem saveFact_body (fact : Fact) :
    (saveFactData fact).Encode = formBody
      [(url.bytes "auth_user_id", url.bytes fact.AuthUserId),
       (url.bytes "comment", url.bytes fact.Comment),
       (url.bytes "fact_time", url.bytes fact.FactTime),
       (url.bytes "indicator_to_mo_fact_id", url.bytes fact.IndToMoFactId),
       (url.bytes "indicator_to_mo_id", url.bytes fact.IndToMoId),
       (url.bytes "is_plan", url.bytes fact.IsPlan),
       (url.bytes "period_end", url.bytes fact.PeriodEnd),
       (url.bytes "period_key", url.bytes fact.PeriodKey),
       (url.bytes "period_start", url.bytes fact.PeriodStart),
       (url.bytes "supertags", url.bytes fact.SuperTags),
       (url.bytes "value", url.bytes fact.Value)] := by
  unfold url.Values.Encode
  rw [saveFactData_eq]
  simp only [List.map_cons, List.map_nil]
  rw [sortKeys_saveFact]
  have h := url.encodePairs_formBody
    [(url.bytes "period_start", [url.bytes fact.PeriodStart]),
       (url.bytes "period_end", [url.bytes fact.PeriodEnd]),
       (url.bytes "period_key", [url.bytes fact.PeriodKey]),
       (url.bytes "indicator_to_mo_id", [url.bytes fact.IndToMoId]),
       (url.bytes "indicator_to_mo_fact_id", [url.bytes fact.IndToMoFactId]),
       (url.bytes "value", [url.bytes fact.Value]),
       (url.bytes "fact_time", [url.bytes fact.FactTime]),
       (url.bytes "is_plan", [url.bytes fact.IsPlan]),
       (url.bytes "supertags", [url.bytes fact.SuperTags]),
       (url.bytes "auth_user_id", [url.bytes fact.AuthUserId]),
       (url.bytes "comment", [url.bytes fact.Comment])]
    [(url.bytes "auth_user_id", url.bytes fact.AuthUserId),
       (url.bytes "comment", url.bytes fact.Comment),
       (url.bytes "fact_time", url.bytes fact.FactTime),
       (url.bytes "indicator_to_mo_fact_id", url.bytes fact.IndToMoFactId),
       (url.bytes "indicator_to_mo_id", url.bytes fact.IndToMoId),
       (url.bytes "is_plan", url.bytes fact.IsPlan),
       (url.bytes "period_end", url.bytes fact.PeriodEnd),
       (url.bytes "period_key", url.bytes fact.PeriodKey),
       (url.bytes "period_start", url.bytes fact.PeriodStart),
       (url.bytes "supertags", url.bytes fact.SuperTags),
       (url.bytes "value", url.bytes fact.Value)] [] ?_ (by simp)
  · simpa using h
  · intro p hp
    simp only [List.mem_cons, List.mem_singleton, List.not_mem_nil, or_false] at hp
    rcases hp with rfl | rfl | rfl | rfl | rfl | rfl | rfl | rfl | rfl | rfl | rfl <;> rfl

theorem formBody_length (pairs : List (List UInt8 × List UInt8)) :
    pairs.length ≤ (formBody pairs).length := by
  induction pairs with
  | nil => simp
  | cons p ps ih =>
    obtain ⟨k, v⟩ := p
    cases ps with
    | nil => simp only [formBody, List.length_cons, List.length_append, List.length_nil]; omega
    | cons p2 ps2 =>
      rw [url.formBody_cons]
      simp only [List.length_cons, List.length_append] at ih ⊢
      omega

theorem url.get_cons (k key : List UInt8) (vs : List (List UInt8)) (rest : url.Values) :
    url.Values.get ((k, vs) :: rest) key = if k = key then vs else url.Values.get rest key := by
  by_cases h : k = key <;> simp [url.Values.get, List.find?, h]

/-- What `ParseQuery` makes of the body of `SaveFact`. -/
theorem ParseQuery_saveFact (fact : Fact) :
    url.ParseQuery (saveFactData fact).Encode =
      ([(url.bytes "auth_user_id", [url.bytes fact.AuthUserId]),
        (url.bytes "comment", [url.bytes fact.Comment]),
        (url.bytes "fact_time", [url.bytes fact.FactTime]),
        (url.bytes "indicator_to_mo_fact_id", [url.bytes fact.IndToMoFactId]),
        (url.bytes "indicator_to_mo_id", [url.bytes fact.IndToMoId]),
        (url.bytes "is_plan", [url.bytes fact.IsPlan]),
        (url.bytes "period_end", [url.bytes fact.PeriodEnd]),
        (url.bytes "period_key", [url.bytes fact.PeriodKey]),
        (url.bytes "period_start", [url.bytes fact.PeriodStart]),
        (url.bytes "supertags", [url.bytes fact.SuperTags]),
        (url.bytes "value", [url.bytes fact.Value])], false) := by
  rw [saveFact_body, url.ParseQuery, url.parseQueryLoop_formBody _ _ _ _ (by
    have := formBody_length
      [(url.bytes "auth_user_id", url.bytes fact.AuthUserId),
       (url.bytes "comment", url.bytes fact.Comment),
       (url.bytes "fact_time", url.bytes fact.FactTime),
       (url.bytes "indicator_to_mo_fact_id", url.bytes fact.IndToMoFactId),
       (url.bytes "indicator_to_mo_id", url.bytes fact.IndToMoId),
       (url.bytes "is_plan", url.bytes fact.IsPlan),
       (url.bytes "period_end", url.bytes fact.PeriodEnd),
       (url.bytes "period_key", url.bytes fact.PeriodKey),
       (url.bytes "period_start", url.bytes fact.PeriodStart),
       (url.bytes "supertags", url.bytes fact.SuperTags),
       (url.bytes "value", url.bytes fact.Value)]
    omega)]
  rfl

/-- C5: form-decoding the body that `SaveFact` builds for a fact gives no error
and exactly eleven keys, `period_start`, `period_end`, `period_key`,
`indicator_to_mo_id`, `indicator_to_mo_fact_id`, `value`, `fact_time`, `is_plan`,
`supertags`, `auth_user_id` and `comment`, each with the one value that is the
corresponding field of the fact, byte for byte, whatever the eleven strings are. -/
theorem C5_form_body_round_trip (client : KpiDriveClient) (tok : String) (fact : Fact) :
    (url.ParseQuery (saveFactRequest client tok fact).body).2 = false ∧
      (url.ParseQuery (saveFactRequest client tok fact).body).1.length = 11 ∧
      (url.ParseQuery (saveFactRequest client tok fact).body).1.get (url.bytes "period_start") =
        [url.bytes fact.PeriodStart] ∧
      (url.ParseQuery (saveFactRequest client tok fact).body).1.get (url.bytes "period_end") =
        [url.bytes fact.PeriodEnd] ∧
      (url.ParseQuery (saveFactRequest client tok fact).body).1.get (url.bytes "period_key") =
        [url.bytes fact.PeriodKey] ∧
      (url.ParseQuery (saveFactRequest client tok fact).body).1.get
          (url.bytes "indicator_to_mo_id") = [url.bytes fact.IndToMoId] ∧
      (url.ParseQuery (saveFactRequest client tok fact).body).1.get
          (url.bytes "indicator_to_mo_fact_id") = [url.bytes fact.IndToMoFactId] ∧
      (url.ParseQuery (saveFactRequest client tok fact).body).1.get (url.bytes "value") =
        [url.bytes fact.Value] ∧
      (url.ParseQuery (saveFactRequest client tok fact).body).1.get (url.bytes "fact_time") =
        [url.bytes fact.FactTime] ∧
      (url.ParseQuery (saveFactRequest client tok fact).body).1.get (url.bytes "is_plan") =
        [url.bytes fact.IsPlan] ∧
      (url.ParseQuery (saveFactRequest client tok fact).body).1.get (url.bytes "supertags") =
        [url.bytes fact.SuperTags] ∧
      (url.ParseQuery (saveFactRequest client tok fact).body).1.get (url.bytes "auth_user_id") =
        [url.bytes fact.AuthUserId] ∧
      (url.ParseQuery (saveFactRequest client tok fact).body).1.get (url.bytes "comment") =
        [url.bytes fact.Comment] := by
  simp only [saveFactRequest]
  rw [ParseQuery_saveFact]
  refine ⟨rfl, rfl, ?_, ?_, ?_, ?_, ?_, ?_, ?_, ?_, ?_, ?_, ?_⟩ <;>
    simp +decide only [url.get_cons, if_true, if_false]
/-! ### The loop of `main` -/

theorem requests_append (a b : List Step) : requests (a ++ b) = requests a ++ requests b := by
  induction a with
  | nil => rfl
  | cons x xs ih => cases x <;> simp [requests, ih]

theorem printed_append (a b : List Step) : printed (a ++ b) = printed a ++ printed b := by
  induction a with
  | nil => rfl
  | cons x xs ih => cases x <;> simp [printed, ih]

/-- The steps of `SaveFact`: the request, or nothing, and nothing only together
with an error. -/
theorem SaveFact_steps {σ : Type} (client : KpiDriveClient) (w : Transport σ) (s : σ)
    (tok : String) (fact : Fact) :
    (client.SaveFact w s tok fact).1 = [.request (saveFactRequest client tok fact)] ∨
      ((client.SaveFact w s tok fact).1 = [] ∧
        ∃ err, (client.SaveFact w s tok fact).2.2 = .error err) := by
  rcases h : w s (saveFactRequest client tok fact) with ⟨s', r⟩
  cases r <;> simp [KpiDriveClient.SaveFact, h]

/-- A write that returns an envelope has sent its request. -/
theorem SaveFact_ok_steps {σ : Type} (client : KpiDriveClient) (w : Transport σ) (s : σ)
    (tok : String) (fact : Fact) (resp : Response FactSaved)
    (h : (client.SaveFact w s tok fact).2.2 = .ok resp) :
    (client.SaveFact w s tok fact).1 = [.request (saveFactRequest client tok fact)] := by
  rcases SaveFact_steps client w s tok fact with h1 | ⟨_, err, h2⟩
  · exact h1
  · rw [h] at h2; simp at h2

/-- One turn of the loop, by the result of the write. -/
theorem mainLoop_cons {σ : Type} (client : KpiDriveClient) (w : Transport σ) (s : σ)
    (event : Event) (rest : List Event) :
    mainLoop client w s (event :: rest) =
      match (client.SaveFact w s token (populateFact event templateFact)).2.2 with
      | .error err =>
        ((client.SaveFact w s token (populateFact event templateFact)).1 ++ [.println err],
          .returned)
      | .ok factSaved =>
        if factSaved.Status = "OK" then
          (.request (saveFactRequest client token (populateFact event templateFact)) ::
            .println ("Fact saved, id = " ++ strconv.Itoa factSaved.Data.IndicatorToMoFactId) ::
            (mainLoop client w
              (client.SaveFact w s token (populateFact event templateFact)).2.1 rest).1,
           (mainLoop client w
              (client.SaveFact w s token (populateFact event templateFact)).2.1 rest).2)
        else
          match factSaved.Messages.Error with
          | [] => ([.request (saveFactRequest client token (populateFact event templateFact))],
              .panicked "runtime error: index out of range [0] with length 0")
          | msg :: _ =>
            ([.request (saveFactRequest client token (populateFact event templateFact)),
              .println ("Fact save failure, error = " ++ msg)], .returned) := by
  rw [mainLoop]
  simp only
  rcases hr : client.SaveFact w s token (populateFact event templateFact) with ⟨steps, s', r⟩
  cases r with
  | error err => rfl
  | ok factSaved =>
    have hs := SaveFact_ok_steps client w s token (populateFact event templateFact) factSaved
      (by rw [hr])
    rw [hr] at hs
    simp only at hs
    subst hs
    simp only
    split_ifs with hst
    · rfl
    · cases hm : factSaved.Messages.Error <;> simp [hm]

/-- The requests of the loop: one write per row, in order, up to the first row
whose write fails, that row included when its request went out. -/
theorem mainLoop_requests {σ : Type} (client : KpiDriveClient) (w : Transport σ) :
    ∀ (s : σ) (rows : List Event),
      requests (mainLoop client w s rows).1 =
        ((rows.map fun event => populateFact event templateFact).take
          (if (writesSent client w s
                (rows.map fun event => populateFact event templateFact)).getD
              ((writeResults client w s
                (rows.map fun event => populateFact event templateFact)).findIdx writeFailed)
              false
           then (writeResults client w s
                (rows.map fun event => populateFact event templateFact)).findIdx writeFailed + 1
           else (writeResults client w s
                (rows.map fun event => populateFact event templateFact)).findIdx
                  writeFailed)).map
          (saveFactRequest client token) := by
  intro s rows
  induction rows generalizing s with
  | nil => rfl
  | cons event rest ih =>
    rw [mainLoop_cons]
    simp only [List.map_cons, writeResults, writesSent, List.findIdx_cons]
    cases hr : (client.SaveFact w s token (populateFact event templateFact)).2.2 with
    | error err =>
      simp only [writeFailed, cond_true, List.getD_cons_zero, requests_append]
      rcases SaveFact_steps client w s token (populateFact event templateFact) with h1 | ⟨h1, _⟩
      · simp [h1, requests]
      · simp [h1, requests]
    | ok factSaved =>
      have hs := SaveFact_ok_steps client w s token (populateFact event templateFact) factSaved hr
      simp only
      by_cases hst : factSaved.Status = "OK"
      · simp only [hst, if_true, writeFailed, ne_eq, not_true_eq_false, decide_False, cond_false,
          requests, List.getD_cons_succ, ih]
        split_ifs <;> simp
      · simp only [hst, if_false, writeFailed, ne_eq, not_false_eq_true, decide_True, cond_true,
          List.getD_cons_zero, hs]
        cases factSaved.Messages.Error <;> simp [requests]

/-- The run of `main` when the login and the query are answered and the body of
the query decodes to rows: the two requests, the line of the login between
them, and the loop over the rows. -/
theorem main_of_rows {σ : Type} (w : Transport σ) (s s1 s2 : σ)
    (authBody body : Body) (env : Response (ResponseData RawEvent)) (rows : List Event)
    (hauth : w s (authRequest (NewKpiDriveClient "https://development.kpi-drive.ru")
      "admin" "admin") = (s1, .ok authBody))
    (hquery : w s1 (eventsRequest (NewKpiDriveClient "https://development.kpi-drive.ru")) =
      (s2, .ok body))
    (henv : body.events = .ok env) (hdec : decodeRows env.Data.Rows = .ok rows) :
    main w s =
      (.request (authRequest (NewKpiDriveClient "https://development.kpi-drive.ru")
          "admin" "admin") ::
        .println ("auth result: " ++ authBody.text) ::
        .request (eventsRequest (NewKpiDriveClient "https://development.kpi-drive.ru")) ::
        (mainLoop (NewKpiDriveClient "https://development.kpi-drive.ru") w s2 rows).1,
       (mainLoop (NewKpiDriveClient "https://development.kpi-drive.ru") w s2 rows).2) := by
  have hun : unmarshalEvents body =
      .ok { Messages := env.Messages, Status := env.Status,
            Data := { Page := env.Data.Page, PagesCount := env.Data.PagesCount,
                      RowsCount := env.Data.RowsCount, Rows := rows } } := by
    simp [unmarshalEvents, henv, hdec]
  simp [main, KpiDriveClient.Auth, KpiDriveClient.GetEvents, hauth, hquery, hun]

/-- C6: when the login and the query are answered and the body of the query
decodes to a batch of rows, the requests of `main` are the login, the query and
then the writes of the transformed rows of an initial segment of the batch, one
per row and in the order of the rows, whatever the write endpoint answers. The
segment ends with the first row whose write returns an error or an envelope
whose status is not `"OK"`; that row is in the segment when its request went
out and not when `http.NewRequest` refused it. No write is made for a later
row, and none is made twice. -/
theorem C6_writes_are_initial_segment {σ : Type} (w : Transport σ) (s s1 s2 : σ)
    (authBody body : Body) (env : Response (ResponseData RawEvent)) (rows : List Event)
    (hauth : w s (authRequest (NewKpiDriveClient "https://development.kpi-drive.ru")
      "admin" "admin") = (s1, .ok authBody))
    (hquery : w s1 (eventsRequest (NewKpiDriveClient "https://development.kpi-drive.ru")) =
      (s2, .ok body))
    (henv : body.events = .ok env) (hdec : decodeRows env.Data.Rows = .ok rows) :
    requests (main w s).1 =
      authRequest (NewKpiDriveClient "https://development.kpi-drive.ru") "admin" "admin" ::
      eventsRequest (NewKpiDriveClient "https://development.kpi-drive.ru") ::
      ((rows.map fun event => populateFact event templateFact).take
        (if (writesSent (NewKpiDriveClient "https://development.kpi-drive.ru") w s2
              (rows.map fun event => populateFact event templateFact)).getD
            ((writeResults (NewKpiDriveClient "https://development.kpi-drive.ru") w s2
              (rows.map fun event => populateFact event templateFact)).findIdx writeFailed)
            false
         then (writeResults (NewKpiDriveClient "https://development.kpi-drive.ru") w s2
              (rows.map fun event => populateFact event templateFact)).findIdx writeFailed + 1
         else (writeResults (NewKpiDriveClient "https://development.kpi-drive.ru") w s2
              (rows.map fun event => populateFact event templateFact)).findIdx
                writeFailed)).map
        (saveFactRequest (NewKpiDriveClient "https://development.kpi-drive.ru") token) := by
  rw [main_of_rows w s s1 s2 authBody body env rows hauth hquery henv hdec]
  simp only [requests, mainLoop_requests]

theorem C6_witness :
    requests (main (scriptTransport [scenarioRow, scenarioRow, scenarioRow]
        [.ok (savedBody "OK" [] 11), .failed "connection reset",
          .ok (savedBody "OK" [] 12)]) 0).1 =
      [authRequest (NewKpiDriveClient "https://development.kpi-drive.ru") "admin" "admin",
       eventsRequest (NewKpiDriveClient "https://development.kpi-drive.ru"),
       saveFactRequest (NewKpiDriveClient "https://development.kpi-drive.ru") token
         (populateFact scenarioEvent templateFact),
       saveFactRequest (NewKpiDriveClient "https://development.kpi-drive.ru") token
         (populateFact scenarioEvent templateFact)] :=
  C6_writes_are_initial_segment
    (scriptTransport [scenarioRow, scenarioRow, scenarioRow]
      [.ok (savedBody "OK" [] 11), .failed "connection reset", .ok (savedBody "OK" [] 12)])
    0 1 2 _ _ _ [scenarioEvent, scenarioEvent, scenarioEvent] rfl rfl rfl rfl

/-- The length of `writeResults` is the number of facts. -/
theorem writeResults_length {σ : Type} (client : KpiDriveClient) (w : Transport σ) :
    ∀ (s : σ) (facts : List Fact), (writeResults client w s facts).length = facts.length := by
  intro s facts
  induction facts generalizing s with
  | nil => rfl
  | cons f fs ih => simp [writeResults, ih]

/-- The loop after a run of rows whose writes all succeed, up to a row whose
write is answered by a given envelope with a status other than `"OK"`. -/
theorem mainLoop_failure {σ : Type} (client : KpiDriveClient) (w : Transport σ)
    (pre : List Event) : ∀ (s : σ) (event : Event) (post : List Event)
    (rs : List (Except String (Response FactSaved))) (resp : Response FactSaved),
    writeResults client w s
        ((pre ++ [event]).map fun event => populateFact event templateFact) = rs ++ [.ok resp] →
    (∀ r ∈ rs, writeFailed r = false) → resp.Status ≠ "OK" →
    ∃ steps, (∀ line ∈ printed steps, ∃ id, line = "Fact saved, id = " ++ strconv.Itoa id) ∧
      requests steps = (pre.map fun event =>
        saveFactRequest client token (populateFact event templateFact)) ∧
      mainLoop client w s (pre ++ event :: post) =
        match resp.Messages.Error with
        | [] => (steps ++ [.request (saveFactRequest client token
              (populateFact event templateFact))],
            .panicked "runtime error: index out of range [0] with length 0")
        | msg :: _ =>
          (steps ++ [.request (saveFactRequest client token (populateFact event templateFact)),
            .println ("Fact save failure, error = " ++ msg)], .returned) := by
  induction pre with
  | nil =>
    intro s event post rs resp hrep hok hst
    have hlen := congrArg List.length hrep
    simp only [List.nil_append, List.map_cons, List.map_nil, writeResults, List.length_singleton,
      List.length_append] at hlen
    have hrs : rs = [] := List.length_eq_zero.mp (by omega)
    subst hrs
    simp only [List.nil_append, List.map_cons, List.map_nil, writeResults, List.cons.injEq,
      and_true] at hrep
    refine ⟨[], by simp [printed], rfl, ?_⟩
    rw [List.nil_append, mainLoop_cons, hrep]
    simp only [hst, if_false, List.nil_append]
  | cons p ps ih =>
    intro s event post rs resp hrep hok hst
    simp only [List.cons_append, List.map_cons, writeResults] at hrep
    cases rs with
    | nil =>
      have hlen := congrArg List.length hrep
      simp only [List.length_cons, writeResults, List.nil_append, List.length_singleton] at hlen
      rw [writeResults_length] at hlen
      simp at hlen
    | cons r0 rs' =>
      simp only [List.cons_append, List.cons.injEq] at hrep
      obtain ⟨h0, hrest⟩ := hrep
      have hok0 := hok r0 (by simp)
      cases r0 with
      | error e => simp [writeFailed] at hok0
      | ok resp0 =>
        simp only [writeFailed, ne_eq, decide_eq_false_iff_not, not_not] at hok0
        obtain ⟨steps, hp, hreq, hloop⟩ := ih _ event post rs' resp hrest
          (fun r hr => hok r (by simp [hr])) hst
        refine ⟨.request (saveFactRequest client token (populateFact p templateFact)) ::
          .println ("Fact saved, id = " ++ strconv.Itoa resp0.Data.IndicatorToMoFactId) :: steps,
          ?_, ?_, ?_⟩
        · intro line hl
          simp only [printed, List.mem_cons] at hl
          rcases hl with rfl | hl
          · exact ⟨_, rfl⟩
          · exact hp line hl
        · simp [requests, hreq]
        · rw [List.cons_append, mainLoop_cons, h0]
          simp only [hok0, if_true, hloop]
          cases resp.Messages.Error <;> rfl

/-- C7: when the login and the query are answered, the body of the query
decodes to the rows `pre ++ event :: post`, the writes of the rows of `pre`
succeed and the write of `event` is answered by an envelope whose status is not
`"OK"` and whose `Messages.Error` is `msg :: more`, then the last line that
`main` prints is `Fact save failure, error = ` followed by exactly `msg`, the
lines before it are the answer of the login and the reports of the saved facts,
`main` returns, and its requests are the login, the query and the writes of the
rows up to `event`: none is made for the rows of `post`. -/
theorem C7_first_error_message_reported {σ : Type} (w : Transport σ) (s s1 s2 : σ)
    (authBody body : Body) (env : Response (ResponseData RawEvent))
    (pre : List Event) (event : Event) (post : List Event)
    (rs : List (Except String (Response FactSaved))) (resp : Response FactSaved)
    (msg : String) (more : List String)
    (hauth : w s (authRequest (NewKpiDriveClient "https://development.kpi-drive.ru")
      "admin" "admin") = (s1, .ok authBody))
    (hquery : w s1 (eventsRequest (NewKpiDriveClient "https://development.kpi-drive.ru")) =
      (s2, .ok body))
    (henv : body.events = .ok env)
    (hdec : decodeRows env.Data.Rows = .ok (pre ++ event :: post))
    (hrep : writeResults (NewKpiDriveClient "https://development.kpi-drive.ru") w s2
      ((pre ++ [event]).map fun event => populateFact event templateFact) = rs ++ [.ok resp])
    (hok : ∀ r ∈ rs, writeFailed r = false) (hst : resp.Status ≠ "OK")
    (herr : resp.Messages.Error = msg :: more) :
    (main w s).2 = .returned ∧
      (∃ saved, printed (main w s).1 =
          ("auth result: " ++ authBody.text) :: saved ++
            ["Fact save failure, error = " ++ msg] ∧
        ∀ line ∈ saved, ∃ id, line = "Fact saved, id = " ++ strconv.Itoa id) ∧
      requests (main w s).1 =
        authRequest (NewKpiDriveClient "https://development.kpi-drive.ru") "admin" "admin" ::
        eventsRequest (NewKpiDriveClient "https://development.kpi-drive.ru") ::
        (pre ++ [event]).map fun event =>
          saveFactRequest (NewKpiDriveClient "https://development.kpi-drive.ru") token
            (populateFact event templateFact) := by
  obtain ⟨steps, hp, hreq, hloop⟩ :=
    mainLoop_failure (NewKpiDriveClient "https://development.kpi-drive.ru") w pre s2 event post
      rs resp hrep hok hst
  rw [herr] at hloop
  simp only at hloop
  rw [main_of_rows w s s1 s2 authBody body env _ hauth hquery henv hdec, hloop]
  refine ⟨rfl, ⟨printed steps, ?_, hp⟩, ?_⟩
  · simp [printed_append, printed]
  · simp [requests_append, requests, hreq]

theorem C7_witness :
    (main (scriptTransport [scenarioRow, scenarioRow, scenarioRow]
        [.ok (savedBody "OK" [] 11), .ok (savedBody "ERROR" ["quota exceeded", "try later"] 0),
          .ok (savedBody "OK" [] 12)]) 0).2 = .returned ∧
      (∃ saved, printed (main (scriptTransport [scenarioRow, scenarioRow, scenarioRow]
          [.ok (savedBody "OK" [] 11),
            .ok (savedBody "ERROR" ["quota exceeded", "try later"] 0),
            .ok (savedBody "OK" [] 12)]) 0).1 =
          ("auth result: " ++ "\x7b\x7d") :: saved ++
            ["Fact save failure, error = " ++ "quota exceeded"] ∧
        ∀ line ∈ saved, ∃ id, line = "Fact saved, id = " ++ strconv.Itoa id) ∧
      requests (main (scriptTransport [scenarioRow, scenarioRow, scenarioRow]
          [.ok (savedBody "OK" [] 11),
            .ok (savedBody "ERROR" ["quota exceeded", "try later"] 0),
            .ok (savedBody "OK" [] 12)]) 0).1 =
        authRequest (NewKpiDriveClient "https://development.kpi-drive.ru") "admin" "admin" ::
        eventsRequest (NewKpiDriveClient "https://development.kpi-drive.ru") ::
        ([scenarioEvent] ++ [scenarioEvent]).map fun event =>
          saveFactRequest (NewKpiDriveClient "https://development.kpi-drive.ru") token
            (populateFact event templateFact) :=
  C7_first_error_message_reported
    (scriptTransport [scenarioRow, scenarioRow, scenarioRow]
      [.ok (savedBody "OK" [] 11), .ok (savedBody "ERROR" ["quota exceeded", "try later"] 0),
        .ok (savedBody "OK" [] 12)])
    0 1 2 _ _ _ [scenarioEvent] scenarioEvent [scenarioEvent]
    [.ok { Messages := { Error := [], Warning := [], Info := [] },
           Data := { IndicatorToMoFactId := 11 }, Status := "OK" }]
    { Messages := { Error := ["quota exceeded", "try later"], Warning := [], Info := [] },
      Data := { IndicatorToMoFactId := 0 }, Status := "ERROR" }
    "quota exceeded" ["try later"] rfl rfl rfl rfl rfl (by simp [writeFailed]) (by decide) rfl

/-- C8 (what the code does): a write answered by an envelope whose status is not
`"OK"` and whose `Messages.Error` is empty ends the run of `main` with the
run-time panic of indexing element 0 of an empty slice, after the first write. -/
theorem C8_empty_error_list_panics :
    (main (constTransport [scenarioRow, scenarioRow] "ERROR" []) ()).2 =
        .panicked "runtime error: index out of range [0] with length 0" ∧
      (requests (main (constTransport [scenarioRow, scenarioRow] "ERROR" []) ()).1).length = 3 := by
  refine ⟨?_, ?_⟩ <;> rfl

/-! ### The time strings that `time.Parse` takes -/

theorem isDecimal_iff (c : Char) : isDecimal c = true ↔ '0' ≤ c ∧ c ≤ '9' := by
  simp [isDecimal]

/-- A successful `getnum` without `fixed` read one digit, followed by no digit,
or two digits. -/
theorem getnum_free_some (s rest : List Char) (n : Int)
    (h : time.getnum s false = some (n, rest)) :
    ∃ a : Char, isDecimal a = true ∧
      ((s = a :: rest ∧ n = (digitVal a : Nat) ∧ time.isDigit rest 0 = false) ∨
        ∃ b : Char, isDecimal b = true ∧ s = a :: b :: rest ∧ n = twoDigits a b) := by
  match s, h with
  | [], h => simp [time.getnum, time.isDigit_nil] at h
  | a :: r, h =>
    simp only [time.getnum, time.isDigit_zero_cons, time.isDigit_succ_cons] at h
    split_ifs at h with h1 h2
    · simp only [Bool.not_eq_true', decide_eq_false_iff_not, not_not] at h1
      simp only [Bool.not_eq_true'] at h2
      simp only [List.getD_cons_zero, List.drop_succ_cons, List.drop_zero, Option.some.injEq,
        Prod.mk.injEq] at h
      refine ⟨a, (isDecimal_iff a).2 h1, Or.inl ⟨by rw [h.2], by rw [← h.1], by rw [← h.2, h2]⟩⟩
    · simp only [Bool.not_eq_true', decide_eq_false_iff_not, not_not] at h1
      simp only [Bool.not_eq_true', Bool.not_eq_false] at h2
      match r, h2, h with
      | [], h2, _ => simp [time.isDigit_nil] at h2
      | b :: r', h2, h =>
        simp only [time.isDigit_zero_cons, decide_eq_true_eq] at h2
        simp only [List.getD_cons_zero, List.getD_cons_succ, List.drop_succ_cons, List.drop_zero,
          Option.some.injEq, Prod.mk.injEq] at h
        refine ⟨a, (isDecimal_iff a).2 h1, Or.inr ⟨b, (isDecimal_iff b).2 h2, by rw [h.2], ?_⟩⟩
        rw [← h.1, twoDigits]
        push_cast
        rfl

/-- The bytes that `fracDigits` counts are digits. -/
theorem fracDigits_take (l : List Char) :
    (l.take (time.fracDigits l)).all isDecimal = true := by
  induction l with
  | nil => rfl
  | cons c cs ih =>
    simp only [time.fracDigits]
    split_ifs with h
    · simp only [List.take_succ_cons, List.all_cons, ih, Bool.and_true]
      exact (isDecimal_iff c).2 h
    · rfl

/-- A fractional second chunk that leaves `Z` alone: the value ends with `Z`
and what is before it is no fraction or a separator and digits. -/
theorem parseFracSecond9_shape (value : List Char) (ns : Int)
    (h : time.parseFracSecond9 value = some (ns, ['Z'])) :
    value.getLast? = some 'Z' ∧ fractionAccepted value.dropLast = true := by
  simp only [time.parseFracSecond9] at h
  split_ifs at h with h1
  · simp only [Option.some.injEq, Prod.mk.injEq] at h
    rw [h.2]
    exact ⟨rfl, rfl⟩
  · simp only [not_or, not_lt, Bool.not_eq_true, Bool.not_eq_false'] at h1
    obtain ⟨hlen, hsep, hd0, hd1⟩ := h1
    split at h
    · simp at h
    · rename_i nsec _
      simp only [Option.some.injEq, Prod.mk.injEq] at h
      match value, hlen, hsep, hd0, hd1, h with
      | sep :: c :: more, _, hsep, hd0, hd1, h =>
        simp only [List.getD_cons_zero, List.getD_cons_succ] at hsep hd0 hd1
        have hdrop : (c :: more).drop (time.fracDigits (c :: more)) = ['Z'] := by
          have := h.2
          rw [Nat.add_comm, List.drop_succ_cons] at this
          exact this
        have hk : 1 ≤ time.fracDigits (c :: more) := by
          simp only [time.fracDigits]
          rw [if_pos ⟨hd0, hd1⟩]
          omega
        have hsplit := List.take_append_drop (time.fracDigits (c :: more)) (c :: more)
        rw [hdrop] at hsplit
        have hall := fracDigits_take (c :: more)
        generalize List.take (time.fracDigits (c :: more)) (c :: more) = ds at hsplit hall
        have hne : ds ≠ [] := by
          rintro rfl
          simp only [List.nil_append, List.cons.injEq] at hsplit
          have hc : c = 'Z' := hsplit.1.symm
          rw [hc] at hd1
          exact absurd hd1 (by decide)
        have hv : sep :: c :: more = (sep :: ds) ++ ['Z'] := by
          rw [List.cons_append, hsplit]
        rw [hv, List.dropLast_concat]
        refine ⟨List.getLast?_concat _, ?_⟩
        simp only [fractionAccepted, Bool.and_eq_true, Bool.or_eq_true, beq_iff_eq,
          Bool.not_eq_true', List.isEmpty_eq_false]
        refine ⟨⟨?_, hne⟩, hall⟩
        simpa [time.commaOrPeriod] using hsep

/-- A successful seconds part that leaves `Z` alone. -/
theorem parseSecondChunks_shape (value : List Char) (ss ns : Int)
    (h : time.parseSecondChunks value = some ((ss, ns), ['Z'])) :
    ∃ s1 s2 : Char, ∃ tail : List Char, isDecimal s1 = true ∧ isDecimal s2 = true ∧
      value = ':' :: s1 :: s2 :: tail ∧ ss = twoDigits s1 s2 ∧ ss < 60 ∧
      tail.getLast? = some 'Z' ∧ fractionAccepted tail.dropLast = true := by
  simp only [time.parseSecondChunks, Option.bind_eq_some] at h
  obtain ⟨r1, hs, ⟨s', r2⟩, hg, h⟩ := h
  split_ifs at h with hr1
  simp only [Option.bind_eq_some] at h
  obtain ⟨⟨n', r3⟩, hf, h⟩ := h
  simp only [Option.some.injEq, Prod.mk.injEq] at h
  obtain ⟨⟨rfl, rfl⟩, rfl⟩ := h
  have e1 := time.skip_single_some _ _ ':' (by decide) hs
  obtain ⟨s1, s2, g1, g2, e2, rfl⟩ := time.getnum_fixed_some _ _ _ hg
  obtain ⟨hz, hfr⟩ := parseFracSecond9_shape _ _ hf
  simp only [not_or, not_le, not_lt] at hr1
  refine ⟨s1, s2, r2, (isDecimal_iff s1).2 g1, (isDecimal_iff s2).2 g2, by rw [e1, e2], rfl,
    hr1.2, hz, hfr⟩

/-- A successful hour and minute part: `T`, an hour of one or two digits, `:`
and a minute of two digits. -/
theorem parseHourMinuteChunks_shape (value rest : List Char) (hh mm : Int)
    (h : time.parseHourMinuteChunks value = some ((hh, mm), rest)) :
    ∃ h1 n1 n2 : Char, isDecimal h1 = true ∧ isDecimal n1 = true ∧ isDecimal n2 = true ∧
      mm = twoDigits n1 n2 ∧ mm < 60 ∧
      (value = 'T' :: h1 :: ':' :: n1 :: n2 :: rest ∨
        ∃ h2 : Char, isDecimal h2 = true ∧ twoDigits h1 h2 < 24 ∧
          value = 'T' :: h1 :: h2 :: ':' :: n1 :: n2 :: rest) := by
  simp only [time.parseHourMinuteChunks, Option.bind_eq_some] at h
  obtain ⟨r1, hs1, ⟨h', r2⟩, hg1, h⟩ := h
  split_ifs at h with hr1
  simp only [Option.bind_eq_some] at h
  obtain ⟨r3, hs2, ⟨m', r4⟩, hg2, h⟩ := h
  split_ifs at h with hr2
  simp only [Option.some.injEq, Prod.mk.injEq] at h
  obtain ⟨⟨rfl, rfl⟩, rfl⟩ := h
  simp only [not_or, not_le, not_lt] at hr1 hr2
  have e1 := time.skip_single_some _ _ 'T' (by decide) hs1
  have e2 := time.skip_single_some _ _ ':' (by decide) hs2
  obtain ⟨n1, n2, g1, g2, e3, rfl⟩ := time.getnum_fixed_some _ _ _ hg2
  simp only at e2 e3
  obtain ⟨h1, gh1, hcase⟩ := getnum_free_some _ _ _ hg1
  refine ⟨h1, n1, n2, gh1, (isDecimal_iff n1).2 g1, (isDecimal_iff n2).2 g2, rfl, hr2.2, ?_⟩
  rcases hcase with ⟨e4, _, _⟩ | ⟨h2, gh2, e4, e5⟩
  · left
    rw [e1, e4, e2, e3]
  · right
    refine ⟨h2, gh2, ?_, ?_⟩
    · rw [← e5]; exact hr1.2
    · rw [e1, e4, e2, e3]

/-- Whatever `time.Parse` takes is a string of the grammar `timeAccepted`. -/
theorem Parse_some_accepted (value : List Char) (t : time.Time)
    (h : time.Parse value = some t) : timeAccepted value = true := by
  simp only [time.Parse, Option.bind_eq_some] at h
  obtain ⟨⟨⟨y, m, d⟩, r1⟩, hd, ⟨⟨hh, mm⟩, r2⟩, hh', ⟨⟨ss, ns⟩, r3⟩, hs, r4, hz, h⟩ := h
  split_ifs at h with hlen hday
  simp only [ne_eq, List.length_eq_zero, not_not] at hlen
  subst hlen
  have ez := time.skip_single_some _ _ 'Z' (by decide) hz
  simp only at ez hd hh' hs hday
  subst ez
  obtain ⟨y1, y2, y3, y4, m1, m2, d1, d2, g1, g2, g3, g4, g5, g6, g7, g8, rfl, rfl, rfl, hm0, hm1,
    rfl⟩ := time.parseDateChunks_some _ _ _ _ _ hd
  obtain ⟨s1, s2, tail, gs1, gs2, rfl, _, hs60, hlast, hfrac⟩ := parseSecondChunks_shape _ _ _ hs
  obtain ⟨h1, n1, n2, gh1, gn1, gn2, _, hn60, hcase⟩ := parseHourMinuteChunks_shape _ _ _ _ hh'
  simp only [not_or, not_lt] at hday
  have hdate : dateInRange (fourDigits y1 y2 y3 y4) (twoDigits m1 m2) (twoDigits d1 d2) = true := by
    simp only [dateInRange, fourDigits, twoDigits, decide_eq_true_eq]
    exact ⟨hm0, hm1, hday.1, hday.2⟩
  have hclock : clockAccepted (':' :: n1 :: n2 :: ':' :: s1 :: s2 :: tail) = true := by
    subst_vars
    simp only [clockAccepted, gn1, gn2, gs1, gs2, hlast, hfrac, beq_self_eq_true, Bool.and_true,
      Bool.true_and, Bool.and_eq_true, decide_eq_true_eq]
    exact ⟨hn60, hs60⟩
  rcases hcase with rfl | ⟨h2, gh2, h24, rfl⟩
  · simp only [timeAccepted, (isDecimal_iff _).2 g1, (isDecimal_iff _).2 g2,
      (isDecimal_iff _).2 g3, (isDecimal_iff _).2 g4, (isDecimal_iff _).2 g5,
      (isDecimal_iff _).2 g6, (isDecimal_iff _).2 g7, (isDecimal_iff _).2 g8, hdate, gh1, hclock,
      beq_self_eq_true, Bool.and_true, Bool.true_and, Bool.true_or]
  · simp only [timeAccepted, (isDecimal_iff _).2 g1, (isDecimal_iff _).2 g2,
      (isDecimal_iff _).2 g3, (isDecimal_iff _).2 g4, (isDecimal_iff _).2 g5,
      (isDecimal_iff _).2 g6, (isDecimal_iff _).2 g7, (isDecimal_iff _).2 g8, hdate, gh1, gh2,
      hclock, h24, beq_self_eq_true, Bool.and_true, Bool.true_and, Bool.or_true, decide_True]

/-- What the grammar leaves out, `time.Parse` rejects. -/
theorem Parse_none_of_not_accepted (value : List Char) (h : timeAccepted value = false) :
    time.Parse value = none := by
  cases hp : time.Parse value with
  | none => rfl
  | some t => rw [Parse_some_accepted value t hp] at h; exact absurd h (by decide)

/-- On digits, as long as the number stays below `10 ^ 18`, `leadingInt` reads
to the end. -/
theorem leadingInt_digits (l : List Char) : ∀ x : Nat, l.all isDecimal = true →
    (x + 1) * 10 ^ l.length ≤ 10 ^ 18 →
    ∃ q, time.leadingInt l x = some (q, []) ∧ q + 1 ≤ (x + 1) * 10 ^ l.length := by
  induction l with
  | nil =>
    intro x _ _
    exact ⟨x, rfl, by simp⟩
  | cons c cs ih =>
    intro x hall hb
    simp only [List.all_cons, Bool.and_eq_true] at hall
    obtain ⟨hc, hcs⟩ := hall
    have hc' := (isDecimal_iff c).1 hc
    have hv := digitVal_le c hc'.1 hc'.2
    have hP : 1 ≤ 10 ^ cs.length := Nat.one_le_pow _ _ (by norm_num)
    have hb' : (x + 1) * 10 * 10 ^ cs.length ≤ 10 ^ 18 := by
      rw [List.length_cons, pow_succ] at hb
      calc (x + 1) * 10 * 10 ^ cs.length = (x + 1) * (10 ^ cs.length * 10) := by ring
        _ ≤ 10 ^ 18 := hb
    have hx : (x + 1) * 10 ≤ 10 ^ 18 :=
      le_trans (Nat.le_mul_of_pos_right _ (by omega)) hb'
    have hstep : (x * 10 + digitVal c + 1) * 10 ^ cs.length ≤ (x + 1) * 10 * 10 ^ cs.length :=
      Nat.mul_le_mul_right _ (by omega)
    obtain ⟨q, hq, hqb⟩ := ih (x * 10 + digitVal c) hcs (le_trans hstep hb')
    refine ⟨q, ?_, ?_⟩
    · simp only [time.leadingInt]
      rw [if_neg (by
        rintro (h | h)
        · exact absurd hc'.1 (not_le.2 h)
        · exact absurd hc'.2 (not_le.2 h))]
      rw [if_neg (by norm_num at hx ⊢; omega)]
      rw [if_neg (by norm_num at hx ⊢; omega)]
      exact hq
    · rw [List.length_cons, pow_succ]
      calc q + 1 ≤ (x * 10 + digitVal c + 1) * 10 ^ cs.length := hqb
        _ ≤ (x + 1) * 10 * 10 ^ cs.length := hstep
        _ = (x + 1) * (10 ^ cs.length * 10) := by ring

/-- On one to seventeen digits `atoi` returns their number. -/
theorem atoi_digits (c : Char) (cs : List Char) (hall : (c :: cs).all isDecimal = true)
    (hlen : (c :: cs).length ≤ 17) : ∃ n : Int, time.atoi (c :: cs) = some n ∧ 0 ≤ n := by
  have hc : isDecimal c = true := by
    simp only [List.all_cons, Bool.and_eq_true] at hall
    exact hall.1
  have hs := time.digit_not_sign c ((isDecimal_iff c).1 hc).1
  have hpow : (10 : Nat) ^ (c :: cs).length ≤ 10 ^ 17 :=
    Nat.pow_le_pow_right (by norm_num) hlen
  obtain ⟨q, hq, hqb⟩ := leadingInt_digits (c :: cs) 0 hall (by
    rw [zero_add, one_mul]
    exact le_trans hpow (by norm_num))
  rw [zero_add, one_mul] at hqb
  have hq17 : q < 10 ^ 17 := by omega
  refine ⟨(q : Int), ?_, by positivity⟩
  simp only [time.atoi, List.head?_cons, Option.some.injEq, hs.1, hs.2, or_self, if_false,
    decide_False, hq]
  simp only [Bool.false_eq_true, if_false, Option.some.injEq, int64]
  norm_num at hq17
  omega

/-- Two digits are read by `getnum`, fixed or not. -/
theorem getnum_two (a b : Char) (rest : List Char) (fixed : Bool)
    (ha : isDecimal a = true) (hb : isDecimal b = true) :
    time.getnum (a :: b :: rest) fixed = some (twoDigits a b, rest) := by
  have ha' := (isDecimal_iff a).1 ha
  have hb' := (isDecimal_iff b).1 hb
  simp only [time.getnum, time.isDigit_zero_cons, time.isDigit_succ_cons, ha', hb', and_self,
    decide_True, Bool.not_true, Bool.false_eq_true, if_false, List.getD_cons_zero,
    List.getD_cons_succ, List.drop_succ_cons, List.drop_zero, twoDigits]
  push_cast
  rfl

/-- One digit that no digit follows is read by `getnum` when not fixed. -/
theorem getnum_one (a : Char) (rest : List Char) (ha : isDecimal a = true)
    (hr : time.isDigit rest 0 = false) :
    time.getnum (a :: rest) false = some (((digitVal a : Nat) : Int), rest) := by
  have ha' := (isDecimal_iff a).1 ha
  simp only [time.getnum, time.isDigit_zero_cons, time.isDigit_succ_cons, ha', and_self,
    decide_True, Bool.not_true, Bool.false_eq_true, if_false, hr, Bool.not_false, if_true,
    List.getD_cons_zero, List.drop_succ_cons, List.drop_zero]

/-- The literal that `skip` removes. -/
theorem skip_single (c : Char) (rest : List Char) (hc : c ≠ ' ') :
    time.skip (c :: rest) [c] = some rest := by
  simp [time.skip, time.skipLoop, hc]

/-- Four digits are a year. -/
theorem parseLongYear_digits (a b c d : Char) (rest : List Char)
    (ha : isDecimal a = true) (hb : isDecimal b = true) (hc : isDecimal c = true)
    (hd : isDecimal d = true) :
    time.parseLongYear (a :: b :: c :: d :: rest) = some (fourDigits a b c d, rest) := by
  obtain ⟨n, hn, _⟩ := atoi_digits a [b, c, d] (by simp [ha, hb, hc, hd]) (by simp)
  have ha' := (isDecimal_iff a).1 ha
  have h : time.parseLongYear (a :: b :: c :: d :: rest) = some (n, rest) := by
    simp only [time.parseLongYear, List.length_cons, time.isDigit_zero_cons, ha', and_self,
      decide_True, Bool.not_true, Bool.false_eq_true, or_false, List.take_succ_cons,
      List.take_zero, hn, List.drop_succ_cons, List.drop_zero]
    rw [if_neg (by omega)]
  obtain ⟨a', b', c', d', _, _, _, _, e, rfl⟩ := time.parseLongYear_some _ _ _ h
  simp only [List.cons.injEq] at e
  obtain ⟨rfl, rfl, rfl, rfl, _⟩ := e
  exact h

/-- The date part of a string of the grammar. -/
theorem parseDateChunks_digits (y1 y2 y3 y4 m1 m2 d1 d2 : Char) (rest : List Char)
    (g1 : isDecimal y1 = true) (g2 : isDecimal y2 = true) (g3 : isDecimal y3 = true)
    (g4 : isDecimal y4 = true) (g5 : isDecimal m1 = true) (g6 : isDecimal m2 = true)
    (g7 : isDecimal d1 = true) (g8 : isDecimal d2 = true)
    (hm0 : 1 ≤ twoDigits m1 m2) (hm1 : twoDigits m1 m2 ≤ 12) :
    time.parseDateChunks
        (y1 :: y2 :: y3 :: y4 :: '-' :: m1 :: m2 :: '-' :: d1 :: d2 :: rest) =
      some ((fourDigits y1 y2 y3 y4, twoDigits m1 m2, twoDigits d1 d2), rest) := by
  simp only [time.parseDateChunks, parseLongYear_digits _ _ _ _ _ g1 g2 g3 g4, Option.some_bind,
    skip_single '-' _ (by decide), getnum_two _ _ _ _ g5 g6, getnum_two _ _ _ _ g7 g8]
  rw [if_neg (by omega)]

/-- The hour and minute part with an hour of one digit. -/
theorem parseHourMinuteChunks_one (h1 n1 n2 : Char) (rest : List Char)
    (gh : isDecimal h1 = true) (g1 : isDecimal n1 = true) (g2 : isDecimal n2 = true)
    (hn : twoDigits n1 n2 < 60) :
    time.parseHourMinuteChunks ('T' :: h1 :: ':' :: n1 :: n2 :: rest) =
      some ((((digitVal h1 : Nat) : Int), twoDigits n1 n2), rest) := by
  have hv := digitVal_le h1 ((isDecimal_iff h1).1 gh).1 ((isDecimal_iff h1).1 gh).2
  have hn0 : 0 ≤ twoDigits n1 n2 := by simp only [twoDigits]; positivity
  have hg := getnum_one h1 (':' :: n1 :: n2 :: rest) gh (by rw [time.isDigit_zero_cons]; decide)
  simp only [time.parseHourMinuteChunks, skip_single 'T' _ (by decide), Option.some_bind,
    hg, skip_single ':' _ (by decide), getnum_two _ _ _ _ g1 g2]
  rw [if_neg (by omega), if_neg (by omega)]

/-- The hour and minute part with an hour of two digits. -/
theorem parseHourMinuteChunks_two (h1 h2 n1 n2 : Char) (rest : List Char)
    (gh1 : isDecimal h1 = true) (gh2 : isDecimal h2 = true) (g1 : isDecimal n1 = true)
    (g2 : isDecimal n2 = true) (hh : twoDigits h1 h2 < 24) (hn : twoDigits n1 n2 < 60) :
    time.parseHourMinuteChunks ('T' :: h1 :: h2 :: ':' :: n1 :: n2 :: rest) =
      some ((twoDigits h1 h2, twoDigits n1 n2), rest) := by
  have hh0 : 0 ≤ twoDigits h1 h2 := by simp only [twoDigits]; positivity
  have hn0 : 0 ≤ twoDigits n1 n2 := by simp only [twoDigits]; positivity
  simp only [time.parseHourMinuteChunks, skip_single 'T' _ (by decide), Option.some_bind,
    getnum_two _ _ _ _ gh1 gh2, skip_single ':' _ (by decide), getnum_two _ _ _ _ g1 g2]
  rw [if_neg (by omega), if_neg (by omega)]

/-- The digits before a byte that is no digit are what `fracDigits` counts. -/
theorem fracDigits_digits (ds : List Char) (z : Char) (r : List Char)
    (hall : ds.all isDecimal = true) (hz : isDecimal z = false) :
    time.fracDigits (ds ++ z :: r) = ds.length := by
  induction ds with
  | nil =>
    have hz' : ¬ ('0' ≤ z ∧ z ≤ '9') := by
      intro h
      rw [(isDecimal_iff z).2 h] at hz
      exact absurd hz (by decide)
    simp [time.fracDigits, hz']
  | cons c cs ih =>
    simp only [List.all_cons, Bool.and_eq_true] at hall
    have hc := (isDecimal_iff c).1 hall.1
    simp only [List.cons_append, time.fracDigits, hc, and_self, if_true, List.length_cons]
    exact congrArg (· + 1) (ih hall.2)

/-- The fractional second of a string of the grammar is read up to `Z`. -/
theorem parseFracSecond9_accepted (tail : List Char) (hz : tail.getLast? = some 'Z')
    (hf : fractionAccepted tail.dropLast = true) :
    ∃ ns, time.parseFracSecond9 tail = some (ns, ['Z']) := by
  have htail : tail = tail.dropLast ++ ['Z'] := by
    have hne : tail ≠ [] := by
      rintro rfl
      simp at hz
    have := List.dropLast_append_getLast hne
    rw [List.getLast?_eq_getLast _ hne, Option.some.injEq] at hz
    rw [hz] at this
    exact this.symm
  generalize tail.dropLast = fr at htail hf
  subst htail
  cases fr with
  | nil => exact ⟨0, by simp [time.parseFracSecond9]⟩
  | cons sep ds =>
    simp only [fractionAccepted, Bool.and_eq_true, Bool.or_eq_true, beq_iff_eq,
      Bool.not_eq_true', List.isEmpty_eq_false] at hf
    obtain ⟨⟨hsep, hne⟩, hall⟩ := hf
    cases ds with
    | nil => exact absurd rfl hne
    | cons c cs =>
      have hsep' : time.commaOrPeriod sep = true := by
        simpa [time.commaOrPeriod] using hsep
      have hc : isDecimal c = true := by
        simp only [List.all_cons, Bool.and_eq_true] at hall
        exact hall.1
      have hc' := (isDecimal_iff c).1 hc
      have hfd : time.fracDigits ((c :: cs) ++ 'Z' :: []) = (c :: cs).length :=
        fracDigits_digits (c :: cs) 'Z' [] hall (by decide)
      have hatoi : ∃ n : Int, time.atoi ((c :: cs).take 9) = some n ∧ 0 ≤ n := by
        rw [List.take_succ_cons]
        refine atoi_digits c (cs.take 8) ?_ ?_
        · simp only [List.all_cons, Bool.and_eq_true] at hall ⊢
          refine ⟨hall.1, ?_⟩
          rw [List.all_eq_true] at hall ⊢
          intro x hx
          exact hall.2 x (List.mem_of_mem_take hx)
        · simp only [List.length_cons, List.length_take]
          omega
      obtain ⟨n, hn, hn0⟩ := hatoi
      have hlist : (((if 1 + (c :: cs).length > 10 then
            (sep :: ((c :: cs) ++ ['Z'])).take 10 else sep :: ((c :: cs) ++ ['Z'])).take
            (if 1 + (c :: cs).length > 10 then 10 else 1 + (c :: cs).length)).drop 1) =
          (c :: cs).take 9 := by
        split_ifs with hlong
        · rw [List.take_take]
          simp only [min_self, List.take_succ_cons, List.drop_succ_cons, List.drop_zero]
          rw [List.take_append_of_le_length (by simp at hlong ⊢; omega)]
          rfl
        · rw [Nat.add_comm, List.take_succ_cons, List.drop_succ_cons, List.drop_zero,
            List.take_left']
          · rw [List.take_of_length_le]
            simp at hlong ⊢
            omega
          · rfl
      refine ⟨n * 10 ^ (10 - if 1 + (c :: cs).length > 10 then 10 else 1 + (c :: cs).length), ?_⟩
      have hcond : ¬ ((sep :: ((c :: cs) ++ ['Z'])).length < 2 ∨
          (!time.commaOrPeriod ((sep :: ((c :: cs) ++ ['Z'])).getD 0 ' ')) = true ∨
          (sep :: ((c :: cs) ++ ['Z'])).getD 1 ' ' < '0' ∨
          '9' < (sep :: ((c :: cs) ++ ['Z'])).getD 1 ' ') := by
        simp only [List.cons_append, List.length_cons, List.getD_cons_zero, List.getD_cons_succ,
          hsep', Bool.not_true, Bool.false_eq_true, false_or, not_or, not_lt]
        exact ⟨by omega, hc'.1, hc'.2⟩
      have hnano : time.parseNanoseconds (sep :: ((c :: cs) ++ ['Z'])) (1 + (c :: cs).length) =
          some (n * 10 ^ (10 - if 1 + (c :: cs).length > 10 then 10
            else 1 + (c :: cs).length)) := by
        simp only [time.parseNanoseconds]
        rw [hlist, hn]
        simp only [List.cons_append, List.getD_cons_zero, hsep', Bool.not_true,
          Bool.false_eq_true, if_false]
        rw [if_neg (by omega)]
      show time.parseFracSecond9 (sep :: ((c :: cs) ++ ['Z'])) = _
      unfold time.parseFracSecond9
      rw [if_neg hcond]
      simp only [List.drop_succ_cons, List.drop_zero, hfd, hnano]
      rw [Nat.add_comm, List.drop_succ_cons, List.drop_left']
      rfl

/-- The seconds part of a string of the grammar. -/
theorem parseSecondChunks_accepted (s1 s2 : Char) (tail : List Char)
    (g1 : isDecimal s1 = true) (g2 : isDecimal s2 = true) (hs : twoDigits s1 s2 < 60)
    (hz : tail.getLast? = some 'Z') (hf : fractionAccepted tail.dropLast = true) :
    ∃ ns, time.parseSecondChunks (':' :: s1 :: s2 :: tail) =
      some ((twoDigits s1 s2, ns), ['Z']) := by
  obtain ⟨ns, hns⟩ := parseFracSecond9_accepted tail hz hf
  have hs0 : 0 ≤ twoDigits s1 s2 := by simp only [twoDigits]; positivity
  refine ⟨ns, ?_⟩
  simp only [time.parseSecondChunks, skip_single ':' _ (by decide), Option.some_bind,
    getnum_two _ _ _ _ g1 g2, hns]
  rw [if_neg (by omega)]

/-- What `clockAccepted` says of a string. -/
theorem clockAccepted_shape (rest : List Char) (h : clockAccepted rest = true) :
    ∃ n1 n2 s1 s2 : Char, ∃ tail : List Char,
      rest = ':' :: n1 :: n2 :: ':' :: s1 :: s2 :: tail ∧ isDecimal n1 = true ∧
      isDecimal n2 = true ∧ twoDigits n1 n2 < 60 ∧ isDecimal s1 = true ∧ isDecimal s2 = true ∧
      twoDigits s1 s2 < 60 ∧ tail.getLast? = some 'Z' ∧
      fractionAccepted tail.dropLast = true := by
  match rest, h with
  | c1 :: n1 :: n2 :: c2 :: s1 :: s2 :: tail, h =>
    simp only [clockAccepted, Bool.and_eq_true, beq_iff_eq, decide_eq_true_eq] at h
    obtain ⟨⟨⟨⟨⟨⟨⟨⟨⟨rfl, g1⟩, g2⟩, hn⟩, rfl⟩, g3⟩, g4⟩, hs⟩, hz⟩, hf⟩ := h
    exact ⟨n1, n2, s1, s2, tail, rfl, g1, g2, hn, g3, g4, hs, hz, hf⟩

/-- Every string of the grammar `timeAccepted` is taken by `time.Parse`. -/
theorem Parse_of_accepted (value : List Char) (h : timeAccepted value = true) :
    ∃ t, time.Parse value = some t := by
  match value, h with
  | y1 :: y2 :: y3 :: y4 :: c1 :: m1 :: m2 :: c2 :: d1 :: d2 :: c3 :: h1 :: rest, h =>
    simp only [timeAccepted, Bool.and_eq_true, beq_iff_eq, Bool.or_eq_true] at h
    obtain ⟨⟨⟨⟨⟨⟨⟨⟨⟨⟨⟨⟨⟨g1, g2⟩, g3⟩, g4⟩, rfl⟩, g5⟩, g6⟩, rfl⟩, g7⟩, g8⟩, rfl⟩, hdate⟩, gh1⟩,
      hclock⟩ := h
    simp only [dateInRange, decide_eq_true_eq] at hdate
    obtain ⟨hm0, hm1, hd0, hd1⟩ := hdate
    have hdc := parseDateChunks_digits y1 y2 y3 y4 m1 m2 d1 d2 ('T' :: h1 :: rest)
      g1 g2 g3 g4 g5 g6 g7 g8 hm0 hm1
    rcases hclock with hclock | hclock
    · obtain ⟨n1, n2, s1, s2, tail, rfl, gn1, gn2, hn, gs1, gs2, hs, hz, hf⟩ :=
        clockAccepted_shape rest hclock
      obtain ⟨ns, hsc⟩ := parseSecondChunks_accepted s1 s2 tail gs1 gs2 hs hz hf
      refine ⟨time.Date (fourDigits y1 y2 y3 y4) (twoDigits m1 m2) (twoDigits d1 d2)
        ((digitVal h1 : Nat) : Int) (twoDigits n1 n2) (twoDigits s1 s2) ns, ?_⟩
      simp only [time.Parse, hdc, Option.some_bind,
        parseHourMinuteChunks_one h1 n1 n2 _ gh1 gn1 gn2 hn, hsc, skip_single 'Z' _ (by decide),
        List.length_nil, ne_eq, not_true_eq_false, if_false]
      rw [if_neg (by omega)]
    · match rest, hclock with
      | h2 :: rest, hclock =>
        simp only [Bool.and_eq_true, decide_eq_true_eq] at hclock
        obtain ⟨⟨gh2, hh⟩, hclock⟩ := hclock
        obtain ⟨n1, n2, s1, s2, tail, rfl, gn1, gn2, hn, gs1, gs2, hs, hz, hf⟩ :=
          clockAccepted_shape rest hclock
        obtain ⟨ns, hsc⟩ := parseSecondChunks_accepted s1 s2 tail gs1 gs2 hs hz hf
        refine ⟨time.Date (fourDigits y1 y2 y3 y4) (twoDigits m1 m2) (twoDigits d1 d2)
          (twoDigits h1 h2) (twoDigits n1 n2) (twoDigits s1 s2) ns, ?_⟩
        simp only [time.Parse, hdc, Option.some_bind,
          parseHourMinuteChunks_two h1 h2 n1 n2 _ gh1 gh2 gn1 gn2 hh hn, hsc,
          skip_single 'Z' _ (by decide), List.length_nil, ne_eq, not_true_eq_false, if_false]
        rw [if_neg (by omega)]

/-- The grammar `timeAccepted` is what `time.Parse` takes, no more and no less. -/
theorem Parse_isSome_eq_accepted (value : List Char) :
    (time.Parse value).isSome = timeAccepted value := by
  cases ha : timeAccepted value with
  | true =>
    obtain ⟨t, ht⟩ := Parse_of_accepted value ha
    rw [ht]
    rfl
  | false =>
    rw [Parse_none_of_not_accepted value ha]
    rfl

/-- A string of the grammar ends with `Z`. -/
theorem timeAccepted_last (value : List Char) (h : timeAccepted value = true) :
    value.getLast? = some 'Z' := by
  have key : ∀ rest : List Char, clockAccepted rest = true → rest.getLast? = some 'Z' := by
    intro rest hc
    obtain ⟨n1, n2, s1, s2, tail, rfl, _, _, _, _, _, _, hz, _⟩ := clockAccepted_shape rest hc
    cases tail with
    | nil => simp at hz
    | cons t ts => simpa [List.getLast?_cons_cons] using hz
  match value, h with
  | y1 :: y2 :: y3 :: y4 :: c1 :: m1 :: m2 :: c2 :: d1 :: d2 :: c3 :: h1 :: rest, h =>
    simp only [timeAccepted, Bool.and_eq_true, Bool.or_eq_true] at h
    rcases h.2 with hc | hc
    · have := key rest hc
      cases rest with
      | nil => simp at this
      | cons r rs => simpa [List.getLast?_cons_cons] using this
    · match rest, hc with
      | h2 :: rest, hc =>
        simp only [Bool.and_eq_true] at hc
        have := key rest hc.2
        cases rest with
        | nil => simp at this
        | cons r rs => simpa [List.getLast?_cons_cons] using this

/-- A string of the grammar with an hour of two digits has every field in
range. -/
theorem timeAccepted_ranges (y1 y2 y3 y4 m1 m2 d1 d2 h1 h2 n1 n2 s1 s2 : Char)
    (tail : List Char)
    (h : timeAccepted (y1 :: y2 :: y3 :: y4 :: '-' :: m1 :: m2 :: '-' :: d1 :: d2 :: 'T' ::
      h1 :: h2 :: ':' :: n1 :: n2 :: ':' :: s1 :: s2 :: tail) = true) :
    1 ≤ twoDigits m1 m2 ∧ twoDigits m1 m2 ≤ 12 ∧ 1 ≤ twoDigits d1 d2 ∧
      twoDigits d1 d2 ≤ time.daysIn (twoDigits m1 m2) (fourDigits y1 y2 y3 y4) ∧
      twoDigits h1 h2 < 24 ∧ twoDigits n1 n2 < 60 ∧ twoDigits s1 s2 < 60 := by
  have hcolon : isDecimal ':' = false := by decide
  simp only [timeAccepted, clockAccepted, hcolon, Bool.and_false, Bool.false_and,
    Bool.false_or, Bool.and_eq_true, beq_iff_eq, decide_eq_true_eq, dateInRange] at h
  obtain ⟨⟨⟨_, hm0, hm1, hd0, hd1⟩, _⟩, ⟨_, hh⟩, ⟨⟨⟨⟨⟨⟨⟨_, hn⟩, _⟩, _⟩, _⟩, hs⟩, _⟩, _⟩⟩ := h
  exact ⟨hm0, hm1, hd0, hd1, hh, hn, hs⟩

/-- The time strings for which `EventTime.UnmarshalJSON` returns an error are
those outside the grammar. -/
theorem UnmarshalJSON_error_of_not_accepted (raw : String) (h : timeAccepted raw.data = false) :
    EventTime.UnmarshalJSON (.str raw) = .error "parsing time: cannot parse" := by
  simp [EventTime.UnmarshalJSON, unmarshalString, Parse_none_of_not_accepted raw.data h]

/-- The time strings that `EventTime.UnmarshalJSON` takes are those of the
grammar. -/
theorem UnmarshalJSON_ok_iff (raw : String) :
    (∃ t, EventTime.UnmarshalJSON (.str raw) = .ok t) ↔ timeAccepted raw.data = true := by
  constructor
  · rintro ⟨t, ht⟩
    cases ha : timeAccepted raw.data with
    | true => rfl
    | false => rw [UnmarshalJSON_error_of_not_accepted raw ha] at ht; simp at ht
  · intro h
    obtain ⟨t, ht⟩ := Parse_of_accepted raw.data h
    exact ⟨{ Time := t }, by simp [EventTime.UnmarshalJSON, unmarshalString, ht]⟩

/-- The decoding of the rows fails when the decoding of one row fails. -/
theorem decodeRows_error (rows : List RawEvent) (row : RawEvent) (hrow : row ∈ rows)
    (err : String) (h : decodeEvent row = .error err) :
    ∃ err', decodeRows rows = .error err' := by
  induction rows with
  | nil => simp at hrow
  | cons r rs ih =>
    rcases List.mem_cons.mp hrow with rfl | hm
    · exact ⟨err, by simp [decodeRows, h]⟩
    · obtain ⟨e', he'⟩ := ih hm
      simp only [decodeRows, he']
      cases decodeEvent r with
      | error e => exact ⟨e, rfl⟩
      | ok ev => exact ⟨e', rfl⟩

/-- The error of the decoding of the rows is the error that `UnmarshalJSON`
returned for the time of one of them. -/
theorem decodeRows_error_source (rows : List RawEvent) (err : String)
    (h : decodeRows rows = .error err) :
    ∃ r ∈ rows, ∃ v, r.Time = some v ∧ EventTime.UnmarshalJSON v = .error err := by
  induction rows with
  | nil => simp [decodeRows] at h
  | cons r rs ih =>
    simp only [decodeRows] at h
    cases hd : decodeEvent r with
    | error e =>
      rw [hd] at h
      simp only [Except.error.injEq] at h
      subst h
      refine ⟨r, by simp, ?_⟩
      unfold decodeEvent at hd
      cases ht : r.Time with
      | none => rw [ht] at hd; simp at hd
      | some v =>
        rw [ht] at hd
        refine ⟨v, rfl, ?_⟩
        simp only at hd
        cases hu : EventTime.UnmarshalJSON v with
        | error e' => rw [hu] at hd; simpa using hd
        | ok t => rw [hu] at hd; simp at hd
    | ok ev =>
      rw [hd] at h
      cases hr : decodeRows rs with
      | error e =>
        rw [hr] at h
        simp only [Except.error.injEq] at h
        subst h
        obtain ⟨r', hm, hv⟩ := ih hr
        exact ⟨r', by simp [hm], hv⟩
      | ok es => rw [hr] at h; simp at h

/-- C9 as the specification states it fails: the time `2024-02-01T8:15:00Z`,
whose hour has one digit, does not match the layout exactly, and neither does
a time with a comma before the fraction or with ten digits in the fraction; yet
`EventTime.UnmarshalJSON` returns no error for any of them, and `main` on a
batch with the first of them writes the fact of that row. -/
theorem C9_counterexample :
    layoutExact "2024-02-01T8:15:00Z".data = false ∧
      layoutExact "2024-02-01T08:15:00,5Z".data = false ∧
      layoutExact "2024-02-01T08:15:00.1234567890Z".data = false ∧
      EventTime.UnmarshalJSON (.str "2024-02-01T8:15:00Z") =
        .ok { Time := time.Date 2024 2 1 8 15 0 0 } ∧
      EventTime.UnmarshalJSON (.str "2024-02-01T08:15:00,5Z") =
        .ok { Time := time.Date 2024 2 1 8 15 0 500000000 } ∧
      EventTime.UnmarshalJSON (.str "2024-02-01T08:15:00.1234567890Z") =
        .ok { Time := time.Date 2024 2 1 8 15 0 123456789 } ∧
      requests (main (constTransport [shortHourRow] "OK" []) ()).1 =
        [authRequest (NewKpiDriveClient "https://development.kpi-drive.ru") "admin" "admin",
         eventsRequest (NewKpiDriveClient "https://development.kpi-drive.ru"),
         saveFactRequest (NewKpiDriveClient "https://development.kpi-drive.ru") token
           (populateFact
             { Author := scenarioEvent.Author,
               Time := { Time := time.Date 2024 2 1 8 15 0 0 },
               Params := scenarioEvent.Params } templateFact)] := by
  refine ⟨by decide, by decide, by decide, rfl, rfl, rfl, rfl⟩

/-- C9 (amended): the time strings that `EventTime.UnmarshalJSON` takes are
those of the grammar `timeAccepted`: `YYYY-MM-DD` with the month from 1 to 12
and the day in the month, `T`, an hour below 24 of one or two digits, `:MM:SS`
with minute and second below 60, no fraction or `.` or `,` and one or more
digits, and `Z` at the end. When the event query is answered by a body one of
whose rows has a time string outside this grammar, `EventTime.UnmarshalJSON`
returns an error for it, `GetEvents` returns for the whole body the error that
`UnmarshalJSON` returned for a row, and `main` makes the login and the query
request and no other: no fact is written, whatever the other rows are. Outside
the grammar are every string that does not end with `Z`, so every string that
ends with a numeric zone offset, and every string `YYYY-MM-DDTHH:MM:SS...` with
a month, day, hour, minute or second out of range. -/
theorem C9_bad_timestamp_fails_batch {σ : Type} (w : Transport σ) (s s1 s2 : σ)
    (authBody body : Body) (env : Response (ResponseData RawEvent))
    (row : RawEvent) (raw : String)
    (hauth : w s (authRequest (NewKpiDriveClient "https://development.kpi-drive.ru")
      "admin" "admin") = (s1, .ok authBody))
    (hquery : w s1 (eventsRequest (NewKpiDriveClient "https://development.kpi-drive.ru")) =
      (s2, .ok body))
    (henv : body.events = .ok env) (hrow : row ∈ env.Data.Rows)
    (htime : row.Time = some (.str raw)) (hbad : timeAccepted raw.data = false) :
    (∃ err, EventTime.UnmarshalJSON (.str raw) = .error err) ∧
      (∃ err, ((NewKpiDriveClient "https://development.kpi-drive.ru").GetEvents w s1).2.2 =
          .error err ∧
        ∃ r ∈ env.Data.Rows, ∃ v, r.Time = some v ∧ EventTime.UnmarshalJSON v = .error err) ∧
      requests (main w s).1 =
        [authRequest (NewKpiDriveClient "https://development.kpi-drive.ru") "admin" "admin",
         eventsRequest (NewKpiDriveClient "https://development.kpi-drive.ru")] ∧
      (main w s).2 = .returned ∧
      (∀ v : String, (∃ t, EventTime.UnmarshalJSON (.str v) = .ok t) ↔
        timeAccepted v.data = true) ∧
      (∀ v : String, v.data.getLast? ≠ some 'Z' →
        ∃ err, EventTime.UnmarshalJSON (.str v) = .error err) ∧
      (∀ (v : List Char) (sign a b c d : Char), sign = '+' ∨ sign = '-' →
        isDecimal a = true → isDecimal b = true → isDecimal c = true → isDecimal d = true →
        ∃ err, EventTime.UnmarshalJSON (.str (String.mk (v ++ [sign, a, b, ':', c, d]))) =
          .error err) ∧
      (∀ (y1 y2 y3 y4 m1 m2 d1 d2 h1 h2 n1 n2 s1 s2 : Char) (tail : List Char),
        twoDigits m1 m2 < 1 ∨ 12 < twoDigits m1 m2 ∨ twoDigits d1 d2 < 1 ∨
          time.daysIn (twoDigits m1 m2) (fourDigits y1 y2 y3 y4) < twoDigits d1 d2 ∨
          24 ≤ twoDigits h1 h2 ∨ 60 ≤ twoDigits n1 n2 ∨ 60 ≤ twoDigits s1 s2 →
        ∃ err, EventTime.UnmarshalJSON (.str (String.mk
          (y1 :: y2 :: y3 :: y4 :: '-' :: m1 :: m2 :: '-' :: d1 :: d2 :: 'T' ::
            h1 :: h2 :: ':' :: n1 :: n2 :: ':' :: s1 :: s2 :: tail))) = .error err) := by
  have hu := UnmarshalJSON_error_of_not_accepted raw hbad
  have hde : decodeEvent row = .error "parsing time: cannot parse" := by
    simp [decodeEvent, htime, hu]
  obtain ⟨e', he'⟩ := decodeRows_error _ row hrow _ hde
  have hun : unmarshalEvents body = .error e' := by
    simp [unmarshalEvents, henv, he']
  have hlast : ∀ v : String, v.data.getLast? ≠ some 'Z' → timeAccepted v.data = false := by
    intro v hv
    cases ha : timeAccepted v.data with
    | false => rfl
    | true => exact absurd (timeAccepted_last v.data ha) hv
  refine ⟨⟨_, hu⟩, ⟨e', ?_, decodeRows_error_source _ _ he'⟩, ?_, ?_, UnmarshalJSON_ok_iff,
    fun v hv => ⟨_, UnmarshalJSON_error_of_not_accepted v (hlast v hv)⟩, ?_, ?_⟩
  · simp [KpiDriveClient.GetEvents, hquery, hun]
  · simp [main, KpiDriveClient.Auth, KpiDriveClient.GetEvents, hauth, hquery, hun, requests]
  · simp [main, KpiDriveClient.Auth, KpiDriveClient.GetEvents, hauth, hquery, hun]
  · intro v sign a b c d _ _ _ _ hd
    refine ⟨_, UnmarshalJSON_error_of_not_accepted _ (hlast _ ?_)⟩
    have hl : (v ++ [sign, a, b, ':', c, d]).getLast? = some d := by
      rw [show v ++ [sign, a, b, ':', c, d] = (v ++ [sign, a, b, ':', c]) ++ [d] by simp]
      exact List.getLast?_concat _
    show (v ++ [sign, a, b, ':', c, d]).getLast? ≠ some 'Z'
    rw [hl]
    intro hz
    rw [Option.some.injEq] at hz
    rw [hz] at hd
    exact absurd hd (by decide)
  · intro y1 y2 y3 y4 m1 m2 d1 d2 h1 h2 n1 n2 s1 s2 tail hr
    refine ⟨_, UnmarshalJSON_error_of_not_accepted _ ?_⟩
    cases ha : timeAccepted (String.mk (y1 :: y2 :: y3 :: y4 :: '-' :: m1 :: m2 :: '-' :: d1 ::
        d2 :: 'T' :: h1 :: h2 :: ':' :: n1 :: n2 :: ':' :: s1 :: s2 :: tail)).data with
    | false => rfl
    | true =>
      have := timeAccepted_ranges y1 y2 y3 y4 m1 m2 d1 d2 h1 h2 n1 n2 s1 s2 tail ha
      omega

theorem C9_witness :
    (∃ err, EventTime.UnmarshalJSON (.str "2024-02-01T08:15:00") = .error err) ∧
      (∃ err, ((NewKpiDriveClient "https://development.kpi-drive.ru").GetEvents
          (constTransport [scenarioRow, malformedRow] "OK" []) ()).2.2 = .error err ∧
        ∃ r ∈ [scenarioRow, malformedRow], ∃ v, r.Time = some v ∧
          EventTime.UnmarshalJSON v = .error err) ∧
      requests (main (constTransport [scenarioRow, malformedRow] "OK" []) ()).1 =
        [authRequest (NewKpiDriveClient "https://development.kpi-drive.ru") "admin" "admin",
         eventsRequest (NewKpiDriveClient "https://development.kpi-drive.ru")] ∧
      (main (constTransport [scenarioRow, malformedRow] "OK" []) ()).2 = .returned ∧
      (∀ v : String, (∃ t, EventTime.UnmarshalJSON (.str v) = .ok t) ↔
        timeAccepted v.data = true) ∧
      (∀ v : String, v.data.getLast? ≠ some 'Z' →
        ∃ err, EventTime.UnmarshalJSON (.str v) = .error err) ∧
      (∀ (v : List Char) (sign a b c d : Char), sign = '+' ∨ sign = '-' →
        isDecimal a = true → isDecimal b = true → isDecimal c = true → isDecimal d = true →
        ∃ err, EventTime.UnmarshalJSON (.str (String.mk (v ++ [sign, a, b, ':', c, d]))) =
          .error err) ∧
      (∀ (y1 y2 y3 y4 m1 m2 d1 d2 h1 h2 n1 n2 s1 s2 : Char) (tail : List Char),
        twoDigits m1 m2 < 1 ∨ 12 < twoDigits m1 m2 ∨ twoDigits d1 d2 < 1 ∨
          time.daysIn (twoDigits m1 m2) (fourDigits y1 y2 y3 y4) < twoDigits d1 d2 ∨
          24 ≤ twoDigits h1 h2 ∨ 60 ≤ twoDigits n1 n2 ∨ 60 ≤ twoDigits s1 s2 →
        ∃ err, EventTime.UnmarshalJSON (.str (String.mk
          (y1 :: y2 :: y3 :: y4 :: '-' :: m1 :: m2 :: '-' :: d1 :: d2 :: 'T' ::
            h1 :: h2 :: ':' :: n1 :: n2 :: ':' :: s1 :: s2 :: tail))) = .error err) :=
  C9_bad_timestamp_fails_batch (constTransport [scenarioRow, malformedRow] "OK" []) () () ()
    _ _ _ malformedRow "2024-02-01T08:15:00" rfl rfl rfl (by simp) rfl (by decide)

/-- C10: when the login call is answered and the event query is answered by a
body that decodes to an envelope with no rows, `main` makes the login request,
prints the answer of the login, makes the query request and returns: one login
call, one query call, no write and no error line. -/
theorem C10_empty_batch {σ : Type} (w : Transport σ) (s s1 s2 : σ)
    (authBody body : Body) (env : Response (ResponseData RawEvent))
    (hauth : w s (authRequest (NewKpiDriveClient "https://development.kpi-drive.ru")
      "admin" "admin") = (s1, .ok authBody))
    (hquery : w s1 (eventsRequest (NewKpiDriveClient "https://development.kpi-drive.ru")) =
      (s2, .ok body))
    (henv : body.events = .ok env) (hrows : env.Data.Rows = []) :
    main w s =
      ([.request (authRequest (NewKpiDriveClient "https://development.kpi-drive.ru")
          "admin" "admin"),
        .println ("auth result: " ++ authBody.text),
        .request (eventsRequest (NewKpiDriveClient "https://development.kpi-drive.ru"))],
       .returned) := by
  have hun : unmarshalEvents body =
      .ok { Messages := env.Messages, Status := env.Status,
            Data := { Page := env.Data.Page, PagesCount := env.Data.PagesCount,
                      RowsCount := env.Data.RowsCount, Rows := [] } } := by
    simp [unmarshalEvents, henv, hrows, decodeRows]
  simp [main, KpiDriveClient.Auth, KpiDriveClient.GetEvents, hauth, hquery, hun, mainLoop]

theorem C10_witness :
    main (constTransport [] "OK" []) () =
      ([.request (authRequest (NewKpiDriveClient "https://development.kpi-drive.ru")
          "admin" "admin"),
        .println ("auth result: " ++ "\x7b\x7d"),
        .request (eventsRequest (NewKpiDriveClient "https://development.kpi-drive.ru"))],
       .returned) :=
  C10_empty_batch (constTransport [] "OK" []) () () () _ _ _ rfl rfl rfl rfl

end KpiDrive
